import Mathlib

/-!
Task manager of the trdl vault plugin: worker loop and lifecycle callbacks.

A shallow embedding of `pkg/tasks_manager/worker/worker.go` and
`pkg/tasks_manager/manager.go`.

Conventions of the embedding.

* Go `string` is `String`, `[]byte` is `List UInt8`, `error` is `Option GoError`
  (`none` is `nil`).  A `GoError` carries an identity besides its message, so that
  two errors with the same text are still different values.
* The world a callback or an action acts on is an explicit state `σ`; a callback
  takes the world and leaves a world, the worker threads the state through.
* Mutexes are not modelled: every operation is taken as one atomic step.
* `logical.Storage` is a key-value list together with a fault plan: the head of
  `faults` says whether the next storage operation succeeds (`none`) or returns a
  given error.  An empty plan means every later operation succeeds.
* `time.Now()` is an explicit argument `now`.
* The scopes triggered by a job's cancel function, and the state the function handed
  to `HoldRunningJobByTaskUUID` acts on, are explicit arguments and results.
* A panic is an outcome: a callback or an action either returns or panics with a
  value.  Nothing in the two files recovers, so a panic unwinds the closure of the
  loop of `Worker.Start`, runs its deferred `resetCurrentJob`, and ends the loop.
-/

namespace Trdl

/-- Go `[]byte`. -/
abbrev Bytes := List UInt8

/-- Go `error` value: an identity and the text returned by `Error()`. -/
structure GoError where
  ident : Nat
  msg : String
deriving DecidableEq, Repr

/-- The method `Error()` of a Go error. -/
def GoError.Error (e : GoError) : String := e.msg

/-- Go conversion `[]byte(s)`: the UTF-8 bytes of the string. -/
def stringBytes (s : String) : Bytes := s.toUTF8.data.toList

/-- Go `context.Context`, reduced to an identity and its cancellation flag. -/
structure GoContext where
  ident : Nat
  cancelled : Bool
deriving DecidableEq, Repr

namespace worker

/-- What one run of an action does: the error it returns, the bytes it wrote to the
ambient log sink, and the world it leaves. When the action panics instead of
returning, `panic` holds the panic value; there is then no returned error (`ok`). -/
structure ActionResult (σ : Type) where
  err : Option GoError
  logged : Bytes
  world : σ
  panic : Option String := none
  ok : panic.isSome = true → err = none := by simp

/-- Queue element `worker.Task`. -/
structure Task (σ : Type) where
  Context : GoContext
  UUID : String
  Action : GoContext → σ → ActionResult σ

/-- Modelled from the spec: `job.go` is not among the sources. A Job wraps the task
uuid, the action, a cancellable scope derived from the task's base scope, and a log
buffer (spec 4.B). -/
structure Job (σ : Type) where
  ctx : GoContext
  taskUUID : String
  taskAction : GoContext → σ → ActionResult σ
  logBuf : Bytes

/-- Modelled from the spec: `newJob` of the absent `job.go`. The scope is derived
from the task's base scope, the log buffer starts empty. -/
def newJob {σ : Type} (task : Task σ) : Job σ :=
  { ctx := task.Context
    taskUUID := task.UUID
    taskAction := task.Action
    logBuf := [] }

/-- Modelled from the spec: `job.action()` runs the task's action with the job's
scope and returns its result unchanged. -/
def Job.action {σ : Type} (job : Job σ) (world : σ) : ActionResult σ :=
  job.taskAction job.ctx world

/-- Modelled from the spec: the log buffer is append-only; this is the job after the
action has appended `written` to it. -/
def Job.appendLog {σ : Type} (job : Job σ) (written : Bytes) : Job σ :=
  { job with logBuf := job.logBuf ++ written }

/-- Modelled from the spec: `job.Log()` is a snapshot of the log buffer. -/
def Job.Log {σ : Type} (job : Job σ) : Bytes := job.logBuf

/-- What a call of a callback does: the world it leaves and, when the callback panics
instead of returning, the panic value. -/
structure CallResult (σ : Type) where
  world : σ
  panic : Option String := none

/-- The struct `Callbacks` of worker.go; the callbacks return nothing to the worker. -/
structure Callbacks (σ : Type) where
  TaskStartedCallback : GoContext → String → σ → CallResult σ
  TaskFailedCallback : GoContext → String → Bytes → Option GoError → σ → CallResult σ
  TaskCompletedCallback : GoContext → String → Bytes → σ → CallResult σ

/-- The struct `Worker` of worker.go (without its mutex). -/
structure Worker (σ : Type) where
  currentJob : Option (Job σ)
  taskChan : List (Task σ)
  callbacks : Callbacks σ

/-- `NewWorker` of worker.go. -/
def NewWorker {σ : Type} (taskChan : List (Task σ)) (callbacks : Callbacks σ) : Worker σ :=
  { currentJob := none, taskChan := taskChan, callbacks := callbacks }

/-- `Worker.setCurrentJob`. -/
def Worker.setCurrentJob {σ : Type} (q : Worker σ) (job : Job σ) : Worker σ :=
  { q with currentJob := some job }

/-- `Worker.resetCurrentJob`. -/
def Worker.resetCurrentJob {σ : Type} (q : Worker σ) : Worker σ :=
  { q with currentJob := none }

/-- The steps of one iteration of the loop of `Worker.Start`. -/
inductive Step where
  | publish
  | started
  | action
  | terminal
  | clear
deriving DecidableEq, Repr

/-- The state of one iteration of the loop of `Worker.Start`: the worker, the world,
the local variable `job`, the error the action returned, and the panic that is
unwinding the closure, if any. -/
structure Iteration (σ : Type) where
  q : Worker σ
  world : σ
  job : Job σ
  err : Option GoError
  panic : Option String

/-- Lines 31-32 of worker.go: `job := newJob(task)` and `q.setCurrentJob(job)`. -/
def Worker.publish {σ : Type} (q : Worker σ) (task : Task σ) (world : σ) : Iteration σ :=
  { q := q.setCurrentJob (newJob task), world := world, job := newJob task, err := none,
    panic := none }

/-- Line 35 of worker.go: `q.callbacks.TaskStartedCallback(job.ctx, job.taskUUID)`. -/
def Iteration.started {σ : Type} (it : Iteration σ) : Iteration σ :=
  { it with
    world := (it.q.callbacks.TaskStartedCallback it.job.ctx it.job.taskUUID it.world).world
    panic := (it.q.callbacks.TaskStartedCallback it.job.ctx it.job.taskUUID it.world).panic }

/-- Line 36 of worker.go: `err := job.action()`. The bytes the action logs land in the
log buffer of the job, which the current-job slot points to as well. -/
def Iteration.action {σ : Type} (it : Iteration σ) : Iteration σ :=
  { it with
    q := it.q.setCurrentJob (it.job.appendLog (it.job.action it.world).logged)
    job := it.job.appendLog (it.job.action it.world).logged
    world := (it.job.action it.world).world
    err := (it.job.action it.world).err
    panic := (it.job.action it.world).panic }

/-- The call of the terminal callback, lines 36-40 of worker.go: `TaskFailedCallback`
with the error of the action when it is not nil, else `TaskCompletedCallback`; both
get `job.Log()`. -/
def Iteration.terminalCall {σ : Type} (it : Iteration σ) : CallResult σ :=
  match it.err with
  | some err =>
    it.q.callbacks.TaskFailedCallback it.job.ctx it.job.taskUUID it.job.Log (some err) it.world
  | none => it.q.callbacks.TaskCompletedCallback it.job.ctx it.job.taskUUID it.job.Log it.world

/-- Lines 36-40 of worker.go: the terminal callback. -/
def Iteration.terminal {σ : Type} (it : Iteration σ) : Iteration σ :=
  { it with world := it.terminalCall.world, panic := it.terminalCall.panic }

/-- Line 33 of worker.go, `defer q.resetCurrentJob()`, when the closure is left. -/
def Iteration.clear {σ : Type} (it : Iteration σ) : Iteration σ :=
  { it with q := it.q.resetCurrentJob }

/-- The statements of the closure of `Worker.Start` after the publication of the job,
in source order; the flag says whether the statement is deferred, that is, whether it
also runs while a panic unwinds the closure. -/
def iterationSteps {σ : Type} : List (Step × Bool × (Iteration σ → Iteration σ)) :=
  [(Step.started, false, Iteration.started),
    (Step.action, false, Iteration.action),
    (Step.terminal, false, Iteration.terminal),
    (Step.clear, true, Iteration.clear)]

/-- Run statements from a state: a statement that is not deferred is skipped while a
panic unwinds. The result lists the statements taken, each with the state it leaves. -/
def runSteps {σ : Type} :
    List (Step × Bool × (Iteration σ → Iteration σ)) → Iteration σ → List (Step × Iteration σ)
  | [], _ => []
  | (label, deferred, f) :: rest, it =>
    if it.panic.isSome = true ∧ deferred = false then runSteps rest it
    else (label, f it) :: runSteps rest (f it)

/-- The closure of `Worker.Start` for one dequeued task, step by step: the steps taken,
each with the state it leaves, from the publication of the job on. -/
def Worker.processTaskSteps {σ : Type} (q : Worker σ) (task : Task σ) (world : σ) :
    List (Step × Iteration σ) :=
  (Step.publish, q.publish task world) :: runSteps iterationSteps (q.publish task world)

/-- The state in which the closure of `Worker.Start` is left for one dequeued task:
that of the last step taken. -/
def Worker.runTask {σ : Type} (q : Worker σ) (task : Task σ) (world : σ) : Iteration σ :=
  (q.processTaskSteps task world).foldl (fun _ st => st.2) (q.publish task world)

/-- The body of the loop of `Worker.Start` for one dequeued task: publish the job,
call the started callback, run the action, call the terminal callback with the log
read after the action, and (deferred) clear the current job. The result is the worker
and the world when the closure is left. -/
def Worker.processTask {σ : Type} (q : Worker σ) (task : Task σ) (world : σ) : Worker σ × σ :=
  ((q.runTask task world).q, (q.runTask task world).world)

/-- The state of a run of `Worker.Start`: the worker, the world, and the panic that
ended the run, if any. -/
structure Run (σ : Type) where
  q : Worker σ
  world : σ
  panic : Option String

/-- The loop of `Worker.Start` over the tasks that the channel delivers, in order. A
panic that leaves the closure leaves `Start` too: the tasks behind stay undelivered. -/
def Worker.drain {σ : Type} (q : Worker σ) : List (Task σ) → σ → Run σ
  | [], world => { q := { q with taskChan := [] }, world := world, panic := none }
  | task :: rest, world =>
    match (Worker.runTask { q with taskChan := rest } task world).panic with
    | some msg =>
      { q := (Worker.runTask { q with taskChan := rest } task world).q
        world := (Worker.runTask { q with taskChan := rest } task world).world
        panic := some msg }
    | none =>
      Worker.drain (Worker.runTask { q with taskChan := rest } task world).q rest
        (Worker.runTask { q with taskChan := rest } task world).world

/-- `Worker.Start`: receive tasks from the channel and process them one by one. The
Go loop never returns; the result here is the state in which the worker blocks on
the emptied channel, or in which a panic has left the loop. -/
def Worker.Start {σ : Type} (q : Worker σ) (world : σ) : Run σ :=
  q.drain q.taskChan world

/-- `Worker.HasRunningJobByTaskUUID`: the answer and the worker afterwards. -/
def Worker.HasRunningJobByTaskUUID {σ : Type} (q : Worker σ) (uuid : String) : Bool × Worker σ :=
  match q.currentJob with
  | none => (false, q)
  | some job => (decide (job.taskUUID = uuid), q)

/-- Modelled from the spec: `job.ctxCancelFunc()` of the absent `job.go` triggers the
scope of the job (spec 4.B). The record of the triggered scopes is kept outside the
worker, as the state of a Go context is; a call appends the scope of the job. -/
def Job.ctxCancelFunc {σ : Type} (job : Job σ) (cancelled : List GoContext) : List GoContext :=
  cancelled ++ [job.ctx]

/-- `Worker.HoldRunningJobByTaskUUID`: the answer, the worker afterwards, and the
state `obs` that the function `fn` (the Go argument `do`) acts on. -/
def Worker.HoldRunningJobByTaskUUID {σ τ : Type} (q : Worker σ) (uuid : String)
    (fn : Job σ → τ → τ) (obs : τ) : Bool × Worker σ × τ :=
  match q.currentJob with
  | none => (false, q, obs)
  | some job =>
    if job.taskUUID ≠ uuid then (false, q, obs)
    else (true, q, fn job obs)

/-- `Worker.CancelRunningJobByTaskUUID`: the answer, the worker afterwards, and the
record of the triggered scopes. -/
def Worker.CancelRunningJobByTaskUUID {σ : Type} (q : Worker σ) (uuid : String)
    (cancelled : List GoContext) : Bool × Worker σ × List GoContext :=
  match q.currentJob with
  | none => (false, q, cancelled)
  | some job =>
    if job.taskUUID = uuid then (true, q, job.ctxCancelFunc cancelled)
    else (false, q, cancelled)

/-- What an observer sees of a run of the worker. -/
inductive Event where
  | started (uuid : String)
  | ran (uuid : String)
  | completed (uuid : String) (log : Bytes)
  | failed (uuid : String) (log : Bytes) (err : Option GoError)
deriving DecidableEq, Repr

/-- A terminal callback invocation. -/
def Event.isTerminal : Event → Bool
  | .completed _ _ => true
  | .failed _ _ _ => true
  | _ => false

/-- The uuid an event is about. -/
def Event.uuid : Event → String
  | .started u => u
  | .ran u => u
  | .completed u _ => u
  | .failed u _ _ => u

/-- Callbacks that, besides acting on the world, append their invocation to a
trace kept next to the world. -/
def Callbacks.traced {σ : Type} (cb : Callbacks σ) : Callbacks (σ × List Event) :=
  { TaskStartedCallback := fun ctx uuid w =>
      { world := ((cb.TaskStartedCallback ctx uuid w.1).world, w.2 ++ [Event.started uuid])
        panic := (cb.TaskStartedCallback ctx uuid w.1).panic }
    TaskFailedCallback := fun ctx uuid log err w =>
      { world :=
          ((cb.TaskFailedCallback ctx uuid log err w.1).world,
            w.2 ++ [Event.failed uuid log err])
        panic := (cb.TaskFailedCallback ctx uuid log err w.1).panic }
    TaskCompletedCallback := fun ctx uuid log w =>
      { world :=
          ((cb.TaskCompletedCallback ctx uuid log w.1).world,
            w.2 ++ [Event.completed uuid log])
        panic := (cb.TaskCompletedCallback ctx uuid log w.1).panic } }

/-- The same task acting on a world with a trace; its action records that it ran. -/
def Task.traced {σ : Type} (task : Task σ) : Task (σ × List Event) :=
  { Context := task.Context
    UUID := task.UUID
    Action := fun ctx w =>
      { err := (task.Action ctx w.1).err
        logged := (task.Action ctx w.1).logged
        world := ((task.Action ctx w.1).world, w.2 ++ [Event.ran task.UUID])
        panic := (task.Action ctx w.1).panic
        ok := (task.Action ctx w.1).ok } }

/-- The terminal callback invocations of a trace. -/
def terminals (tr : List Event) : List Event := tr.filter Event.isTerminal

end worker

namespace tasks_manager

/-- The sentinel `BusyError` of manager.go. -/
def BusyError : GoError := { ident := 0, msg := "busy" }

/-- The constant `taskChanSize` of manager.go. -/
def taskChanSize : Nat := 128

/-- The constant `taskStatusQueued` of manager.go. -/
def taskStatusQueued : String := "QUEUED"

/-- The constant `taskStatusRunning` of manager.go. -/
def taskStatusRunning : String := "RUNNING"

/-- The constant `taskStatusCompleted` of manager.go. -/
def taskStatusCompleted : String := "COMPLETED"

/-- The constant `taskStatusFailed` of manager.go. -/
def taskStatusFailed : String := "FAILED"

/-- The constant `taskStatusCanceled` of manager.go. -/
def taskStatusCanceled : String := "CANCELED"

/-- Modelled from the spec: the persisted task record of the absent `storage.go`
(spec 3): uuid, status, created, modified, reason. -/
structure Task where
  UUID : String
  Status : String
  Created : Nat
  Modified : Nat
  Reason : String
deriving DecidableEq, Repr

/-- A stored value: an encoded task record or raw bytes. The codec of the absent
`storage.go` is abstracted to this tag; it round-trips every field (spec 4.D). -/
inductive Entry where
  | record (task : Task)
  | raw (value : Bytes)
deriving DecidableEq, Repr

/-- The host storage `logical.Storage`: its entries and the plan of the outcomes of
the coming operations (`some err`: the operation fails with `err`). -/
structure Storage where
  entries : List (String × Entry)
  faults : List (Option GoError)
deriving DecidableEq, Repr

/-- The value bound to a key in an entry list, the first binding winning. -/
def lookupKey (key : String) : List (String × Entry) → Option Entry
  | [] => none
  | kv :: rest => if kv.1 = key then some kv.2 else lookupKey key rest

/-- The entry list without any binding of a key. -/
def eraseKey (key : String) : List (String × Entry) → List (String × Entry)
  | [] => []
  | kv :: rest => if kv.1 = key then eraseKey key rest else kv :: eraseKey key rest

/-- The entry list with `key` bound to `value` and to nothing else. -/
def putEntry (key : String) (value : Entry) (l : List (String × Entry)) :
    List (String × Entry) :=
  (key, value) :: eraseKey key l

/-- Consume the outcome planned for the next storage operation. -/
def Storage.step (s : Storage) : Option GoError × Storage :=
  match s.faults with
  | [] => (none, s)
  | f :: fs => (f, { s with faults := fs })

/-- `Storage.Get(ctx, key)`. -/
def Storage.Get (s : Storage) (key : String) : Except GoError (Option Entry) × Storage :=
  match s.step with
  | (some err, s) => (.error err, s)
  | (none, s) => (.ok (lookupKey key s.entries), s)

/-- `Storage.Put(ctx, entry)`. -/
def Storage.Put (s : Storage) (key : String) (value : Entry) : Option GoError × Storage :=
  match s.step with
  | (some err, s) => (some err, s)
  | (none, s) => (none, { s with entries := putEntry key value s.entries })

/-- `Storage.Delete(ctx, key)`. -/
def Storage.Delete (s : Storage) (key : String) : Option GoError × Storage :=
  match s.step with
  | (some err, s) => (some err, s)
  | (none, s) => (none, { s with entries := eraseKey key s.entries })

/-- The keys of an entry list that start with `pfx`, with `pfx` stripped. -/
def keysUnder (pfx : String) : List (String × Entry) → List String
  | [] => []
  | kv :: rest =>
    if pfx.data.isPrefixOf kv.1.data then
      String.mk (kv.1.data.drop pfx.data.length) :: keysUnder pfx rest
    else keysUnder pfx rest

/-- `Storage.List(ctx, prefix)`. -/
def Storage.List (s : Storage) (pfx : String) : Except GoError (List String) × Storage :=
  match s.step with
  | (some err, s) => (.error err, s)
  | (none, s) => (.ok (keysUnder pfx s.entries), s)

/-- Modelled from the spec: the key `current_running_task` (spec 4.D) of the absent
`storage.go`. -/
def storageKeyCurrentRunningTask : String := "current_running_task"

/-- Modelled from the spec: the prefix of the keys `task/<uuid>` (spec 4.D). -/
def storageKeyPrefixTask : String := "task/"

/-- Modelled from the spec: the prefix of the keys `task_log/<uuid>` (spec 4.D). -/
def storageKeyPrefixTaskLog : String := "task_log/"

/-- Modelled from the spec: the key `task/<uuid>` of a task record. -/
def taskStorageKey (uuid : String) : String := storageKeyPrefixTask ++ uuid

/-- Modelled from the spec: the key `task_log/<uuid>` of a task log. -/
def taskLogStorageKey (uuid : String) : String := storageKeyPrefixTaskLog ++ uuid

/-- The error of decoding a value that is not an encoded task record. -/
def decodeError : GoError := { ident := 1, msg := "unable to decode task" }

/-- Modelled from the spec: `getTaskFromStorage` of the absent `storage.go`: read
`task/<uuid>` and decode it; an absent key gives a nil task. -/
def getTaskFromStorage (s : Storage) (uuid : String) : Except GoError (Option Task) × Storage :=
  match s.Get (taskStorageKey uuid) with
  | (.error err, s) => (.error err, s)
  | (.ok none, s) => (.ok none, s)
  | (.ok (some (.record task)), s) => (.ok (some task), s)
  | (.ok (some (.raw _)), s) => (.error decodeError, s)

/-- Modelled from the spec: `putTaskIntoStorage` of the absent `storage.go`: encode
the record and write it under `task/<uuid>` of its own uuid. -/
def putTaskIntoStorage (s : Storage) (task : Task) : Option GoError × Storage :=
  s.Put (taskStorageKey task.UUID) (.record task)

/-- Modelled from the spec: the reason written by the stale sweep (spec 4.E). -/
def staleReason : String := "stale — process restart or crash"

/-- Modelled from the spec: the stale sweep over the listed uuids: every record that
still bears status RUNNING is rewritten to FAILED with the stale reason. -/
def sweepStale (now : Nat) : List String → Storage → Option GoError × Storage
  | [], s => (none, s)
  | uuid :: rest, s =>
    match getTaskFromStorage s uuid with
    | (.error err, s) => (some err, s)
    | (.ok none, s) => sweepStale now rest s
    | (.ok (some task), s) =>
      if task.Status = taskStatusRunning then
        match putTaskIntoStorage s
            { task with Status := taskStatusFailed, Modified := now, Reason := staleReason } with
        | (some err, s) => (some err, s)
        | (none, s) => sweepStale now rest s
      else sweepStale now rest s

/-- Modelled from the spec: `markStaleTaskAsFailed` of the absent `storage.go`
(spec 4.E, step 1 of taskStarted): list the task records and sweep them. -/
def markStaleTaskAsFailed (now : Nat) (s : Storage) : Option GoError × Storage :=
  match s.List storageKeyPrefixTask with
  | (.error err, s) => (some err, s)
  | (.ok uuids, s) => sweepStale now uuids s

/-- How a lifecycle callback ends: it returns an error value (nil or not), or it
panics. -/
inductive Outcome where
  | returned (err : Option GoError)
  | panicked (msg : String)
deriving DecidableEq, Repr

/-- The lower-case hexadecimal digit of `n % 16`. -/
def hexDigit (n : Nat) : Char :=
  "0123456789abcdef".data.getD (n % 16) (Char.ofNat 48)

/-- The last `width` lower-case hexadecimal digits of `n`, most significant first. -/
def hexDigits : Nat → Nat → List Char
  | 0, _ => []
  | width + 1, n => hexDigits width (n / 16) ++ [hexDigit n]

/-- `strconv.IsPrint` on a code point. Up to U+00FF this is the fast path of the Go
function; above U+00FF the Go function consults its tables of the Unicode classes,
which are not reproduced: every such code point is taken as printable. -/
def isPrintRune (r : Nat) : Bool :=
  if r ≤ 255 then
    (decide (32 ≤ r) && decide (r ≤ 126)) || (decide (161 ≤ r) && decide (r ≠ 173))
  else true

/-- The escape of one rune in `strconv.Quote`: the quote and the backslash get a
backslash, printable runes stand for themselves, the control characters with a
letter escape get it, other bytes below U+0080 are written `\xhh`, other runes
`\uhhhh` or `\Uhhhhhhhh`. -/
def quoteRune (c : Char) : List Char :=
  if c.toNat = 34 ∨ c.toNat = 92 then [Char.ofNat 92, c]
  else if isPrintRune c.toNat = true then [c]
  else if c.toNat = 7 then [Char.ofNat 92, 'a']
  else if c.toNat = 8 then [Char.ofNat 92, 'b']
  else if c.toNat = 12 then [Char.ofNat 92, 'f']
  else if c.toNat = 10 then [Char.ofNat 92, 'n']
  else if c.toNat = 13 then [Char.ofNat 92, 'r']
  else if c.toNat = 9 then [Char.ofNat 92, 't']
  else if c.toNat = 11 then [Char.ofNat 92, 'v']
  else if c.toNat < 32 ∨ c.toNat = 127 then Char.ofNat 92 :: 'x' :: hexDigits 2 c.toNat
  else if c.toNat < 65536 then Char.ofNat 92 :: 'u' :: hexDigits 4 c.toNat
  else Char.ofNat 92 :: 'U' :: hexDigits 8 c.toNat

/-- The verb `%q` of `fmt` on a string: `strconv.Quote`. -/
def goQuote (s : String) : String :=
  String.mk (Char.ofNat 34 :: ((s.data.map quoteRune).flatten ++ [Char.ofNat 34]))

/-- The panic message `fmt.Sprintf("unexpected error: task %q not found in storage", uuid)`. -/
def notFoundMessage (uuid : String) : String :=
  "unexpected error: task " ++ goQuote uuid ++ " not found in storage"

/-- `Manager.taskStartedCallback` of manager.go. -/
def taskStartedCallback (now : Nat) (_ctx : GoContext) (uuid : String) (s : Storage) :
    Outcome × Storage :=
  match markStaleTaskAsFailed now s with
  | (some err, s) => (.returned (some err), s)
  | (none, s) =>
  match s.Delete storageKeyCurrentRunningTask with
  | (some err, s) => (.returned (some err), s)
  | (none, s) =>
  match getTaskFromStorage s uuid with
  | (.error err, s) => (.returned (some err), s)
  | (.ok none, s) => (.panicked (notFoundMessage uuid), s)
  | (.ok (some task), s) =>
  match putTaskIntoStorage s { task with Status := taskStatusRunning, Modified := now } with
  | (some err, s) => (.returned (some err), s)
  | (none, s) =>
  match s.Put storageKeyCurrentRunningTask (.raw (stringBytes uuid)) with
  | (some err, s) => (.returned (some err), s)
  | (none, s) => (.returned none, s)

/-- `Manager.taskCompletedCallback` of manager.go. -/
def taskCompletedCallback (now : Nat) (_ctx : GoContext) (uuid : String) (log : Bytes)
    (s : Storage) : Outcome × Storage :=
  match s.Delete storageKeyCurrentRunningTask with
  | (some err, s) => (.returned (some err), s)
  | (none, s) =>
  match getTaskFromStorage s uuid with
  | (.error err, s) => (.returned (some err), s)
  | (.ok none, s) => (.panicked (notFoundMessage uuid), s)
  | (.ok (some task), s) =>
  match putTaskIntoStorage s { task with Status := taskStatusCompleted, Modified := now } with
  | (some err, s) => (.returned (some err), s)
  | (none, s) =>
  match s.Put (taskLogStorageKey uuid) (.raw log) with
  | (some err, s) => (.returned (some err), s)
  | (none, s) => (.returned none, s)

/-- `Manager.taskFailedCallback` of manager.go. -/
def taskFailedCallback (now : Nat) (_ctx : GoContext) (uuid : String) (log : Bytes)
    (taskErr : Option GoError) (s : Storage) : Outcome × Storage :=
  match s.Delete storageKeyCurrentRunningTask with
  | (some err, s) => (.returned (some err), s)
  | (none, s) =>
  match getTaskFromStorage s uuid with
  | (.error err, s) => (.returned (some err), s)
  | (.ok none, s) => (.panicked (notFoundMessage uuid), s)
  | (.ok (some task), s) =>
  let task := { task with Status := taskStatusFailed, Modified := now }
  let task :=
    match taskErr with
    | some e => { task with Reason := e.Error }
    | none => task
  match putTaskIntoStorage s task with
  | (some err, s) => (.returned (some err), s)
  | (none, s) =>
  match s.Put (taskLogStorageKey uuid) (.raw log) with
  | (some err, s) => (.returned (some err), s)
  | (none, s) => (.returned none, s)

/-- The task function handed to the admission operations: `func(ctx, storage) error`. -/
abbrev TaskFunc := GoContext → Storage → worker.ActionResult Storage

/-- The struct `Manager` of manager.go: the buffered channel of tasks, oldest first.
The storage handle is passed to each operation, the mutex is not modelled. -/
structure Manager where
  taskChan : List (worker.Task Storage)

/-- `NewManager` of manager.go: an empty channel of capacity `taskChanSize`. The
worker it starts runs beside the manager and is modelled by `worker.Worker`. -/
def NewManager : Manager := { taskChan := [] }

/-- Receive from the channel: the oldest task, if any, and the channel without it. -/
def Manager.receive (m : Manager) : Option (worker.Task Storage) × Manager :=
  match m.taskChan with
  | [] => (none, m)
  | task :: rest => (some task, { m with taskChan := rest })

/-- Receive `n` times from the channel, collecting the tasks that arrive. -/
def Manager.receiveMany : Nat → Manager → List (worker.Task Storage) × Manager
  | 0, m => ([], m)
  | n + 1, m =>
    match m.receive with
    | (none, m) => ([], m)
    | (some task, m) =>
      let more := Manager.receiveMany n m
      (task :: more.1, more.2)

/-- Modelled from the spec: the admission step shared by the three policies of the
absent `actions.go` (spec 4.E, 5): write the QUEUED record under the new uuid, then
send the task to the channel; a full channel is an admission failure (Busy). `fresh`
is the uuid assigned at admission. -/
def Manager.addTask (m : Manager) (fresh : String) (now : Nat) (ctx : GoContext)
    (s : Storage) (taskFunc : TaskFunc) : (String × Option GoError) × Manager × Storage :=
  match putTaskIntoStorage s
      { UUID := fresh, Status := taskStatusQueued, Created := now, Modified := now,
        Reason := "" } with
  | (some err, s) => (("", some err), m, s)
  | (none, s) =>
    if m.taskChan.length < taskChanSize then
      ((fresh, none),
        { m with taskChan := m.taskChan ++ [{ Context := ctx, UUID := fresh, Action := taskFunc }] },
        s)
    else (("", some BusyError), m, s)

/-- Modelled from the spec: `Manager.RunTask` of the absent `actions.go` (spec 4.E):
Busy unless `current_running_task` is absent and the queue is empty, otherwise the
admission step. -/
def Manager.RunTask (m : Manager) (fresh : String) (now : Nat) (ctx : GoContext)
    (s : Storage) (taskFunc : TaskFunc) : (String × Option GoError) × Manager × Storage :=
  match s.Get storageKeyCurrentRunningTask with
  | (.error err, s) => (("", some err), m, s)
  | (.ok (some _), s) => (("", some BusyError), m, s)
  | (.ok none, s) =>
    if m.taskChan.length = 0 then m.addTask fresh now ctx s taskFunc
    else (("", some BusyError), m, s)

/-- Modelled from the spec: `Manager.AddTask` of the absent `actions.go` (spec 4.E):
the admission step without precondition. -/
def Manager.AddTask (m : Manager) (fresh : String) (now : Nat) (ctx : GoContext)
    (s : Storage) (taskFunc : TaskFunc) : (String × Option GoError) × Manager × Storage :=
  m.addTask fresh now ctx s taskFunc

/-- Modelled from the spec: the test "no QUEUED records exist" of `AddOptionalTask`
(spec 4.E, 8.3) over the listed uuids: each record is read in turn, the first one that
bears status QUEUED answers true; a storage error ends the scan. -/
def anyQueued : List String → Storage → Except GoError Bool × Storage
  | [], s => (.ok false, s)
  | uuid :: rest, s =>
    match getTaskFromStorage s uuid with
    | (.error err, s) => (.error err, s)
    | (.ok none, s) => anyQueued rest s
    | (.ok (some task), s) =>
      if task.Status = taskStatusQueued then (.ok true, s) else anyQueued rest s

/-- Modelled from the spec: `Manager.AddOptionalTask` of the absent `actions.go`
(spec 4.E, 8.3): the task records are listed and read; while any QUEUED record exists
the call returns `("", false, nil)`, otherwise it is the admission step with
`added = true`. A failure of storage or of the admission step is returned verbatim;
the spec does not say what `added` is then, the model returns false. -/
def Manager.AddOptionalTask (m : Manager) (fresh : String) (now : Nat) (ctx : GoContext)
    (s : Storage) (taskFunc : TaskFunc) :
    (String × Bool × Option GoError) × Manager × Storage :=
  match s.List storageKeyPrefixTask with
  | (.error err, s) => (("", false, some err), m, s)
  | (.ok uuids, s) =>
    match anyQueued uuids s with
    | (.error err, s) => (("", false, some err), m, s)
    | (.ok true, s) => (("", false, none), m, s)
    | (.ok false, s) =>
      match m.addTask fresh now ctx s taskFunc with
      | ((uuid, some err), m, s) => ((uuid, false, some err), m, s)
      | ((uuid, none), m, s) => ((uuid, true, none), m, s)

/-- One admission request: the uuid it will be assigned, the time, the scope and the
task function. -/
structure Admission where
  fresh : String
  now : Nat
  ctx : GoContext
  taskFunc : TaskFunc

/-- Successive `AddTask` calls, one per request, with nothing draining the channel:
the results in call order and the final manager and storage. -/
def Manager.AddTasks (m : Manager) (s : Storage) :
    List Admission → List (String × Option GoError) × Manager × Storage
  | [] => ([], m, s)
  | a :: rest =>
    match m.AddTask a.fresh a.now a.ctx s a.taskFunc with
    | (r, m, s) =>
      let more := Manager.AddTasks m s rest
      (r :: more.1, more.2)

/-- The reason `taskFailedCallback` leaves in the record: the message of the task
error, or the prior reason when the task error is nil. -/
def reasonAfterFailure (taskErr : Option GoError) (prior : String) : String :=
  match taskErr with
  | some e => e.Error
  | none => prior

/-- A sample record: task "A", running since time 3. -/
def sampleRunningA : Task :=
  { UUID := "A", Status := taskStatusRunning, Created := 1, Modified := 3, Reason := "" }

/-- A sample record: task "B", queued at time 2. -/
def sampleQueuedB : Task :=
  { UUID := "B", Status := taskStatusQueued, Created := 2, Modified := 2, Reason := "" }

/-- A sample storage that never fails: "A" is running and is the current task, "B"
is queued. -/
def sampleStorage : Storage :=
  { entries :=
      [(storageKeyCurrentRunningTask, Entry.raw (stringBytes "A")),
        (taskStorageKey "A", Entry.record sampleRunningA),
        (taskStorageKey "B", Entry.record sampleQueuedB)]
    faults := [] }

/-- A sample scope. -/
def sampleContext : GoContext := { ident := 0, cancelled := false }

/-- A sample storage error. -/
def sampleStorageError : GoError := { ident := 7, msg := "storage is unavailable" }

/-- The sample storage with a fault plan: the next four operations succeed, the
fifth fails. -/
def sampleFaultyStorage : Storage :=
  { sampleStorage with faults := [none, none, none, none, some sampleStorageError] }

/-- The sample storage with a fault plan: the next operation succeeds, the second
fails. -/
def sampleReadFaultStorage : Storage :=
  { sampleStorage with faults := [none, some sampleStorageError] }

/-- A sample record: task "A", completed at time 5. -/
def sampleCompletedA : Task :=
  { UUID := "A", Status := taskStatusCompleted, Created := 1, Modified := 5, Reason := "" }

/-- A sample storage that never fails and holds the completed task "A" only. -/
def sampleDoneStorage : Storage :=
  { entries := [(taskStorageKey "A", Entry.record sampleCompletedA)], faults := [] }

/-- The entry is a record with status RUNNING. -/
def Entry.isRunningRecord : Entry → Bool
  | .record task => decide (task.Status = taskStatusRunning)
  | .raw _ => false

/-- The entry, if a record, is that of the uuid whose task key is `key`. -/
def Entry.keyedBy (key : String) : Entry → Bool
  | .record task => decide (taskStorageKey task.UUID = key)
  | .raw _ => true

/-- Storage operations succeed: no failure is planned. -/
def Storage.reliable (s : Storage) : Prop :=
  ∀ f ∈ s.faults, f = none

/-- The record written at admission. -/
def queuedTask (fresh : String) (now : Nat) : Task :=
  { UUID := fresh, Status := taskStatusQueued, Created := now, Modified := now, Reason := "" }

/-- A sample task function: it does nothing and returns nil, as `noneTask` of
actions_test.go. -/
def noneTask : TaskFunc := fun _ s => { err := none, logged := [], world := s }

/-- A sample storage that never fails and is empty, as the `InmemStorage` of
actions_test.go. -/
def emptyStorage : Storage := { entries := [], faults := [] }

/-- An empty storage whose next operation fails. -/
def sampleFailingStorage : Storage := { entries := [], faults := [some sampleStorageError] }

/-- An empty storage whose second operation fails. -/
def sampleFailingSecondStorage : Storage :=
  { entries := [], faults := [none, some sampleStorageError] }

/-- Two sample admission requests. -/
def sampleAdmissions : List Admission :=
  [{ fresh := "u1", now := 1, ctx := sampleContext, taskFunc := noneTask },
    { fresh := "u2", now := 2, ctx := sampleContext, taskFunc := noneTask }]

/-- The task sent to the channel for an admission request. -/
def Admission.task (a : Admission) : worker.Task Storage :=
  { Context := a.ctx, UUID := a.fresh, Action := a.taskFunc }

/-- The panic of an outcome, if it is one. -/
def Outcome.panic : Outcome → Option String
  | .returned _ => none
  | .panicked msg => some msg

/-- The callbacks that `Manager.startNewWorker` hands to the worker: the three
lifecycle callbacks of the manager. The worker does not look at the error they
return; a panic of theirs reaches the worker. `time.Now()` reads `now` throughout. -/
def Manager.callbacks (now : Nat) : worker.Callbacks Storage :=
  { TaskStartedCallback := fun ctx uuid s =>
      { world := (taskStartedCallback now ctx uuid s).2
        panic := (taskStartedCallback now ctx uuid s).1.panic }
    TaskFailedCallback := fun ctx uuid log err s =>
      { world := (taskFailedCallback now ctx uuid log err s).2
        panic := (taskFailedCallback now ctx uuid log err s).1.panic }
    TaskCompletedCallback := fun ctx uuid log s =>
      { world := (taskCompletedCallback now ctx uuid log s).2
        panic := (taskCompletedCallback now ctx uuid log s).1.panic } }

/-- `Manager.startNewWorker` of manager.go: a new worker on the channel of the manager
with the lifecycle callbacks. -/
def Manager.startNewWorker (m : Manager) (now : Nat) : worker.Worker Storage :=
  worker.NewWorker m.taskChan (Manager.callbacks now)

/-- A sample Go error with a message, as `errors.New("boom")`. -/
def sampleBoomError : GoError := { ident := 8, msg := "boom" }

/-- A sample Go error with an empty message, as `errors.New("")`. -/
def sampleEmptyError : GoError := { ident := 9, msg := "" }

/-- A sample task function that logs "hi" and returns the error "boom". -/
def boomTask : TaskFunc :=
  fun _ s => { err := some sampleBoomError, logged := [104, 105], world := s }

/-- A sample task function that returns an error whose message is empty. -/
def emptyMessageTask : TaskFunc :=
  fun _ s => { err := some sampleEmptyError, logged := [], world := s }

/-- A sample worker task: "B" with the task function `boomTask`. -/
def sampleBoomTask : worker.Task Storage :=
  { Context := sampleContext, UUID := "B", Action := boomTask }

/-- A sample worker task: "B" with the task function `emptyMessageTask`. -/
def sampleEmptyMessageTask : worker.Task Storage :=
  { Context := sampleContext, UUID := "B", Action := emptyMessageTask }

/-- A sample job in the worker: that of the task "B". -/
def sampleJob : worker.Job Storage := worker.newJob sampleBoomTask

/-- A sample worker that is running the job of "B". -/
def sampleBusyWorker : worker.Worker Storage :=
  { currentJob := some sampleJob, taskChan := [], callbacks := Manager.callbacks 9 }

/-- Every value stored under a task key decodes to a record. -/
def Storage.decodable (s : Storage) : Prop :=
  ∀ uuid value, lookupKey (taskStorageKey uuid) s.entries ≠ some (Entry.raw value)

/-- The record stored for a uuid, when `task/<uuid>` holds a record. -/
def Storage.task (s : Storage) (uuid : String) : Option Task :=
  match lookupKey (taskStorageKey uuid) s.entries with
  | some (.record task) => some task
  | _ => none

/-- The value of `current_running_task`, when present. -/
def Storage.currentRunningTask (s : Storage) : Option Entry :=
  lookupKey storageKeyCurrentRunningTask s.entries

/-- The value stored under the task-log key of a uuid, when present. -/
def Storage.taskLog (s : Storage) (uuid : String) : Option Entry :=
  lookupKey (taskLogStorageKey uuid) s.entries

/-- The storage holds a record for `uuid` with status RUNNING. -/
def Storage.isRunning (s : Storage) (uuid : String) : Prop :=
  ∃ task, s.task uuid = some task ∧ task.Status = taskStatusRunning

/-- The equivalence of spec 8.4: `current_running_task` is present if and only if
exactly one record has status RUNNING, and then the pointer holds the uuid of that
record. -/
def Storage.pointerMatchesRunning (s : Storage) : Prop :=
  (s.currentRunningTask.isSome = true ↔ ∃ uuid, ∀ v, s.isRunning v ↔ v = uuid) ∧
    ∀ uuid, (∀ v, s.isRunning v ↔ v = uuid) →
      s.currentRunningTask = some (.raw (stringBytes uuid))

/-- Every record is stored under the key of its own uuid, as `putTaskIntoStorage`
writes it. -/
def Storage.wellKeyed (s : Storage) : Prop :=
  ∀ uuid task, s.task uuid = some task → task.UUID = uuid

end tasks_manager

end Trdl


namespace Trdl

namespace worker

/-- The steps of one iteration, by cases on the panics of the started callback and of
the action. -/
theorem processTaskSteps_eq {σ : Type} (q : Worker σ) (task : Task σ) (world : σ) :
    q.processTaskSteps task world =
      (Step.publish, q.publish task world) ::
        (Step.started, (q.publish task world).started) ::
          (if (q.publish task world).started.panic.isSome = true then
            [(Step.clear, (q.publish task world).started.clear)]
          else
            (Step.action, (q.publish task world).started.action) ::
              (if (q.publish task world).started.action.panic.isSome = true then
                [(Step.clear, (q.publish task world).started.action.clear)]
              else
                [(Step.terminal, (q.publish task world).started.action.terminal),
                  (Step.clear, (q.publish task world).started.action.terminal.clear)])) := by
  have hp : (q.publish task world).panic = none := rfl
  simp only [Worker.processTaskSteps, iterationSteps, runSteps, hp, Option.isSome_none,
    Bool.false_eq_true, false_and, if_false, and_true]
  by_cases h1 : (q.publish task world).started.panic.isSome = true
  · simp [h1]
  · simp only [h1, if_false]
    by_cases h2 : (q.publish task world).started.action.panic.isSome = true
    · simp [h2]
    · simp [h2]

/-- The state in which one iteration is left, by cases on the panics of the started
callback and of the action. -/
theorem runTask_eq {σ : Type} (q : Worker σ) (task : Task σ) (world : σ) :
    q.runTask task world =
      if (q.publish task world).started.panic.isSome = true then
        (q.publish task world).started.clear
      else if (q.publish task world).started.action.panic.isSome = true then
        (q.publish task world).started.action.clear
      else (q.publish task world).started.action.terminal.clear := by
  rw [Worker.runTask, processTaskSteps_eq]
  by_cases h1 : (q.publish task world).started.panic.isSome = true
  · simp [h1]
  · by_cases h2 : (q.publish task world).started.action.panic.isSome = true
    · simp [h1, h2]
    · simp [h1, h2]

end worker

end Trdl

namespace Trdl

namespace worker

theorem isSome_of_eq_some {α : Type} {x : Option α} {a : α} (h : x = some a) :
    x.isSome = true := by
  rw [h]
  rfl

theorem not_isSome_of_eq_none {α : Type} {x : Option α} (h : x = none) :
    ¬ x.isSome = true := by
  rw [h]
  simp

/-- An iteration in which the started callback panics: the closure is left with the
world and the panic of that callback. -/
theorem runTask_of_started_panic {σ : Type} (q : Worker σ) (task : Task σ) (world : σ)
    (msg : String)
    (hc : (q.callbacks.TaskStartedCallback task.Context task.UUID world).panic = some msg) :
    (q.runTask task world).world
        = (q.callbacks.TaskStartedCallback task.Context task.UUID world).world ∧
      (q.runTask task world).panic = some msg := by
  have h1 : (q.publish task world).started.panic.isSome = true := isSome_of_eq_some hc
  rw [runTask_eq, if_pos h1]
  exact ⟨rfl, hc⟩

/-- An iteration in which the started callback returns and the action panics. -/
theorem runTask_of_action_panic {σ : Type} (q : Worker σ) (task : Task σ) (world : σ)
    (msg : String)
    (hc : (q.callbacks.TaskStartedCallback task.Context task.UUID world).panic = none)
    (hr : (task.Action task.Context
      (q.callbacks.TaskStartedCallback task.Context task.UUID world).world).panic = some msg) :
    (q.runTask task world).world
        = (task.Action task.Context
          (q.callbacks.TaskStartedCallback task.Context task.UUID world).world).world ∧
      (q.runTask task world).panic = some msg := by
  have h1 : ¬ (q.publish task world).started.panic.isSome = true := not_isSome_of_eq_none hc
  have h2 : (q.publish task world).started.action.panic.isSome = true := isSome_of_eq_some hr
  rw [runTask_eq, if_neg h1, if_pos h2]
  exact ⟨rfl, hr⟩

/-- An iteration in which the started callback and the action return, the action with
a nil error: the closure is left as `TaskCompletedCallback` leaves it, called with the
uuid of the task and the bytes the action logged. -/
theorem runTask_of_completed {σ : Type} (q : Worker σ) (task : Task σ) (world : σ)
    (hc : (q.callbacks.TaskStartedCallback task.Context task.UUID world).panic = none)
    (hr : (task.Action task.Context
      (q.callbacks.TaskStartedCallback task.Context task.UUID world).world).panic = none)
    (he : (task.Action task.Context
      (q.callbacks.TaskStartedCallback task.Context task.UUID world).world).err = none) :
    (q.runTask task world).world
        = (q.callbacks.TaskCompletedCallback task.Context task.UUID
          (task.Action task.Context
            (q.callbacks.TaskStartedCallback task.Context task.UUID world).world).logged
          (task.Action task.Context
            (q.callbacks.TaskStartedCallback task.Context task.UUID world).world).world).world ∧
      (q.runTask task world).panic
        = (q.callbacks.TaskCompletedCallback task.Context task.UUID
          (task.Action task.Context
            (q.callbacks.TaskStartedCallback task.Context task.UUID world).world).logged
          (task.Action task.Context
            (q.callbacks.TaskStartedCallback task.Context task.UUID world).world).world).panic := by
  have h1 : ¬ (q.publish task world).started.panic.isSome = true := not_isSome_of_eq_none hc
  have h2 : ¬ (q.publish task world).started.action.panic.isSome = true :=
    not_isSome_of_eq_none hr
  have h3 : (q.publish task world).started.action.err = none := he
  rw [runTask_eq, if_neg h1, if_neg h2]
  simp only [Iteration.clear, Iteration.terminal, Iteration.terminalCall, h3]
  exact ⟨rfl, rfl⟩

/-- An iteration in which the started callback and the action return, the action with
the error `e`: the closure is left as `TaskFailedCallback` leaves it, called with the
uuid of the task, the bytes the action logged and `e`. -/
theorem runTask_of_failed {σ : Type} (q : Worker σ) (task : Task σ) (world : σ) (e : GoError)
    (hc : (q.callbacks.TaskStartedCallback task.Context task.UUID world).panic = none)
    (hr : (task.Action task.Context
      (q.callbacks.TaskStartedCallback task.Context task.UUID world).world).panic = none)
    (he : (task.Action task.Context
      (q.callbacks.TaskStartedCallback task.Context task.UUID world).world).err = some e) :
    (q.runTask task world).world
        = (q.callbacks.TaskFailedCallback task.Context task.UUID
          (task.Action task.Context
            (q.callbacks.TaskStartedCallback task.Context task.UUID world).world).logged
          (some e)
          (task.Action task.Context
            (q.callbacks.TaskStartedCallback task.Context task.UUID world).world).world).world ∧
      (q.runTask task world).panic
        = (q.callbacks.TaskFailedCallback task.Context task.UUID
          (task.Action task.Context
            (q.callbacks.TaskStartedCallback task.Context task.UUID world).world).logged
          (some e)
          (task.Action task.Context
            (q.callbacks.TaskStartedCallback task.Context task.UUID world).world).world).panic := by
  have h1 : ¬ (q.publish task world).started.panic.isSome = true := not_isSome_of_eq_none hc
  have h2 : ¬ (q.publish task world).started.action.panic.isSome = true :=
    not_isSome_of_eq_none hr
  have h3 : (q.publish task world).started.action.err = some e := he
  rw [runTask_eq, if_neg h1, if_neg h2]
  simp only [Iteration.clear, Iteration.terminal, Iteration.terminalCall, h3]
  exact ⟨rfl, rfl⟩

/-- An iteration leaves the callbacks of the worker as they were and the current-job
slot empty. -/
theorem runTask_worker {σ : Type} (q : Worker σ) (task : Task σ) (world : σ) :
    (q.runTask task world).q.callbacks = q.callbacks ∧
      (q.runTask task world).q.currentJob = none := by
  rw [runTask_eq]
  split_ifs <;> exact ⟨rfl, rfl⟩

/-- The world and the panic an iteration leaves depend on the worker through its
callbacks only. -/
theorem runTask_congr {σ : Type} (q q1 : Worker σ) (h : q.callbacks = q1.callbacks)
    (task : Task σ) (world : σ) :
    (q.runTask task world).world = (q1.runTask task world).world ∧
      (q.runTask task world).panic = (q1.runTask task world).panic := by
  cases hc : (q.callbacks.TaskStartedCallback task.Context task.UUID world).panic with
  | some msg =>
    have hc1 := hc
    rw [h] at hc1
    obtain ⟨a1, a2⟩ := runTask_of_started_panic q task world msg hc
    obtain ⟨b1, b2⟩ := runTask_of_started_panic q1 task world msg hc1
    exact ⟨by rw [a1, b1, h], by rw [a2, b2]⟩
  | none =>
    have hc1 := hc
    rw [h] at hc1
    cases hr : (task.Action task.Context
        (q.callbacks.TaskStartedCallback task.Context task.UUID world).world).panic with
    | some msg =>
      have hr1 := hr
      rw [h] at hr1
      obtain ⟨a1, a2⟩ := runTask_of_action_panic q task world msg hc hr
      obtain ⟨b1, b2⟩ := runTask_of_action_panic q1 task world msg hc1 hr1
      exact ⟨by rw [a1, b1, h], by rw [a2, b2]⟩
    | none =>
      have hr1 := hr
      rw [h] at hr1
      cases he : (task.Action task.Context
          (q.callbacks.TaskStartedCallback task.Context task.UUID world).world).err with
      | none =>
        have he1 := he
        rw [h] at he1
        obtain ⟨a1, a2⟩ := runTask_of_completed q task world hc hr he
        obtain ⟨b1, b2⟩ := runTask_of_completed q1 task world hc1 hr1 he1
        exact ⟨by rw [a1, b1, h], by rw [a2, b2, h]⟩
      | some e =>
        have he1 := he
        rw [h] at he1
        obtain ⟨a1, a2⟩ := runTask_of_failed q task world e hc hr he
        obtain ⟨b1, b2⟩ := runTask_of_failed q1 task world e hc1 hr1 he1
        exact ⟨by rw [a1, b1, h], by rw [a2, b2, h]⟩

end worker

end Trdl

namespace Trdl

namespace worker

theorem drain_cons_panic {σ : Type} (q : Worker σ) (task : Task σ) (rest : List (Task σ))
    (world : σ) (msg : String)
    (h : (Worker.runTask { q with taskChan := rest } task world).panic = some msg) :
    q.drain (task :: rest) world =
      { q := (Worker.runTask { q with taskChan := rest } task world).q
        world := (Worker.runTask { q with taskChan := rest } task world).world
        panic := some msg } := by
  rw [Worker.drain]
  simp only [h]

theorem drain_cons_ok {σ : Type} (q : Worker σ) (task : Task σ) (rest : List (Task σ))
    (world : σ) (h : (Worker.runTask { q with taskChan := rest } task world).panic = none) :
    q.drain (task :: rest) world =
      Worker.drain (Worker.runTask { q with taskChan := rest } task world).q rest
        (Worker.runTask { q with taskChan := rest } task world).world := by
  rw [Worker.drain]
  simp only [h]

/-- The loop on a channel with one more task at the end: when the loop on the shorter
channel ends in a panic the last task is never received; otherwise the loop goes on
with one iteration for the last task, from the world the shorter run leaves. -/
theorem drain_snoc {σ : Type} (R : Worker σ) (task : Task σ) (tasks : List (Task σ)) :
    ∀ (q q1 : Worker σ) (world : σ), q.callbacks = R.callbacks → q1.callbacks = R.callbacks →
      (∀ msg, (q1.drain tasks world).panic = some msg →
        (q.drain (tasks ++ [task]) world).panic = some msg ∧
        (q.drain (tasks ++ [task]) world).world = (q1.drain tasks world).world) ∧
      ((q1.drain tasks world).panic = none →
        (q.drain (tasks ++ [task]) world).panic
          = (R.runTask task (q1.drain tasks world).world).panic ∧
        (q.drain (tasks ++ [task]) world).world
          = (R.runTask task (q1.drain tasks world).world).world) := by
  induction tasks with
  | nil =>
    intro q q1 world hq _
    have hcg := runTask_congr { q with taskChan := [] } R hq task world
    constructor
    · intro msg h
      simp [Worker.drain] at h
    · intro _
      simp only [List.nil_append]
      have hw : (q1.drain [] world).world = world := rfl
      rw [hw]
      cases hp : (Worker.runTask { q with taskChan := [] } task world).panic with
      | some msg =>
        rw [drain_cons_panic q task [] world msg hp]
        exact ⟨by rw [← hcg.2, hp], hcg.1⟩
      | none =>
        rw [drain_cons_ok q task [] world hp]
        exact ⟨by rw [← hcg.2, hp]; rfl, hcg.1⟩
  | cons t rest ih =>
    intro q q1 world hq hq1
    have hqq : ({ q with taskChan := rest ++ [task] } : Worker σ).callbacks
        = ({ q1 with taskChan := rest } : Worker σ).callbacks := by
      show q.callbacks = q1.callbacks
      rw [hq, hq1]
    have hcg := runTask_congr { q with taskChan := rest ++ [task] }
      { q1 with taskChan := rest } hqq t world
    cases hp1 : (Worker.runTask { q1 with taskChan := rest } t world).panic with
    | some msg0 =>
      have hp : (Worker.runTask { q with taskChan := rest ++ [task] } t world).panic
          = some msg0 := by rw [hcg.2, hp1]
      rw [List.cons_append, drain_cons_panic q t (rest ++ [task]) world msg0 hp,
        drain_cons_panic q1 t rest world msg0 hp1]
      constructor
      · intro msg h
        exact ⟨h, hcg.1⟩
      · intro h
        cases h
    | none =>
      have hp : (Worker.runTask { q with taskChan := rest ++ [task] } t world).panic
          = none := by rw [hcg.2, hp1]
      rw [List.cons_append, drain_cons_ok q t (rest ++ [task]) world hp,
        drain_cons_ok q1 t rest world hp1, hcg.1]
      exact ih _ _ _
        ((runTask_worker { q with taskChan := rest ++ [task] } t world).1.trans hq)
        ((runTask_worker { q1 with taskChan := rest } t world).1.trans hq1)

end worker

end Trdl

namespace Trdl

namespace worker

/-- One iteration with traced callbacks and a traced action only appends to the
trace. -/
theorem runTask_trace_extends {σ : Type} (cb : Callbacks σ) (q : Worker (σ × List Event))
    (hq : q.callbacks = cb.traced) (task : Task σ) (w : σ × List Event) :
    ∃ more, (q.runTask task.traced w).world.2 = w.2 ++ more := by
  rw [runTask_eq]
  split_ifs
  · refine ⟨[Event.started task.UUID], ?_⟩
    simp [Iteration.clear, Iteration.started, Worker.publish, Worker.setCurrentJob, newJob,
      hq, Callbacks.traced, Task.traced]
  · refine ⟨[Event.started task.UUID, Event.ran task.UUID], ?_⟩
    simp [Iteration.clear, Iteration.started, Iteration.action, Job.action, Worker.publish,
      Worker.setCurrentJob, newJob, hq, Callbacks.traced, Task.traced]
  · cases he : (q.publish task.traced w).started.action.err with
    | none =>
      refine ⟨[Event.started task.UUID, Event.ran task.UUID,
        Event.completed task.UUID (q.publish task.traced w).started.action.job.Log], ?_⟩
      simp only [Iteration.clear, Iteration.terminal, Iteration.terminalCall, he]
      simp [Iteration.started, Iteration.action, Job.action, Job.appendLog, Job.Log,
        Worker.publish, Worker.setCurrentJob, newJob, hq, Callbacks.traced, Task.traced]
    | some e =>
      refine ⟨[Event.started task.UUID, Event.ran task.UUID,
        Event.failed task.UUID (q.publish task.traced w).started.action.job.Log (some e)], ?_⟩
      simp only [Iteration.clear, Iteration.terminal, Iteration.terminalCall, he]
      simp [Iteration.started, Iteration.action, Job.action, Job.appendLog, Job.Log,
        Worker.publish, Worker.setCurrentJob, newJob, hq, Callbacks.traced, Task.traced]

/-- The loop with traced callbacks and traced actions only appends to the trace. -/
theorem drain_trace_extends {σ : Type} (cb : Callbacks σ) (tasks : List (Task σ)) :
    ∀ (q : Worker (σ × List Event)) (w : σ × List Event), q.callbacks = cb.traced →
      ∃ more, (q.drain (tasks.map Task.traced) w).world.2 = w.2 ++ more := by
  induction tasks with
  | nil =>
    intro q w _
    exact ⟨[], by simp [Worker.drain]⟩
  | cons t rest ih =>
    intro q w hq
    have hq0 : ({ q with taskChan := rest.map Task.traced } : Worker (σ × List Event)).callbacks
        = cb.traced := hq
    obtain ⟨m1, h1⟩ := runTask_trace_extends cb _ hq0 t w
    rw [List.map_cons]
    cases hp : (Worker.runTask { q with taskChan := rest.map Task.traced } t.traced w).panic with
    | some msg =>
      rw [drain_cons_panic q t.traced _ w msg hp]
      exact ⟨m1, h1⟩
    | none =>
      rw [drain_cons_ok q t.traced _ w hp]
      obtain ⟨m2, h2⟩ := ih (Worker.runTask { q with taskChan := rest.map Task.traced }
        t.traced w).q (Worker.runTask { q with taskChan := rest.map Task.traced } t.traced w).world
        ((runTask_worker _ t.traced w).1.trans hq0)
      exact ⟨m1 ++ m2, by rw [h2, h1, List.append_assoc]⟩

/-- The trace of the loop on a channel is the beginning of its trace on any longer
channel. -/
theorem drain_trace_prefix {σ : Type} (cb : Callbacks σ) (tasks rest : List (Task σ)) :
    ∀ (q q1 : Worker (σ × List Event)) (w : σ × List Event), q.callbacks = cb.traced →
      q1.callbacks = cb.traced →
      ∃ more, (q.drain ((tasks ++ rest).map Task.traced) w).world.2
        = (q1.drain (tasks.map Task.traced) w).world.2 ++ more := by
  induction tasks with
  | nil =>
    intro q q1 w hq _
    obtain ⟨more, h⟩ := drain_trace_extends cb rest q w hq
    exact ⟨more, by rw [List.nil_append, h]; rfl⟩
  | cons t tail ih =>
    intro q q1 w hq hq1
    have hqq : ({ q with taskChan := (tail ++ rest).map Task.traced } :
        Worker (σ × List Event)).callbacks
        = ({ q1 with taskChan := tail.map Task.traced } : Worker (σ × List Event)).callbacks := by
      show q.callbacks = q1.callbacks
      rw [hq, hq1]
    have hcg := runTask_congr _ _ hqq t.traced w
    rw [List.cons_append, List.map_cons, List.map_cons]
    cases hp1 : (Worker.runTask { q1 with taskChan := tail.map Task.traced } t.traced w).panic with
    | some msg =>
      have hp : (Worker.runTask { q with taskChan := (tail ++ rest).map Task.traced }
          t.traced w).panic = some msg := by rw [hcg.2, hp1]
      rw [drain_cons_panic q t.traced _ w msg hp, drain_cons_panic q1 t.traced _ w msg hp1]
      exact ⟨[], by simp only [List.append_nil]; rw [hcg.1]⟩
    | none =>
      have hp : (Worker.runTask { q with taskChan := (tail ++ rest).map Task.traced }
          t.traced w).panic = none := by rw [hcg.2, hp1]
      rw [drain_cons_ok q t.traced _ w hp, drain_cons_ok q1 t.traced _ w hp1, hcg.1]
      exact ih _ _ _
        ((runTask_worker { q with taskChan := (tail ++ rest).map Task.traced } t.traced w).1.trans
          hq)
        ((runTask_worker { q1 with taskChan := tail.map Task.traced } t.traced w).1.trans hq1)

/-- C1, amended: take a task that `Worker.Start` dequeues, that is, the task delivered
after the tasks `chan` on which the run did not end in a panic, and let `c` be what the
started callback does and `r` what the action does after it. When both return, exactly
one terminal callback is invoked after the started callback and the action:
`TaskCompletedCallback` when the action returned nil, otherwise `TaskFailedCallback`
with the very error of the action; either gets the uuid of the task and the log as it
stands after the action. When the started callback or the action panics, no terminal
callback is invoked and the panic leaves `Start`. Whatever tasks the channel delivers
afterwards, the trace of the run begins with the trace described here. -/
theorem Start_one_terminal_callback_per_task {σ : Type} (cb : Callbacks σ)
    (cur : Option (Job (σ × List Event))) (chan : List (Task σ)) (task : Task σ) (w : σ)
    (tr : List Event) (before after : Run (σ × List Event))
    (hbefore : Worker.Start
      { currentJob := cur, taskChan := chan.map Task.traced, callbacks := cb.traced }
      (w, tr) = before)
    (hafter : Worker.Start
      { currentJob := cur, taskChan := (chan ++ [task]).map Task.traced, callbacks := cb.traced }
      (w, tr) = after)
    (hlive : before.panic = none)
    (c : CallResult σ) (hc : cb.TaskStartedCallback task.Context task.UUID before.world.1 = c)
    (r : ActionResult σ) (hr : task.Action task.Context c.world = r) :
    (c.panic = none → r.panic = none → r.err = none →
      after.world =
        ((cb.TaskCompletedCallback task.Context task.UUID r.logged r.world).world,
          before.world.2 ++ [Event.started task.UUID, Event.ran task.UUID,
            Event.completed task.UUID r.logged]) ∧
      after.panic = (cb.TaskCompletedCallback task.Context task.UUID r.logged r.world).panic) ∧
    (c.panic = none → r.panic = none → ∀ e, r.err = some e →
      after.world =
        ((cb.TaskFailedCallback task.Context task.UUID r.logged (some e) r.world).world,
          before.world.2 ++ [Event.started task.UUID, Event.ran task.UUID,
            Event.failed task.UUID r.logged (some e)]) ∧
      after.panic
        = (cb.TaskFailedCallback task.Context task.UUID r.logged (some e) r.world).panic) ∧
    (∀ msg, c.panic = some msg →
      after.world = (c.world, before.world.2 ++ [Event.started task.UUID]) ∧
      after.panic = some msg) ∧
    (c.panic = none → ∀ msg, r.panic = some msg →
      after.world
        = (r.world, before.world.2 ++ [Event.started task.UUID, Event.ran task.UUID]) ∧
      after.panic = some msg) ∧
    (∀ rest : List (Task σ), ∃ more,
      (Worker.Start
        { currentJob := cur, taskChan := ((chan ++ [task]) ++ rest).map Task.traced,
          callbacks := cb.traced }
        (w, tr)).world.2 = after.world.2 ++ more) := by
  subst hbefore hafter hc hr
  have hlong : ∀ rest : List (Task σ), ∃ more,
      (Worker.Start
        { currentJob := cur, taskChan := ((chan ++ [task]) ++ rest).map Task.traced,
          callbacks := cb.traced }
        (w, tr)).world.2
      = (Worker.Start
        { currentJob := cur, taskChan := (chan ++ [task]).map Task.traced,
          callbacks := cb.traced }
        (w, tr)).world.2 ++ more :=
    fun rest => drain_trace_prefix cb (chan ++ [task]) rest _ _ (w, tr) rfl rfl
  have hs := (drain_snoc
    ({ currentJob := cur, taskChan := chan.map Task.traced, callbacks := cb.traced } :
      Worker (σ × List Event))
    task.traced (chan.map Task.traced)
    { currentJob := cur, taskChan := (chan ++ [task]).map Task.traced, callbacks := cb.traced }
    { currentJob := cur, taskChan := chan.map Task.traced, callbacks := cb.traced }
    (w, tr) rfl rfl).2 hlive
  refine ⟨?_, ?_, ?_, ?_, hlong⟩ <;>
    simp only [Worker.Start, List.map_append, List.map_cons, List.map_nil] at hs ⊢
  · intro hcp hrp he
    obtain ⟨h1, h2⟩ := runTask_of_completed
      ({ currentJob := cur, taskChan := chan.map Task.traced, callbacks := cb.traced } :
        Worker (σ × List Event)) task.traced _ hcp hrp he
    rw [hs.1, hs.2, h1, h2]
    simp [Callbacks.traced, Task.traced]
  · intro hcp hrp e he
    obtain ⟨h1, h2⟩ := runTask_of_failed
      ({ currentJob := cur, taskChan := chan.map Task.traced, callbacks := cb.traced } :
        Worker (σ × List Event)) task.traced _ e hcp hrp he
    rw [hs.1, hs.2, h1, h2]
    simp [Callbacks.traced, Task.traced]
  · intro msg hcp
    obtain ⟨h1, h2⟩ := runTask_of_started_panic
      ({ currentJob := cur, taskChan := chan.map Task.traced, callbacks := cb.traced } :
        Worker (σ × List Event)) task.traced _ msg hcp
    rw [hs.1, hs.2, h1, h2]
    simp [Callbacks.traced, Task.traced]
  · intro hcp msg hrp
    obtain ⟨h1, h2⟩ := runTask_of_action_panic
      ({ currentJob := cur, taskChan := chan.map Task.traced, callbacks := cb.traced } :
        Worker (σ × List Event)) task.traced _ msg hcp hrp
    rw [hs.1, hs.2, h1, h2]
    simp [Callbacks.traced, Task.traced]

end worker

end Trdl

namespace Trdl

namespace worker

/-- C10: `HasRunningJobByTaskUUID(uuid)` is true if and only if a current job exists
and its task uuid is `uuid`; the worker is left as it was; a worker that has not
started a job answers false for every uuid. -/
theorem HasRunningJobByTaskUUID_iff {σ : Type} (q : Worker σ) (uuid : String)
    (chan : List (Task σ)) (cb : Callbacks σ) :
    ((q.HasRunningJobByTaskUUID uuid).1 = true ↔
        ∃ job, q.currentJob = some job ∧ job.taskUUID = uuid) ∧
      (q.HasRunningJobByTaskUUID uuid).2 = q ∧
      ((NewWorker chan cb).HasRunningJobByTaskUUID uuid).1 = false := by
  refine ⟨?_, ?_, ?_⟩
  · unfold Worker.HasRunningJobByTaskUUID
    cases h : q.currentJob with
    | none => simp
    | some job => simp
  · unfold Worker.HasRunningJobByTaskUUID
    cases h : q.currentJob <;> rfl
  · rfl

end worker

end Trdl

namespace Trdl

namespace tasks_manager

theorem lookupKey_eraseKey_self (key : String) (l : List (String × Entry)) :
    lookupKey key (eraseKey key l) = none := by
  induction l with
  | nil => rfl
  | cons kv rest ih =>
    by_cases h : kv.1 = key <;> simp [eraseKey, lookupKey, h, ih]

theorem lookupKey_eraseKey_ne {key other : String} (h : other ≠ key)
    (l : List (String × Entry)) :
    lookupKey other (eraseKey key l) = lookupKey other l := by
  induction l with
  | nil => rfl
  | cons kv rest ih =>
    by_cases h1 : kv.1 = key
    · have h2 : ¬ kv.1 = other := fun h3 => h (h3.symm.trans h1)
      rw [eraseKey, if_pos h1, lookupKey, if_neg h2, ih]
    · by_cases h2 : kv.1 = other
      · rw [eraseKey, if_neg h1, lookupKey, if_pos h2, lookupKey, if_pos h2]
      · rw [eraseKey, if_neg h1, lookupKey, if_neg h2, lookupKey, if_neg h2, ih]

theorem lookupKey_putEntry_self (key : String) (value : Entry) (l : List (String × Entry)) :
    lookupKey key (putEntry key value l) = some value := by
  simp [putEntry, lookupKey]

theorem lookupKey_putEntry_ne {key other : String} (h : other ≠ key) (value : Entry)
    (l : List (String × Entry)) :
    lookupKey other (putEntry key value l) = lookupKey other l := by
  have h1 : ¬ key = other := fun h2 => h h2.symm
  rw [putEntry, lookupKey, if_neg h1, lookupKey_eraseKey_ne h]

theorem taskStorageKey_injective {u v : String} (h : taskStorageKey u = taskStorageKey v) :
    u = v := by
  have h1 := congrArg String.data h
  simp only [taskStorageKey, String.data_append, List.append_cancel_left_eq] at h1
  exact String.ext h1

theorem taskLogStorageKey_injective {u v : String}
    (h : taskLogStorageKey u = taskLogStorageKey v) : u = v := by
  have h1 := congrArg String.data h
  simp only [taskLogStorageKey, String.data_append, List.append_cancel_left_eq] at h1
  exact String.ext h1

theorem taskStorageKey_ne_taskLogStorageKey (u v : String) :
    taskStorageKey u ≠ taskLogStorageKey v := by
  intro h
  have h1 := congrArg String.data h
  simp [taskStorageKey, taskLogStorageKey, storageKeyPrefixTask, storageKeyPrefixTaskLog] at h1

theorem taskStorageKey_ne_current (u : String) :
    taskStorageKey u ≠ storageKeyCurrentRunningTask := by
  intro h
  have h1 := congrArg String.data h
  simp [taskStorageKey, storageKeyPrefixTask, storageKeyCurrentRunningTask] at h1

theorem taskLogStorageKey_ne_current (u : String) :
    taskLogStorageKey u ≠ storageKeyCurrentRunningTask := by
  intro h
  have h1 := congrArg String.data h
  simp [taskLogStorageKey, storageKeyPrefixTaskLog, storageKeyCurrentRunningTask] at h1

end tasks_manager

end Trdl

namespace Trdl

namespace tasks_manager

theorem step_entries (s : Storage) : s.step.2.entries = s.entries := by
  unfold Storage.step
  split <;> rfl

theorem Put_ok {s s1 : Storage} {key : String} {value : Entry}
    (h : s.Put key value = (none, s1)) :
    s1.entries = putEntry key value s.entries := by
  unfold Storage.Put at h
  have hs := step_entries s
  split at h
  · simp at h
  · next s2 heq =>
    rw [heq] at hs
    simp only [Prod.mk.injEq, true_and] at h
    rw [← h]
    simp only at hs ⊢
    rw [hs]

theorem Put_err {s s1 : Storage} {key : String} {value : Entry} {err : GoError}
    (h : s.Put key value = (some err, s1)) : s1.entries = s.entries := by
  unfold Storage.Put at h
  have hs := step_entries s
  split at h
  · next e s2 heq =>
    rw [heq] at hs
    simp only [Prod.mk.injEq] at h
    rw [← h.2]
    exact hs
  · simp at h

theorem Delete_ok {s s1 : Storage} {key : String}
    (h : s.Delete key = (none, s1)) : s1.entries = eraseKey key s.entries := by
  unfold Storage.Delete at h
  have hs := step_entries s
  split at h
  · simp at h
  · next s2 heq =>
    rw [heq] at hs
    simp only [Prod.mk.injEq, true_and] at h
    rw [← h]
    simp only at hs ⊢
    rw [hs]

theorem Delete_err {s s1 : Storage} {key : String} {err : GoError}
    (h : s.Delete key = (some err, s1)) : s1.entries = s.entries := by
  unfold Storage.Delete at h
  have hs := step_entries s
  split at h
  · next e s2 heq =>
    rw [heq] at hs
    simp only [Prod.mk.injEq] at h
    rw [← h.2]
    exact hs
  · simp at h

theorem Get_entries {s s1 : Storage} {key : String} {r : Except GoError (Option Entry)}
    (h : s.Get key = (r, s1)) : s1.entries = s.entries := by
  unfold Storage.Get at h
  have hs := step_entries s
  split at h
  · next e s2 heq =>
    rw [heq] at hs
    simp only [Prod.mk.injEq] at h
    rw [← h.2]
    exact hs
  · next s2 heq =>
    rw [heq] at hs
    simp only [Prod.mk.injEq] at h
    rw [← h.2]
    exact hs

theorem Get_ok {s s1 : Storage} {key : String} {x : Option Entry}
    (h : s.Get key = (.ok x, s1)) : x = lookupKey key s.entries := by
  have he := Get_entries h
  unfold Storage.Get at h
  split at h
  · simp at h
  · next s2 heq =>
    simp only [Prod.mk.injEq, Except.ok.injEq] at h
    rw [← h.1, h.2, he]

theorem List_entries {s s1 : Storage} {pfx : String} {r : Except GoError (List String)}
    (h : s.List pfx = (r, s1)) : s1.entries = s.entries := by
  unfold Storage.List at h
  have hs := step_entries s
  split at h
  · next e s2 heq =>
    rw [heq] at hs
    simp only [Prod.mk.injEq] at h
    rw [← h.2]
    exact hs
  · next s2 heq =>
    rw [heq] at hs
    simp only [Prod.mk.injEq] at h
    rw [← h.2]
    exact hs

theorem List_ok {s s1 : Storage} {pfx : String} {keys : List String}
    (h : s.List pfx = (.ok keys, s1)) : keys = keysUnder pfx s.entries := by
  have he := List_entries h
  unfold Storage.List at h
  split at h
  · simp at h
  · next s2 heq =>
    simp only [Prod.mk.injEq, Except.ok.injEq] at h
    rw [← h.1, h.2, he]

theorem getTaskFromStorage_entries {s s1 : Storage} {uuid : String}
    {r : Except GoError (Option Task)} (h : getTaskFromStorage s uuid = (r, s1)) :
    s1.entries = s.entries := by
  unfold getTaskFromStorage at h
  split at h <;> next heq =>
    simp only [Prod.mk.injEq] at h
    rw [← h.2]
    exact Get_entries heq

theorem getTaskFromStorage_ok {s s1 : Storage} {uuid : String} {x : Option Task}
    (h : getTaskFromStorage s uuid = (.ok x, s1)) :
    (x = s.task uuid) ∧ (x = none → lookupKey (taskStorageKey uuid) s.entries = none) := by
  unfold getTaskFromStorage at h
  split at h
  · simp at h
  · next s2 heq =>
    have hg := Get_ok heq
    simp only [Prod.mk.injEq, Except.ok.injEq] at h
    rw [← h.1]
    simp [Storage.task, ← hg]
  · next task s2 heq =>
    have hg := Get_ok heq
    simp only [Prod.mk.injEq, Except.ok.injEq] at h
    rw [← h.1]
    simp [Storage.task, ← hg]
  · simp at h

theorem putTaskIntoStorage_ok {s s1 : Storage} {task : Task}
    (h : putTaskIntoStorage s task = (none, s1)) :
    s1.entries = putEntry (taskStorageKey task.UUID) (Entry.record task) s.entries :=
  Put_ok h

theorem putTaskIntoStorage_err {s s1 : Storage} {task : Task} {err : GoError}
    (h : putTaskIntoStorage s task = (some err, s1)) : s1.entries = s.entries :=
  Put_err h

end tasks_manager

end Trdl

namespace Trdl

namespace tasks_manager

/-- The entries after a nil return of `taskCompletedCallback`. -/
theorem taskCompletedCallback_nil_entries {now : Nat} {ctx : GoContext} {uuid : String}
    {log : Bytes} {s s1 : Storage}
    (h : taskCompletedCallback now ctx uuid log s = (.returned none, s1)) :
    ∃ task, s.task uuid = some task ∧
      s1.entries =
        putEntry (taskLogStorageKey uuid) (Entry.raw log)
          (putEntry (taskStorageKey task.UUID)
            (Entry.record { task with Status := taskStatusCompleted, Modified := now })
            (eraseKey storageKeyCurrentRunningTask s.entries)) := by
  unfold taskCompletedCallback at h
  split at h
  · simp at h
  · next sa hD =>
    split at h
    · simp at h
    · simp at h
    · next task sb hG =>
      split at h
      · simp at h
      · next sc hP =>
        split at h
        · simp at h
        · next sd hL =>
          simp only [Prod.mk.injEq, true_and] at h
          subst h
          have e1 := Delete_ok hD
          have e2 := getTaskFromStorage_entries hG
          have e3 := (getTaskFromStorage_ok hG).1
          have e4 := putTaskIntoStorage_ok hP
          have e5 := Put_ok hL
          refine ⟨task, ?_, ?_⟩
          · rw [e3]
            simp [Storage.task, e1, lookupKey_eraseKey_ne (taskStorageKey_ne_current uuid)]
          · rw [e5, e4, e2, e1]

/-- The entries after a nil return of `taskFailedCallback`. -/
theorem taskFailedCallback_nil_entries {now : Nat} {ctx : GoContext} {uuid : String}
    {log : Bytes} {taskErr : Option GoError} {s s1 : Storage}
    (h : taskFailedCallback now ctx uuid log taskErr s = (.returned none, s1)) :
    ∃ task, s.task uuid = some task ∧
      s1.entries =
        putEntry (taskLogStorageKey uuid) (Entry.raw log)
          (putEntry (taskStorageKey task.UUID)
            (Entry.record
              { task with
                Status := taskStatusFailed
                Modified := now
                Reason := reasonAfterFailure taskErr task.Reason })
            (eraseKey storageKeyCurrentRunningTask s.entries)) := by
  unfold taskFailedCallback at h
  split at h
  · simp at h
  · next sa hD =>
    split at h
    · simp at h
    · simp at h
    · next task sb hG =>
      simp only at h
      split at h
      · simp at h
      · next sc hP =>
        split at h
        · simp at h
        · next sd hL =>
          simp only [Prod.mk.injEq, true_and] at h
          subst h
          have e1 := Delete_ok hD
          have e2 := getTaskFromStorage_entries hG
          have e3 := (getTaskFromStorage_ok hG).1
          have e4 := putTaskIntoStorage_ok hP
          have e5 := Put_ok hL
          refine ⟨task, ?_, ?_⟩
          · rw [e3]
            simp [Storage.task, e1, lookupKey_eraseKey_ne (taskStorageKey_ne_current uuid)]
          · rw [e5, e4, e2, e1]
            cases taskErr <;> rfl

end tasks_manager

end Trdl

namespace Trdl

namespace tasks_manager

/-- C3: when a record for `uuid` exists and `taskCompletedCallback(uuid, log)` returns
nil, `current_running_task` is absent, the record of `uuid` is the prior record with
status COMPLETED and `modified = now` (uuid, created and reason unchanged), and the
task-log key of `uuid` holds exactly `log`. -/
theorem taskCompletedCallback_nil_effect (now : Nat) (ctx : GoContext) (uuid : String)
    (log : Bytes) (s s1 : Storage) (task : Task)
    (hrec : s.task uuid = some task) (hkey : task.UUID = uuid)
    (h : taskCompletedCallback now ctx uuid log s = (.returned none, s1)) :
    s1.currentRunningTask = none ∧
      s1.task uuid = some
        { UUID := uuid, Status := taskStatusCompleted, Created := task.Created,
          Modified := now, Reason := task.Reason } ∧
      s1.taskLog uuid = some (.raw log) := by
  obtain ⟨task1, h1, h2⟩ := taskCompletedCallback_nil_entries h
  rw [hrec] at h1
  cases h1
  subst hkey
  refine ⟨?_, ?_, ?_⟩
  · rw [Storage.currentRunningTask, h2,
      lookupKey_putEntry_ne (taskLogStorageKey_ne_current _).symm,
      lookupKey_putEntry_ne (taskStorageKey_ne_current _).symm, lookupKey_eraseKey_self]
  · rw [Storage.task, h2, lookupKey_putEntry_ne (taskStorageKey_ne_taskLogStorageKey _ _),
      lookupKey_putEntry_self]
  · rw [Storage.taskLog, h2, lookupKey_putEntry_self]

/-- Witness of C3 on the sample storage: completing "A" with log "hi" at time 7. -/
theorem taskCompletedCallback_nil_effect_witness :
    (taskCompletedCallback 7 sampleContext "A" [104, 105] sampleStorage).2.currentRunningTask
        = none ∧
      (taskCompletedCallback 7 sampleContext "A" [104, 105] sampleStorage).2.task "A" = some
        { UUID := "A", Status := taskStatusCompleted, Created := 1, Modified := 7,
          Reason := "" } ∧
      (taskCompletedCallback 7 sampleContext "A" [104, 105] sampleStorage).2.taskLog "A"
        = some (.raw [104, 105]) :=
  taskCompletedCallback_nil_effect 7 sampleContext "A" [104, 105] sampleStorage _
    sampleRunningA (by decide) (by decide) (by decide)

/-- C4: when a record for `uuid` exists and `taskFailedCallback(uuid, log, err)` returns
nil, `current_running_task` is absent, the record of `uuid` has status FAILED, the
task-log key of `uuid` holds `log`, and the reason is the message of `err` when `err`
is not nil and the prior reason when it is nil. -/
theorem taskFailedCallback_nil_effect (now : Nat) (ctx : GoContext) (uuid : String)
    (log : Bytes) (taskErr : Option GoError) (s s1 : Storage) (task : Task)
    (hrec : s.task uuid = some task) (hkey : task.UUID = uuid)
    (h : taskFailedCallback now ctx uuid log taskErr s = (.returned none, s1)) :
    s1.currentRunningTask = none ∧
      (∃ task1, s1.task uuid = some task1 ∧ task1.Status = taskStatusFailed ∧
        (∀ e, taskErr = some e → task1.Reason = e.Error) ∧
        (taskErr = none → task1.Reason = task.Reason)) ∧
      s1.taskLog uuid = some (.raw log) := by
  obtain ⟨task1, h1, h2⟩ := taskFailedCallback_nil_entries h
  have ht : task = task1 := by
    rw [hrec] at h1
    exact Option.some.inj h1
  subst ht
  subst hkey
  refine ⟨?_, ⟨{ task with
      Status := taskStatusFailed
      Modified := now
      Reason := reasonAfterFailure taskErr task.Reason }, ?_, rfl, ?_, ?_⟩, ?_⟩
  · rw [Storage.currentRunningTask, h2,
      lookupKey_putEntry_ne (taskLogStorageKey_ne_current _).symm,
      lookupKey_putEntry_ne (taskStorageKey_ne_current _).symm, lookupKey_eraseKey_self]
  · rw [Storage.task, h2, lookupKey_putEntry_ne (taskStorageKey_ne_taskLogStorageKey _ _),
      lookupKey_putEntry_self]
  · intro e he
    subst he
    rfl
  · intro he
    subst he
    rfl
  · rw [Storage.taskLog, h2, lookupKey_putEntry_self]

/-- Witness of C4 on the sample storage: failing "A" with error "boom". -/
theorem taskFailedCallback_nil_effect_witness :
    (taskFailedCallback 7 sampleContext "A" [104, 105] (some ⟨5, "boom"⟩)
        sampleStorage).2.currentRunningTask = none ∧
      (∃ task1,
        (taskFailedCallback 7 sampleContext "A" [104, 105] (some ⟨5, "boom"⟩)
          sampleStorage).2.task "A" = some task1 ∧
        task1.Status = taskStatusFailed ∧
        (∀ e, some (GoError.mk 5 "boom") = some e → task1.Reason = e.Error) ∧
        (some (GoError.mk 5 "boom") = none → task1.Reason = sampleRunningA.Reason)) ∧
      (taskFailedCallback 7 sampleContext "A" [104, 105] (some ⟨5, "boom"⟩)
        sampleStorage).2.taskLog "A" = some (.raw [104, 105]) :=
  taskFailedCallback_nil_effect 7 sampleContext "A" [104, 105] (some ⟨5, "boom"⟩)
    sampleStorage _ sampleRunningA (by decide) (by decide) (by decide)

end tasks_manager

end Trdl

namespace Trdl

namespace tasks_manager

/-- The record the stale sweep writes in place of a running record. -/
theorem sweepStale_cons {now : Nat} {uuid : String} {rest : List String} {s s1 : Storage}
    {r : Option GoError} (h : sweepStale now (uuid :: rest) s = (r, s1)) :
    ((∃ e, r = some e) ∧ s1.entries = s.entries) ∨
    (∃ sa, sa.entries = s.entries ∧ (∀ t, s.task uuid = some t → t.Status ≠ taskStatusRunning) ∧
      sweepStale now rest sa = (r, s1)) ∨
    (∃ t sb, s.task uuid = some t ∧ t.Status = taskStatusRunning ∧
      sb.entries = putEntry (taskStorageKey t.UUID)
        (Entry.record
          { t with Status := taskStatusFailed, Modified := now, Reason := staleReason })
        s.entries ∧
      sweepStale now rest sb = (r, s1)) := by
  rw [sweepStale] at h
  split at h
  · next e sa hG =>
    simp only [Prod.mk.injEq] at h
    exact Or.inl ⟨⟨e, h.1.symm⟩, by rw [← h.2]; exact getTaskFromStorage_entries hG⟩
  · next sa hG =>
    refine Or.inr (Or.inl ⟨sa, getTaskFromStorage_entries hG, ?_, h⟩)
    intro t ht
    rw [← (getTaskFromStorage_ok hG).1] at ht
    cases ht
  · next task sa hG =>
    have hta : s.task uuid = some task := ((getTaskFromStorage_ok hG).1).symm
    split at h
    · next hrun =>
      split at h
      · next e sb hP =>
        simp only [Prod.mk.injEq] at h
        refine Or.inl ⟨⟨e, h.1.symm⟩, ?_⟩
        rw [← h.2, putTaskIntoStorage_err hP, getTaskFromStorage_entries hG]
      · next sb hP =>
        refine Or.inr (Or.inr ⟨task, sb, hta, hrun, ?_, h⟩)
        rw [putTaskIntoStorage_ok hP, getTaskFromStorage_entries hG]
    · next hrun =>
      refine Or.inr (Or.inl ⟨sa, getTaskFromStorage_entries hG, ?_, h⟩)
      intro t ht
      rw [hta] at ht
      cases ht
      exact hrun

/-- A property of the value under a key survives the stale sweep, whatever the sweep
returns, as soon as every FAILED record written under that key has it. -/
theorem sweepStale_preserves {now : Nat} (key : String) (P : Option Entry → Prop)
    (hP : ∀ t : Task, taskStorageKey t.UUID = key → t.Status = taskStatusFailed →
      P (some (Entry.record t))) (uuids : List String) :
    ∀ (s s1 : Storage) (r : Option GoError), sweepStale now uuids s = (r, s1) →
      P (lookupKey key s.entries) → P (lookupKey key s1.entries) := by
  induction uuids with
  | nil =>
    intro s s1 r h hs
    simp only [sweepStale, Prod.mk.injEq] at h
    rw [← h.2]
    exact hs
  | cons uuid rest ih =>
    intro s s1 r h hs
    rcases sweepStale_cons h with ⟨_, he⟩ | ⟨sa, he, _, hrest⟩ | ⟨t, sb, _, _, he, hrest⟩
    · rw [he]
      exact hs
    · exact ih sa s1 r hrest (by rw [he]; exact hs)
    · refine ih sb s1 r hrest ?_
      rw [he]
      by_cases hk : taskStorageKey t.UUID = key
      · rw [← hk, lookupKey_putEntry_self]
        exact hP _ hk rfl
      · rw [lookupKey_putEntry_ne (fun h1 => hk h1.symm)]
        exact hs

/-- A well-keyed running record that the sweep visits is FAILED after a sweep that
returns nil. -/
theorem sweepStale_fails_running {now : Nat} (v : String) (uuids : List String) :
    ∀ (s s1 : Storage), sweepStale now uuids s = (none, s1) → v ∈ uuids →
      (∃ t, s.task v = some t ∧ t.UUID = v ∧
        (t.Status = taskStatusRunning ∨ t.Status = taskStatusFailed)) →
      ∃ t1, s1.task v = some t1 ∧ t1.Status = taskStatusFailed := by
  have key : ∀ (uuids : List String) (s s1 : Storage) (r : Option GoError),
      sweepStale now uuids s = (r, s1) →
      (∃ t, s.task v = some t ∧ t.Status = taskStatusFailed) →
      ∃ t1, s1.task v = some t1 ∧ t1.Status = taskStatusFailed := by
    intro uuids s s1 r h hs
    have := @sweepStale_preserves now (taskStorageKey v)
      (fun e => ∃ t, e = some (Entry.record t) ∧ t.Status = taskStatusFailed)
      (fun t _ hst => ⟨t, rfl, hst⟩) uuids s s1 r h
      (by
        obtain ⟨t, ht, hst⟩ := hs
        refine ⟨t, ?_, hst⟩
        unfold Storage.task at ht
        split at ht
        · next t0 heq => rw [heq]; cases ht; rfl
        · cases ht)
    obtain ⟨t, ht, hst⟩ := this
    exact ⟨t, by simp [Storage.task, ht], hst⟩
  induction uuids with
  | nil => intro s s1 _ hv; cases hv
  | cons uuid rest ih =>
    intro s s1 h hv hs
    obtain ⟨t, ht, hkey, hst⟩ := hs
    rcases hst with hrun | hfail
    swap
    · exact key _ s s1 none h ⟨t, ht, hfail⟩
    rcases sweepStale_cons h with ⟨⟨e, he⟩, _⟩ | ⟨sa, he, hnot, hrest⟩ | ⟨t0, sb, ht0, hrun0, he, hrest⟩
    · cases he
    · have hne : v ≠ uuid := by
        intro hvu
        subst hvu
        exact hnot t ht hrun
      have hmem : v ∈ rest := by
        rcases List.mem_cons.mp hv with h1 | h1
        · exact absurd h1 hne
        · exact h1
      refine ih sa s1 hrest hmem ⟨t, ?_, hkey, Or.inl hrun⟩
      simp only [Storage.task, he] at ht ⊢
      exact ht
    · by_cases hk : t0.UUID = v
      · refine key rest sb s1 none hrest
          ⟨{ t0 with Status := taskStatusFailed, Modified := now, Reason := staleReason },
            ?_, rfl⟩
        simp only [Storage.task, he, ← hk, lookupKey_putEntry_self]
      · have hne : v ≠ uuid := by
          intro hvu
          subst hvu
          rw [ht] at ht0
          cases ht0
          exact hk hkey
        have hmem : v ∈ rest := by
          rcases List.mem_cons.mp hv with h1 | h1
          · exact absurd h1 hne
          · exact h1
        refine ih sb s1 hrest hmem ⟨t, ?_, hkey, Or.inl hrun⟩
        have hkk : taskStorageKey v ≠ taskStorageKey t0.UUID :=
          fun h1 => hk (taskStorageKey_injective h1).symm
        simp only [Storage.task, he, lookupKey_putEntry_ne hkk] at ht ⊢
        exact ht

end tasks_manager

end Trdl

namespace Trdl

namespace tasks_manager

theorem task_eq_some_iff {s : Storage} {uuid : String} {t : Task} :
    s.task uuid = some t ↔ lookupKey (taskStorageKey uuid) s.entries = some (Entry.record t) := by
  unfold Storage.task
  constructor
  · intro h
    split at h
    · next t0 heq => cases h; exact heq
    · cases h
  · intro h
    rw [h]

theorem task_congr {s s1 : Storage} (uuid : String)
    (h : lookupKey (taskStorageKey uuid) s1.entries = lookupKey (taskStorageKey uuid) s.entries) :
    s1.task uuid = s.task uuid := by
  unfold Storage.task
  rw [h]

/-- Every uuid with a value under its task key is listed under the task prefix. -/
theorem mem_keysUnder_of_lookupKey {v : String} {e : Entry} (l : List (String × Entry))
    (h : lookupKey (taskStorageKey v) l = some e) : v ∈ keysUnder storageKeyPrefixTask l := by
  induction l with
  | nil => simp [lookupKey] at h
  | cons kv rest ih =>
    by_cases hk : kv.1 = taskStorageKey v
    · have hp : storageKeyPrefixTask.data.isPrefixOf kv.1.data = true := by
        rw [hk, taskStorageKey, String.data_append]
        exact List.isPrefixOf_iff_prefix.mpr (List.prefix_append _ _)
      have hd : String.mk (kv.1.data.drop storageKeyPrefixTask.data.length) = v := by
        rw [hk, taskStorageKey, String.data_append, List.drop_left]
      rw [keysUnder, if_pos hp, hd]
      exact List.mem_cons_self _ _
    · rw [lookupKey, if_neg hk] at h
      rw [keysUnder]
      split
      · exact List.mem_cons_of_mem _ (ih h)
      · exact ih h

theorem markStale_cases {now : Nat} {s s1 : Storage} {r : Option GoError}
    (h : markStaleTaskAsFailed now s = (r, s1)) :
    ((∃ e, r = some e) ∧ s1.entries = s.entries) ∨
    (∃ sa, sa.entries = s.entries ∧
      sweepStale now (keysUnder storageKeyPrefixTask s.entries) sa = (r, s1)) := by
  unfold markStaleTaskAsFailed at h
  split at h
  · next e sa hL =>
    simp only [Prod.mk.injEq] at h
    exact Or.inl ⟨⟨e, h.1.symm⟩, by rw [← h.2]; exact List_entries hL⟩
  · next uuids sa hL =>
    refine Or.inr ⟨sa, List_entries hL, ?_⟩
    rw [← List_ok hL]
    exact h

/-- The stale sweep of `taskStartedCallback` keeps a property of the value under a
key, provided every FAILED record written under that key has it. -/
theorem markStale_preserves {now : Nat} (key : String) (P : Option Entry → Prop)
    (hP : ∀ t : Task, taskStorageKey t.UUID = key → t.Status = taskStatusFailed →
      P (some (Entry.record t)))
    {s s1 : Storage} {r : Option GoError} (h : markStaleTaskAsFailed now s = (r, s1))
    (hs : P (lookupKey key s.entries)) : P (lookupKey key s1.entries) := by
  rcases markStale_cases h with ⟨_, he⟩ | ⟨sa, he, hsw⟩
  · rw [he]; exact hs
  · exact sweepStale_preserves key P hP _ sa s1 r hsw (by rw [he]; exact hs)

/-- The stale sweep does not touch keys that are not task keys. -/
theorem markStale_other_key {now : Nat} {key : String} (hk : ∀ u, taskStorageKey u ≠ key)
    {s s1 : Storage} {r : Option GoError} (h : markStaleTaskAsFailed now s = (r, s1)) :
    lookupKey key s1.entries = lookupKey key s.entries :=
  markStale_preserves key (fun e => e = lookupKey key s.entries)
    (fun _ ht _ => absurd ht (hk _)) h rfl

/-- After a stale sweep that returns nil, a record of `v` that was RUNNING is FAILED. -/
theorem markStale_fails_running {now : Nat} {s s1 : Storage} {v : String} {t : Task}
    (h : markStaleTaskAsFailed now s = (none, s1)) (ht : s.task v = some t)
    (hkey : t.UUID = v) (hrun : t.Status = taskStatusRunning) :
    ∃ t1, s1.task v = some t1 ∧ t1.Status = taskStatusFailed := by
  rcases markStale_cases h with ⟨⟨e, he⟩, _⟩ | ⟨sa, he, hsw⟩
  · cases he
  · refine sweepStale_fails_running v _ sa s1 hsw ?_ ⟨t, ?_, hkey, Or.inl hrun⟩
    · exact mem_keysUnder_of_lookupKey _ (task_eq_some_iff.mp ht)
    · rw [← ht]
      exact task_congr v (by rw [he])

/-- A record stored under its own uuid is still one after the stale sweep. -/
theorem markStale_keeps_keyed {now : Nat} {s s1 : Storage} {r : Option GoError} {v : String}
    {t : Task} (h : markStaleTaskAsFailed now s = (r, s1)) (ht : s.task v = some t)
    (hkey : t.UUID = v) : ∃ t1, s1.task v = some t1 ∧ t1.UUID = v := by
  have := markStale_preserves (taskStorageKey v)
    (fun e => ∃ t1, e = some (Entry.record t1) ∧ t1.UUID = v)
    (fun t1 hk _ => ⟨t1, rfl, taskStorageKey_injective hk⟩) h
    ⟨t, task_eq_some_iff.mp ht, hkey⟩
  obtain ⟨t1, h1, h2⟩ := this
  exact ⟨t1, task_eq_some_iff.mpr h1, h2⟩

/-- The entries after a nil return of `taskStartedCallback`. -/
theorem taskStartedCallback_nil_entries {now : Nat} {ctx : GoContext} {uuid : String}
    {s s1 : Storage} (h : taskStartedCallback now ctx uuid s = (.returned none, s1)) :
    ∃ sw task, markStaleTaskAsFailed now s = (none, sw) ∧ sw.task uuid = some task ∧
      s1.entries =
        putEntry storageKeyCurrentRunningTask (Entry.raw (stringBytes uuid))
          (putEntry (taskStorageKey task.UUID)
            (Entry.record { task with Status := taskStatusRunning, Modified := now })
            (eraseKey storageKeyCurrentRunningTask sw.entries)) := by
  unfold taskStartedCallback at h
  split at h
  · simp at h
  · next sw hM =>
    split at h
    · simp at h
    · next sa hD =>
      split at h
      · simp at h
      · simp at h
      · next task sb hG =>
        split at h
        · simp at h
        · next sc hP =>
          split at h
          · simp at h
          · next sd hL =>
            simp only [Prod.mk.injEq, true_and] at h
            subst h
            have e1 := Delete_ok hD
            have e2 := getTaskFromStorage_entries hG
            have e3 := (getTaskFromStorage_ok hG).1
            have e4 := putTaskIntoStorage_ok hP
            have e5 := Put_ok hL
            refine ⟨sw, task, hM, ?_, ?_⟩
            · rw [e3]
              exact (task_congr uuid (by
                rw [e1, lookupKey_eraseKey_ne (taskStorageKey_ne_current uuid)])).symm
            · rw [e5, e4, e2, e1]

end tasks_manager

end Trdl

namespace Trdl

namespace tasks_manager

/-- C2: when a record for `uuid` exists and `taskStartedCallback(uuid)` returns nil,
the record of `uuid` has status RUNNING, `current_running_task` holds `uuid`, and
every other record that had status RUNNING beforehand has status FAILED. -/
theorem taskStartedCallback_nil_effect (now : Nat) (ctx : GoContext) (uuid : String)
    (s s1 : Storage) (task : Task)
    (hrec : s.task uuid = some task) (hkey : task.UUID = uuid)
    (h : taskStartedCallback now ctx uuid s = (.returned none, s1)) :
    (∃ t1, s1.task uuid = some t1 ∧ t1.Status = taskStatusRunning) ∧
      s1.currentRunningTask = some (.raw (stringBytes uuid)) ∧
      ∀ v tv, v ≠ uuid → s.task v = some tv → tv.UUID = v → tv.Status = taskStatusRunning →
        ∃ t1, s1.task v = some t1 ∧ t1.Status = taskStatusFailed := by
  obtain ⟨sw, task1, hM, hsw, he⟩ := taskStartedCallback_nil_entries h
  obtain ⟨t2, ht2, hk2⟩ := markStale_keeps_keyed hM hrec hkey
  rw [hsw] at ht2
  cases ht2
  refine ⟨⟨{ task1 with Status := taskStatusRunning, Modified := now }, ?_, rfl⟩, ?_, ?_⟩
  · rw [task_eq_some_iff, he, lookupKey_putEntry_ne (taskStorageKey_ne_current _), hk2,
      lookupKey_putEntry_self]
  · rw [Storage.currentRunningTask, he, lookupKey_putEntry_self]
  · intro v tv hv htv hkv hrun
    obtain ⟨t1, ht1, hst⟩ := markStale_fails_running hM htv hkv hrun
    refine ⟨t1, ?_, hst⟩
    have hne : taskStorageKey v ≠ taskStorageKey task1.UUID := by
      rw [hk2]
      exact fun h1 => hv (taskStorageKey_injective h1)
    rw [task_eq_some_iff, he, lookupKey_putEntry_ne (taskStorageKey_ne_current _),
      lookupKey_putEntry_ne hne, lookupKey_eraseKey_ne (taskStorageKey_ne_current _)]
    exact task_eq_some_iff.mp ht1

/-- Witness of C2 on the sample storage: starting "B" while the stale "A" is RUNNING. -/
theorem taskStartedCallback_nil_effect_witness :
    (∃ t1, (taskStartedCallback 9 sampleContext "B" sampleStorage).2.task "B" = some t1 ∧
        t1.Status = taskStatusRunning) ∧
      (taskStartedCallback 9 sampleContext "B" sampleStorage).2.currentRunningTask
        = some (.raw (stringBytes "B")) ∧
      ∃ t1, (taskStartedCallback 9 sampleContext "B" sampleStorage).2.task "A" = some t1 ∧
        t1.Status = taskStatusFailed :=
  have H := taskStartedCallback_nil_effect 9 sampleContext "B" sampleStorage _ sampleQueuedB
    (by decide) (by decide) (by decide)
  ⟨H.1, H.2.1, H.2.2 "A" sampleRunningA (by decide) (by decide) (by decide) (by decide)⟩

end tasks_manager

end Trdl

namespace Trdl

namespace tasks_manager

/-- The entries `taskCompletedCallback` can leave, whatever its outcome: nothing
changed, the pointer deleted, the record rewritten as well, the log written as well. -/
theorem taskCompletedCallback_entries {now : Nat} {ctx : GoContext} {uuid : String}
    {log : Bytes} {s s1 : Storage} {out : Outcome}
    (h : taskCompletedCallback now ctx uuid log s = (out, s1)) :
    s1.entries = s.entries ∨
    s1.entries = eraseKey storageKeyCurrentRunningTask s.entries ∨
    ∃ task, s.task uuid = some task ∧
      (s1.entries = putEntry (taskStorageKey task.UUID)
          (Entry.record { task with Status := taskStatusCompleted, Modified := now })
          (eraseKey storageKeyCurrentRunningTask s.entries) ∨
        s1.entries = putEntry (taskLogStorageKey uuid) (Entry.raw log)
          (putEntry (taskStorageKey task.UUID)
            (Entry.record { task with Status := taskStatusCompleted, Modified := now })
            (eraseKey storageKeyCurrentRunningTask s.entries))) := by
  unfold taskCompletedCallback at h
  split at h
  · next e sa hD =>
    simp only [Prod.mk.injEq] at h
    exact Or.inl (by rw [← h.2]; exact Delete_err hD)
  · next sa hD =>
    have e1 := Delete_ok hD
    split at h
    · next e sb hG =>
      simp only [Prod.mk.injEq] at h
      exact Or.inr (Or.inl (by rw [← h.2, getTaskFromStorage_entries hG, e1]))
    · next sb hG =>
      simp only [Prod.mk.injEq] at h
      exact Or.inr (Or.inl (by rw [← h.2, getTaskFromStorage_entries hG, e1]))
    · next task sb hG =>
      have e2 := getTaskFromStorage_entries hG
      have e3 : s.task uuid = some task := by
        rw [(getTaskFromStorage_ok hG).1]
        exact (task_congr uuid (by
          rw [e1, lookupKey_eraseKey_ne (taskStorageKey_ne_current uuid)])).symm
      split at h
      · next e sc hP =>
        simp only [Prod.mk.injEq] at h
        exact Or.inr (Or.inl (by rw [← h.2, putTaskIntoStorage_err hP, e2, e1]))
      · next sc hP =>
        have e4 := putTaskIntoStorage_ok hP
        refine Or.inr (Or.inr ⟨task, e3, ?_⟩)
        split at h
        · next e sd hL =>
          simp only [Prod.mk.injEq] at h
          exact Or.inl (by rw [← h.2, Put_err hL, e4, e2, e1])
        · next sd hL =>
          simp only [Prod.mk.injEq] at h
          exact Or.inr (by rw [← h.2, Put_ok hL, e4, e2, e1])

/-- The entries `taskFailedCallback` can leave, whatever its outcome. -/
theorem taskFailedCallback_entries {now : Nat} {ctx : GoContext} {uuid : String}
    {log : Bytes} {taskErr : Option GoError} {s s1 : Storage} {out : Outcome}
    (h : taskFailedCallback now ctx uuid log taskErr s = (out, s1)) :
    s1.entries = s.entries ∨
    s1.entries = eraseKey storageKeyCurrentRunningTask s.entries ∨
    ∃ task, s.task uuid = some task ∧
      (s1.entries = putEntry (taskStorageKey task.UUID)
          (Entry.record
            { task with
              Status := taskStatusFailed
              Modified := now
              Reason := reasonAfterFailure taskErr task.Reason })
          (eraseKey storageKeyCurrentRunningTask s.entries) ∨
        s1.entries = putEntry (taskLogStorageKey uuid) (Entry.raw log)
          (putEntry (taskStorageKey task.UUID)
            (Entry.record
              { task with
                Status := taskStatusFailed
                Modified := now
                Reason := reasonAfterFailure taskErr task.Reason })
            (eraseKey storageKeyCurrentRunningTask s.entries))) := by
  unfold taskFailedCallback at h
  split at h
  · next e sa hD =>
    simp only [Prod.mk.injEq] at h
    exact Or.inl (by rw [← h.2]; exact Delete_err hD)
  · next sa hD =>
    have e1 := Delete_ok hD
    split at h
    · next e sb hG =>
      simp only [Prod.mk.injEq] at h
      exact Or.inr (Or.inl (by rw [← h.2, getTaskFromStorage_entries hG, e1]))
    · next sb hG =>
      simp only [Prod.mk.injEq] at h
      exact Or.inr (Or.inl (by rw [← h.2, getTaskFromStorage_entries hG, e1]))
    · next task sb hG =>
      have e2 := getTaskFromStorage_entries hG
      have e3 : s.task uuid = some task := by
        rw [(getTaskFromStorage_ok hG).1]
        exact (task_congr uuid (by
          rw [e1, lookupKey_eraseKey_ne (taskStorageKey_ne_current uuid)])).symm
      simp only at h
      have hrec : (match taskErr with
          | some e =>
            ({ task with Status := taskStatusFailed, Modified := now, Reason := e.Error } : Task)
          | none => { task with Status := taskStatusFailed, Modified := now }) =
          { task with
            Status := taskStatusFailed
            Modified := now
            Reason := reasonAfterFailure taskErr task.Reason } := by
        cases taskErr <;> rfl
      split at h
      · next e sc hP =>
        simp only [Prod.mk.injEq] at h
        exact Or.inr (Or.inl (by rw [← h.2, putTaskIntoStorage_err hP, e2, e1]))
      · next sc hP =>
        have e4 := putTaskIntoStorage_ok hP
        rw [hrec] at e4
        refine Or.inr (Or.inr ⟨task, e3, ?_⟩)
        split at h
        · next e sd hL =>
          simp only [Prod.mk.injEq] at h
          exact Or.inl (by rw [← h.2, Put_err hL, e4, e2, e1])
        · next sd hL =>
          simp only [Prod.mk.injEq] at h
          exact Or.inr (by rw [← h.2, Put_ok hL, e4, e2, e1])

end tasks_manager

end Trdl

namespace Trdl

namespace tasks_manager

theorem mem_of_lookupKey {key : String} {e : Entry} (l : List (String × Entry))
    (h : lookupKey key l = some e) : (key, e) ∈ l := by
  induction l with
  | nil => simp [lookupKey] at h
  | cons kv rest ih =>
    by_cases hk : kv.1 = key
    · rw [lookupKey, if_pos hk] at h
      cases h
      rw [← hk]
      exact List.mem_cons_self _ _
    · rw [lookupKey, if_neg hk] at h
      exact List.mem_cons_of_mem _ (ih h)

/-- A running record sits in the entry list under its task key. -/
theorem isRunning_mem {s : Storage} {v : String} (h : s.isRunning v) :
    ∃ kv ∈ s.entries, kv.1 = taskStorageKey v ∧ kv.2.isRunningRecord = true := by
  obtain ⟨t, ht, hst⟩ := h
  refine ⟨(taskStorageKey v, Entry.record t), mem_of_lookupKey _ (task_eq_some_iff.mp ht), rfl, ?_⟩
  simp [Entry.isRunningRecord, hst]

/-- Entries that are all keyed by their own uuid make a well-keyed storage. -/
theorem wellKeyed_of_all {s : Storage} (h : ∀ kv ∈ s.entries, kv.2.keyedBy kv.1 = true) :
    s.wellKeyed := by
  intro uuid task ht
  have := h _ (mem_of_lookupKey _ (task_eq_some_iff.mp ht))
  simp only [Entry.keyedBy, decide_eq_true_eq] at this
  exact taskStorageKey_injective this

theorem pointerMatchesRunning_congr {s s1 : Storage} (he : s1.entries = s.entries)
    (h : s.pointerMatchesRunning) : s1.pointerMatchesRunning := by
  unfold Storage.pointerMatchesRunning Storage.isRunning Storage.task
    Storage.currentRunningTask at h ⊢
  rw [he]
  exact h

/-- A pointer that holds the uuid of the only RUNNING record: the equivalence holds. -/
theorem pointerMatchesRunning_of_single {s : Storage} {uuid : String}
    (hp : s.currentRunningTask = some (.raw (stringBytes uuid)))
    (hr : ∀ v, s.isRunning v ↔ v = uuid) : s.pointerMatchesRunning := by
  refine ⟨⟨fun _ => ⟨uuid, hr⟩, fun _ => by rw [hp]; rfl⟩, ?_⟩
  intro u hu
  have : uuid = u := (hu uuid).mp ((hr uuid).mpr rfl)
  rw [← this]
  exact hp

/-- No pointer and no RUNNING record: the equivalence holds. -/
theorem pointerMatchesRunning_of_none {s : Storage} (hp : s.currentRunningTask = none)
    (hr : ∀ v, ¬ s.isRunning v) : s.pointerMatchesRunning := by
  refine ⟨⟨fun h => ?_, fun h => ?_⟩, fun u hu => ?_⟩
  · rw [hp] at h
    cases h
  · obtain ⟨u, hu⟩ := h
    exact absurd ((hu u).mpr rfl) (hr u)
  · exact absurd ((hu u).mpr rfl) (hr u)

/-- No pointer and exactly one RUNNING record: the equivalence fails. -/
theorem not_pointerMatchesRunning_of_orphan {s : Storage} {uuid : String}
    (hp : s.currentRunningTask = none) (hr : ∀ v, s.isRunning v ↔ v = uuid) :
    ¬ s.pointerMatchesRunning := by
  intro h
  have := h.2 uuid hr
  rw [hp] at this
  cases this

/-- The record of `u` is the only RUNNING one when it is RUNNING and every RUNNING
entry sits under the task key of `u`. -/
theorem isRunning_iff_of_entries {s : Storage} {u : String} (hu : s.isRunning u)
    (hall : ∀ kv ∈ s.entries, kv.2.isRunningRecord = true → kv.1 = taskStorageKey u)
    (v : String) : s.isRunning v ↔ v = u := by
  constructor
  · intro hv
    obtain ⟨kv, hmem, hk, hrun⟩ := isRunning_mem hv
    have := hall kv hmem hrun
    rw [hk] at this
    exact taskStorageKey_injective this
  · intro hv
    rw [hv]
    exact hu

/-- The stale sweep keeps the storage well-keyed. -/
theorem markStale_wellKeyed {now : Nat} {s s1 : Storage} {r : Option GoError}
    (h : markStaleTaskAsFailed now s = (r, s1)) (hs : s.wellKeyed) : s1.wellKeyed := by
  intro uuid task ht
  exact markStale_preserves (taskStorageKey uuid)
    (fun e => ∀ t, e = some (Entry.record t) → t.UUID = uuid)
    (fun t hk _ t1 h1 => by
      cases h1
      exact taskStorageKey_injective hk) h
    (fun t h1 => hs uuid t (task_eq_some_iff.mpr h1)) task (task_eq_some_iff.mp ht)

/-- After a stale sweep of a well-keyed storage that returns nil no record is RUNNING. -/
theorem markStale_no_running {now : Nat} {s s1 : Storage}
    (h : markStaleTaskAsFailed now s = (none, s1)) (hs : s.wellKeyed) (v : String) :
    ¬ s1.isRunning v := by
  rintro ⟨t1, ht1, hrun1⟩
  by_cases hv : s.isRunning v
  · obtain ⟨t, ht, hrun⟩ := hv
    obtain ⟨t2, ht2, hf⟩ := markStale_fails_running h ht (hs v t ht) hrun
    rw [ht1] at ht2
    cases ht2
    rw [hrun1] at hf
    exact absurd hf (by decide)
  · have := markStale_preserves (taskStorageKey v)
      (fun e => ∀ t, e = some (Entry.record t) → t.Status ≠ taskStatusRunning)
      (fun t _ hst t1 h1 => by
        cases h1
        rw [hst]
        decide) h
      (fun t h1 hrun => hv ⟨t, task_eq_some_iff.mpr h1, hrun⟩)
    exact this t1 (task_eq_some_iff.mp ht1) hrun1

/-- After `taskStartedCallback` returns nil on a well-keyed storage the pointer holds
`uuid` and the record of `uuid` is the only RUNNING one. -/
theorem taskStartedCallback_nil_single_running {now : Nat} {ctx : GoContext} {uuid : String}
    {s s1 : Storage} (hs : s.wellKeyed)
    (h : taskStartedCallback now ctx uuid s = (.returned none, s1)) :
    s1.currentRunningTask = some (.raw (stringBytes uuid)) ∧ ∀ v, s1.isRunning v ↔ v = uuid := by
  obtain ⟨sw, task1, hM, hsw, he⟩ := taskStartedCallback_nil_entries h
  have hk : task1.UUID = uuid := markStale_wellKeyed hM hs uuid task1 hsw
  refine ⟨by rw [Storage.currentRunningTask, he, lookupKey_putEntry_self], ?_⟩
  intro v
  constructor
  · rintro ⟨t, ht, hrun⟩
    by_contra hv
    have hne : taskStorageKey v ≠ taskStorageKey task1.UUID := by
      rw [hk]
      exact fun h1 => hv (taskStorageKey_injective h1)
    rw [task_eq_some_iff, he, lookupKey_putEntry_ne (taskStorageKey_ne_current _),
      lookupKey_putEntry_ne hne, lookupKey_eraseKey_ne (taskStorageKey_ne_current _)] at ht
    exact markStale_no_running hM hs v ⟨t, task_eq_some_iff.mpr ht, hrun⟩
  · intro hv
    subst hv
    refine ⟨{ task1 with Status := taskStatusRunning, Modified := now }, ?_, rfl⟩
    rw [task_eq_some_iff, he, lookupKey_putEntry_ne (taskStorageKey_ne_current _), hk,
      lookupKey_putEntry_self]

end tasks_manager

end Trdl

namespace Trdl

namespace tasks_manager

theorem currentRunningTask_after_erase {s s1 : Storage} {k1 k2 : String} (v1 v2 : Entry)
    (hk1 : k1 ≠ storageKeyCurrentRunningTask) (hk2 : k2 ≠ storageKeyCurrentRunningTask)
    (h : s1.entries = eraseKey storageKeyCurrentRunningTask s.entries ∨
      s1.entries = putEntry k1 v1 (eraseKey storageKeyCurrentRunningTask s.entries) ∨
      s1.entries = putEntry k2 v2
        (putEntry k1 v1 (eraseKey storageKeyCurrentRunningTask s.entries))) :
    s1.currentRunningTask = none := by
  unfold Storage.currentRunningTask
  rcases h with h | h | h
  · rw [h, lookupKey_eraseKey_self]
  · rw [h, lookupKey_putEntry_ne hk1.symm, lookupKey_eraseKey_self]
  · rw [h, lookupKey_putEntry_ne hk2.symm, lookupKey_putEntry_ne hk1.symm,
      lookupKey_eraseKey_self]

/-- After `taskCompletedCallback`, whatever its outcome, the entries are untouched or
the pointer is absent. -/
theorem taskCompletedCallback_pointer {now : Nat} {ctx : GoContext} {uuid : String}
    {log : Bytes} {s s1 : Storage} {out : Outcome}
    (h : taskCompletedCallback now ctx uuid log s = (out, s1)) :
    s1.entries = s.entries ∨ s1.currentRunningTask = none := by
  rcases taskCompletedCallback_entries h with h1 | h1 | ⟨task, _, h1 | h1⟩
  · exact Or.inl h1
  · exact Or.inr (currentRunningTask_after_erase (Entry.raw []) (Entry.raw [])
      (taskStorageKey_ne_current uuid) (taskLogStorageKey_ne_current uuid) (Or.inl h1))
  · exact Or.inr (currentRunningTask_after_erase _ (Entry.raw [])
      (taskStorageKey_ne_current _) (taskLogStorageKey_ne_current uuid) (Or.inr (Or.inl h1)))
  · exact Or.inr (currentRunningTask_after_erase _ _
      (taskStorageKey_ne_current _) (taskLogStorageKey_ne_current uuid) (Or.inr (Or.inr h1)))

/-- After `taskFailedCallback`, whatever its outcome, the entries are untouched or the
pointer is absent. -/
theorem taskFailedCallback_pointer {now : Nat} {ctx : GoContext} {uuid : String}
    {log : Bytes} {taskErr : Option GoError} {s s1 : Storage} {out : Outcome}
    (h : taskFailedCallback now ctx uuid log taskErr s = (out, s1)) :
    s1.entries = s.entries ∨ s1.currentRunningTask = none := by
  rcases taskFailedCallback_entries h with h1 | h1 | ⟨task, _, h1 | h1⟩
  · exact Or.inl h1
  · exact Or.inr (currentRunningTask_after_erase (Entry.raw []) (Entry.raw [])
      (taskStorageKey_ne_current uuid) (taskLogStorageKey_ne_current uuid) (Or.inl h1))
  · exact Or.inr (currentRunningTask_after_erase _ (Entry.raw [])
      (taskStorageKey_ne_current _) (taskLogStorageKey_ne_current uuid) (Or.inr (Or.inl h1)))
  · exact Or.inr (currentRunningTask_after_erase _ _
      (taskStorageKey_ne_current _) (taskLogStorageKey_ne_current uuid) (Or.inr (Or.inr h1)))

/-- Once the record of `uuid` is rewritten with a status other than RUNNING, and no
other record was RUNNING, no record is RUNNING. -/
theorem no_running_after_terminal {s s1 : Storage} {uuid : String} {log : Bytes} {rec : Task}
    (he : s1.entries = putEntry (taskLogStorageKey uuid) (Entry.raw log)
      (putEntry (taskStorageKey uuid) (Entry.record rec)
        (eraseKey storageKeyCurrentRunningTask s.entries)))
    (hst : rec.Status ≠ taskStatusRunning) (hothers : ∀ v, s.isRunning v → v = uuid)
    (v : String) : ¬ s1.isRunning v := by
  rintro ⟨t, ht, hrun⟩
  rw [task_eq_some_iff, he, lookupKey_putEntry_ne (taskStorageKey_ne_taskLogStorageKey _ _)] at ht
  by_cases hv : v = uuid
  · subst hv
    rw [lookupKey_putEntry_self] at ht
    cases ht
    exact hst hrun
  · have hne : taskStorageKey v ≠ taskStorageKey uuid :=
      fun h1 => hv (taskStorageKey_injective h1)
    rw [lookupKey_putEntry_ne hne, lookupKey_eraseKey_ne (taskStorageKey_ne_current _)] at ht
    exact hv (hothers v ⟨t, task_eq_some_iff.mpr ht, hrun⟩)

/-- In the sample storage "A" is the only RUNNING record. -/
theorem sampleStorage_running (v : String) : sampleStorage.isRunning v ↔ v = "A" := by
  constructor
  · intro h
    obtain ⟨kv, hmem, hk, hrun⟩ := isRunning_mem h
    simp only [sampleStorage, List.mem_cons, List.mem_singleton, List.not_mem_nil,
      or_false] at hmem
    rcases hmem with rfl | rfl | rfl
    · simp [Entry.isRunningRecord] at hrun
    · exact (taskStorageKey_injective hk).symm
    · exact absurd hrun (by decide)
  · intro hv
    subst hv
    exact ⟨sampleRunningA, by decide, by decide⟩

theorem sampleStorage_wellKeyed : sampleStorage.wellKeyed :=
  wellKeyed_of_all (by decide)

end tasks_manager

end Trdl

namespace Trdl

namespace tasks_manager

/-- C5, as stated, fails. On the sample storage "A" is RUNNING and is the current
task, so the equivalence holds. (1) `taskStartedCallback("B")` sweeps "A" to FAILED and
then returns the error of the failing `Delete`: the pointer is still present and no
record is RUNNING. (2) `taskCompletedCallback("A")` deletes the pointer and then returns
the error of the failing read: "A" is RUNNING and there is no pointer. (3)
`taskCompletedCallback("B")` returns nil while "A" is RUNNING: "A" is RUNNING and there
is no pointer. -/
theorem pointerMatchesRunning_fails_after_error :
    sampleStorage.pointerMatchesRunning ∧
      ((taskStartedCallback 9 sampleContext "B" sampleFaultyStorage).1
          = Outcome.returned (some sampleStorageError) ∧
        ¬ (taskStartedCallback 9 sampleContext "B"
          sampleFaultyStorage).2.pointerMatchesRunning) ∧
      ((taskCompletedCallback 9 sampleContext "A" [] sampleReadFaultStorage).1
          = Outcome.returned (some sampleStorageError) ∧
        ¬ (taskCompletedCallback 9 sampleContext "A" []
          sampleReadFaultStorage).2.pointerMatchesRunning) ∧
      ((taskCompletedCallback 9 sampleContext "B" [] sampleStorage).1
          = Outcome.returned none ∧
        ¬ (taskCompletedCallback 9 sampleContext "B" []
          sampleStorage).2.pointerMatchesRunning) := by
  refine ⟨?_, ⟨by decide, ?_⟩, ⟨by decide, ?_⟩, ⟨by decide, ?_⟩⟩
  · exact pointerMatchesRunning_of_single (by decide) sampleStorage_running
  · intro h
    obtain ⟨uuid, hrun⟩ := h.1.mp (by decide)
    obtain ⟨kv, hmem, _, hr⟩ := isRunning_mem ((hrun uuid).mpr rfl)
    have hall : ∀ kv ∈ (taskStartedCallback 9 sampleContext "B" sampleFaultyStorage).2.entries,
        kv.2.isRunningRecord = false := by decide
    rw [hall kv hmem] at hr
    cases hr
  · exact not_pointerMatchesRunning_of_orphan (by decide)
      (@isRunning_iff_of_entries _ "A" ⟨sampleRunningA, by decide, by decide⟩ (by decide))
  · exact not_pointerMatchesRunning_of_orphan (by decide)
      (@isRunning_iff_of_entries _ "A" ⟨sampleRunningA, by decide, by decide⟩ (by decide))

/-- C5, amended. After `taskStartedCallback(uuid)` returns nil on a storage whose
records are stored under their own uuids, `current_running_task` holds `uuid` and the
record of `uuid` is the only RUNNING record. After `taskCompletedCallback(uuid)` or
`taskFailedCallback(uuid)` returns nil on such a storage in which no record other than
that of `uuid` was RUNNING, the pointer is absent and no record is RUNNING. In both
cases the equivalence of the pointer and the RUNNING records holds. -/
theorem lifecycle_pointerMatchesRunning (now : Nat) (ctx : GoContext) (uuid : String)
    (log : Bytes) (taskErr : Option GoError) (s s1 : Storage) (hs : s.wellKeyed) :
    (taskStartedCallback now ctx uuid s = (.returned none, s1) →
      s1.currentRunningTask = some (.raw (stringBytes uuid)) ∧
        (∀ v, s1.isRunning v ↔ v = uuid) ∧ s1.pointerMatchesRunning) ∧
    ((∀ v, s.isRunning v → v = uuid) →
      taskCompletedCallback now ctx uuid log s = (.returned none, s1) →
      s1.currentRunningTask = none ∧ (∀ v, ¬ s1.isRunning v) ∧ s1.pointerMatchesRunning) ∧
    ((∀ v, s.isRunning v → v = uuid) →
      taskFailedCallback now ctx uuid log taskErr s = (.returned none, s1) →
      s1.currentRunningTask = none ∧ (∀ v, ¬ s1.isRunning v) ∧ s1.pointerMatchesRunning) := by
  refine ⟨?_, ?_, ?_⟩
  · intro h
    obtain ⟨hp, hr⟩ := taskStartedCallback_nil_single_running hs h
    exact ⟨hp, hr, pointerMatchesRunning_of_single hp hr⟩
  · intro hothers h
    obtain ⟨task, ht, he⟩ := taskCompletedCallback_nil_entries h
    have hk := hs uuid task ht
    rw [hk] at he
    have hnr := no_running_after_terminal he
      (show taskStatusCompleted ≠ taskStatusRunning by decide) hothers
    have hp : s1.currentRunningTask = none :=
      currentRunningTask_after_erase _ _ (taskStorageKey_ne_current _)
        (taskLogStorageKey_ne_current uuid) (Or.inr (Or.inr he))
    exact ⟨hp, hnr, pointerMatchesRunning_of_none hp hnr⟩
  · intro hothers h
    obtain ⟨task, ht, he⟩ := taskFailedCallback_nil_entries h
    have hk := hs uuid task ht
    rw [hk] at he
    have hnr := no_running_after_terminal he
      (show taskStatusFailed ≠ taskStatusRunning by decide) hothers
    have hp : s1.currentRunningTask = none :=
      currentRunningTask_after_erase _ _ (taskStorageKey_ne_current _)
        (taskLogStorageKey_ne_current uuid) (Or.inr (Or.inr he))
    exact ⟨hp, hnr, pointerMatchesRunning_of_none hp hnr⟩

/-- Witness of the amended C5 on the sample storage: starting "B" leaves "B" as the
only RUNNING record and as the pointer; completing "A" leaves no pointer and no
RUNNING record; the equivalence holds after both. -/
theorem lifecycle_pointerMatchesRunning_witness :
    ((taskStartedCallback 9 sampleContext "B" sampleStorage).2.currentRunningTask
        = some (.raw (stringBytes "B")) ∧
      (∀ v, (taskStartedCallback 9 sampleContext "B" sampleStorage).2.isRunning v ↔ v = "B") ∧
      (taskStartedCallback 9 sampleContext "B" sampleStorage).2.pointerMatchesRunning) ∧
    ((taskCompletedCallback 9 sampleContext "A" [] sampleStorage).2.currentRunningTask = none ∧
      (∀ v, ¬ (taskCompletedCallback 9 sampleContext "A" [] sampleStorage).2.isRunning v) ∧
      (taskCompletedCallback 9 sampleContext "A" [] sampleStorage).2.pointerMatchesRunning) :=
  ⟨(lifecycle_pointerMatchesRunning 9 sampleContext "B" [] none sampleStorage _
      sampleStorage_wellKeyed).1 (by decide),
    (lifecycle_pointerMatchesRunning 9 sampleContext "A" [] none sampleStorage _
      sampleStorage_wellKeyed).2.1 (fun v hv => (sampleStorage_running v).mp hv) (by decide)⟩

/-- Writing a record under its own task key keeps the storage well-keyed. -/
theorem wellKeyed_putEntry {s sb : Storage} (rec : Task) (hs : s.wellKeyed)
    (he : sb.entries = putEntry (taskStorageKey rec.UUID) (Entry.record rec) s.entries) :
    sb.wellKeyed := by
  intro v t ht
  rw [task_eq_some_iff, he] at ht
  by_cases hk : taskStorageKey v = taskStorageKey rec.UUID
  · rw [hk, lookupKey_putEntry_self] at ht
    cases ht
    exact (taskStorageKey_injective hk).symm
  · rw [lookupKey_putEntry_ne hk] at ht
    exact hs v t (task_eq_some_iff.mpr ht)

/-- On a well-keyed storage the stale sweep, whatever it returns, leaves alone every
task key whose record is not RUNNING. -/
theorem sweepStale_keeps_not_running {now : Nat} (v : String) (uuids : List String) :
    ∀ (s s1 : Storage) (r : Option GoError), sweepStale now uuids s = (r, s1) → s.wellKeyed →
      (∀ t, s.task v = some t → t.Status ≠ taskStatusRunning) →
      lookupKey (taskStorageKey v) s1.entries = lookupKey (taskStorageKey v) s.entries := by
  induction uuids with
  | nil =>
    intro s s1 r h _ _
    simp only [sweepStale, Prod.mk.injEq] at h
    rw [← h.2]
  | cons uuid rest ih =>
    intro s s1 r h hs hv
    rcases sweepStale_cons h with ⟨_, he⟩ | ⟨sa, he, _, hrest⟩ | ⟨t, sb, ht, hrun, he, hrest⟩
    · rw [he]
    · have hsa : sa.wellKeyed := fun u t ht =>
        hs u t (by rw [← ht]; exact (task_congr u (by rw [he])).symm)
      rw [ih sa s1 r hrest hsa (fun t ht => hv t (by
        rw [← ht]; exact (task_congr v (by rw [he])).symm)), he]
    · have hk : t.UUID = uuid := hs uuid t ht
      have hne : v ≠ uuid := by
        intro hvu
        subst hvu
        exact hv t ht hrun
      have hkk : taskStorageKey v ≠ taskStorageKey t.UUID := by
        rw [hk]
        exact fun h1 => hne (taskStorageKey_injective h1)
      have hsb : sb.wellKeyed :=
        wellKeyed_putEntry
          { t with Status := taskStatusFailed, Modified := now, Reason := staleReason } hs he
      have hlook : lookupKey (taskStorageKey v) sb.entries
          = lookupKey (taskStorageKey v) s.entries := by
        rw [he, lookupKey_putEntry_ne hkk]
      rw [ih sb s1 r hrest hsb (fun t1 ht1 => hv t1 (by
        rw [← ht1]; exact (task_congr v hlook).symm)), hlook]

/-- On a well-keyed storage the stale sweep of `taskStartedCallback`, whatever it
returns, leaves alone every record that is not RUNNING. -/
theorem markStale_keeps_not_running {now : Nat} {s s1 : Storage} {r : Option GoError}
    {v : String} (h : markStaleTaskAsFailed now s = (r, s1)) (hs : s.wellKeyed)
    (hv : ∀ t, s.task v = some t → t.Status ≠ taskStatusRunning) :
    s1.task v = s.task v := by
  rcases markStale_cases h with ⟨_, he⟩ | ⟨sa, he, hsw⟩
  · exact task_congr v (by rw [he])
  · have hsa : sa.wellKeyed := fun u t ht =>
      hs u t (by rw [← ht]; exact (task_congr u (by rw [he])).symm)
    have := sweepStale_keeps_not_running v _ sa s1 r hsw hsa (fun t ht => hv t (by
      rw [← ht]; exact (task_congr v (by rw [he])).symm))
    exact task_congr v (by rw [this, he])

/-- The entries `taskStartedCallback` can leave, whatever its outcome, in terms of the
storage `sw` left by the stale sweep. -/
theorem taskStartedCallback_entries {now : Nat} {ctx : GoContext} {uuid : String}
    {s s1 : Storage} {out : Outcome} (h : taskStartedCallback now ctx uuid s = (out, s1)) :
    ∃ r sw, markStaleTaskAsFailed now s = (r, sw) ∧
      (s1.entries = sw.entries ∨
      s1.entries = eraseKey storageKeyCurrentRunningTask sw.entries ∨
      ∃ task, sw.task uuid = some task ∧
        (s1.entries = putEntry (taskStorageKey task.UUID)
            (Entry.record { task with Status := taskStatusRunning, Modified := now })
            (eraseKey storageKeyCurrentRunningTask sw.entries) ∨
          s1.entries = putEntry storageKeyCurrentRunningTask (Entry.raw (stringBytes uuid))
            (putEntry (taskStorageKey task.UUID)
              (Entry.record { task with Status := taskStatusRunning, Modified := now })
              (eraseKey storageKeyCurrentRunningTask sw.entries)))) := by
  unfold taskStartedCallback at h
  split at h
  · next e sw hM =>
    simp only [Prod.mk.injEq] at h
    exact ⟨_, sw, hM, Or.inl (by rw [← h.2])⟩
  · next sw hM =>
    refine ⟨_, sw, hM, ?_⟩
    split at h
    · next e sa hD =>
      simp only [Prod.mk.injEq] at h
      exact Or.inl (by rw [← h.2]; exact Delete_err hD)
    · next sa hD =>
      have e1 := Delete_ok hD
      split at h
      · next e sb hG =>
        simp only [Prod.mk.injEq] at h
        exact Or.inr (Or.inl (by rw [← h.2, getTaskFromStorage_entries hG, e1]))
      · next sb hG =>
        simp only [Prod.mk.injEq] at h
        exact Or.inr (Or.inl (by rw [← h.2, getTaskFromStorage_entries hG, e1]))
      · next task sb hG =>
        have e2 := getTaskFromStorage_entries hG
        have e3 : sw.task uuid = some task := by
          rw [(getTaskFromStorage_ok hG).1]
          exact (task_congr uuid (by
            rw [e1, lookupKey_eraseKey_ne (taskStorageKey_ne_current uuid)])).symm
        split at h
        · next e sc hP =>
          simp only [Prod.mk.injEq] at h
          exact Or.inr (Or.inl (by rw [← h.2, putTaskIntoStorage_err hP, e2, e1]))
        · next sc hP =>
          have e4 := putTaskIntoStorage_ok hP
          refine Or.inr (Or.inr ⟨task, e3, ?_⟩)
          split at h
          · next e sd hL =>
            simp only [Prod.mk.injEq] at h
            exact Or.inl (by rw [← h.2, Put_err hL, e4, e2, e1])
          · next sd hL =>
            simp only [Prod.mk.injEq] at h
            exact Or.inr (by rw [← h.2, Put_ok hL, e4, e2, e1])

end tasks_manager

end Trdl

namespace Trdl

namespace tasks_manager

/-- A key that a callback neither deletes nor writes keeps its value. -/
theorem lookupKey_untouched {l l1 : List (String × Entry)} {key k1 k2 : String}
    (v1 v2 : Entry) (hp : key ≠ storageKeyCurrentRunningTask) (hk1 : key ≠ k1) (hk2 : key ≠ k2)
    (h : l1 = l ∨ l1 = eraseKey storageKeyCurrentRunningTask l ∨
      l1 = putEntry k1 v1 (eraseKey storageKeyCurrentRunningTask l) ∨
      l1 = putEntry k2 v2 (putEntry k1 v1 (eraseKey storageKeyCurrentRunningTask l))) :
    lookupKey key l1 = lookupKey key l := by
  rcases h with h | h | h | h
  · rw [h]
  · rw [h, lookupKey_eraseKey_ne hp]
  · rw [h, lookupKey_putEntry_ne hk1, lookupKey_eraseKey_ne hp]
  · rw [h, lookupKey_putEntry_ne hk2, lookupKey_putEntry_ne hk1, lookupKey_eraseKey_ne hp]

/-- The status the record of `uuid` has once a callback has or has not rewritten it
with status `st`: the prior status or `st`. -/
theorem task_status_after_rewrite {s s1 : Storage} {uuid k2 : String} {task rec : Task}
    (v2 : Entry) (hrec : s.task uuid = some task) (hk : rec.UUID = uuid)
    (hk2 : taskStorageKey uuid ≠ k2)
    (h : s1.entries = s.entries ∨ s1.entries = eraseKey storageKeyCurrentRunningTask s.entries ∨
      s1.entries = putEntry (taskStorageKey rec.UUID) (Entry.record rec)
        (eraseKey storageKeyCurrentRunningTask s.entries) ∨
      s1.entries = putEntry k2 v2 (putEntry (taskStorageKey rec.UUID) (Entry.record rec)
        (eraseKey storageKeyCurrentRunningTask s.entries))) :
    ∃ t1, s1.task uuid = some t1 ∧ (t1.Status = task.Status ∨ t1.Status = rec.Status) := by
  rcases h with h | h | h | h
  · exact ⟨task, by rw [← hrec]; exact task_congr uuid (by rw [h]), Or.inl rfl⟩
  · exact ⟨task, by
      rw [← hrec]
      exact task_congr uuid (by
        rw [h, lookupKey_eraseKey_ne (taskStorageKey_ne_current uuid)]), Or.inl rfl⟩
  · exact ⟨rec, by rw [task_eq_some_iff, h, hk, lookupKey_putEntry_self], Or.inr rfl⟩
  · exact ⟨rec, by
      rw [task_eq_some_iff, h, lookupKey_putEntry_ne hk2, hk, lookupKey_putEntry_self],
      Or.inr rfl⟩

/-- C6, as stated, fails: in the sample storage the record of "A" is COMPLETED;
`taskStartedCallback("A")` returns nil and leaves it RUNNING, and
`taskFailedCallback("A")` returns nil and leaves it FAILED. -/
theorem terminal_status_overwritten :
    (sampleDoneStorage.task "A").map Task.Status = some taskStatusCompleted ∧
      (taskStartedCallback 9 sampleContext "A" sampleDoneStorage).1 = Outcome.returned none ∧
      ((taskStartedCallback 9 sampleContext "A" sampleDoneStorage).2.task "A").map Task.Status
        ≠ (sampleDoneStorage.task "A").map Task.Status ∧
      (taskFailedCallback 9 sampleContext "A" [] (some ⟨3, "boom"⟩) sampleDoneStorage).1
        = Outcome.returned none ∧
      ((taskFailedCallback 9 sampleContext "A" [] (some ⟨3, "boom"⟩)
        sampleDoneStorage).2.task "A").map Task.Status
        ≠ (sampleDoneStorage.task "A").map Task.Status := by
  decide

/-- C6, amended. For a record of `uuid` with status COMPLETED or FAILED:
`taskCompletedCallback(uuid)` leaves a COMPLETED record COMPLETED and
`taskFailedCallback(uuid)` leaves a FAILED record FAILED, whatever they return; a
callback invoked with `uuid` that returns nil writes its own status (RUNNING, COMPLETED
or FAILED) whatever the status was; and on a storage whose records are stored under
their own uuids no lifecycle callback invoked with another uuid changes the record. -/
theorem terminal_status_after_callbacks (now : Nat) (ctx : GoContext) (uuid : String)
    (log : Bytes) (taskErr : Option GoError) (s s1 : Storage) (task : Task) (out : Outcome)
    (hrec : s.task uuid = some task) (hkey : task.UUID = uuid)
    (hterm : task.Status = taskStatusCompleted ∨ task.Status = taskStatusFailed) :
    (task.Status = taskStatusCompleted →
      taskCompletedCallback now ctx uuid log s = (out, s1) →
      ∃ t1, s1.task uuid = some t1 ∧ t1.Status = taskStatusCompleted) ∧
    (task.Status = taskStatusFailed →
      taskFailedCallback now ctx uuid log taskErr s = (out, s1) →
      ∃ t1, s1.task uuid = some t1 ∧ t1.Status = taskStatusFailed) ∧
    (taskStartedCallback now ctx uuid s = (.returned none, s1) →
      ∃ t1, s1.task uuid = some t1 ∧ t1.Status = taskStatusRunning) ∧
    (taskCompletedCallback now ctx uuid log s = (.returned none, s1) →
      ∃ t1, s1.task uuid = some t1 ∧ t1.Status = taskStatusCompleted) ∧
    (taskFailedCallback now ctx uuid log taskErr s = (.returned none, s1) →
      ∃ t1, s1.task uuid = some t1 ∧ t1.Status = taskStatusFailed) ∧
    (∀ other, other ≠ uuid → s.wellKeyed →
      (taskStartedCallback now ctx other s = (out, s1) ∨
        taskCompletedCallback now ctx other log s = (out, s1) ∨
        taskFailedCallback now ctx other log taskErr s = (out, s1)) →
      s1.task uuid = some task) := by
  have hlog : taskStorageKey uuid ≠ taskLogStorageKey uuid :=
    taskStorageKey_ne_taskLogStorageKey _ _
  refine ⟨?_, ?_, ?_, ?_, ?_, ?_⟩
  · intro hst h
    rcases taskCompletedCallback_entries h with h1 | h1 | ⟨t, ht, h1⟩
    · exact ⟨task, by rw [← hrec]; exact task_congr uuid (by rw [h1]), hst⟩
    · exact ⟨task, by
        rw [← hrec]
        exact task_congr uuid (by
          rw [h1, lookupKey_eraseKey_ne (taskStorageKey_ne_current uuid)]), hst⟩
    · rw [hrec] at ht
      cases ht
      obtain ⟨t1, ht1, hs1⟩ := task_status_after_rewrite (Entry.raw log) hrec
        (show ({ task with Status := taskStatusCompleted, Modified := now } : Task).UUID = uuid
          from hkey) hlog (Or.inr (Or.inr h1))
      rcases hs1 with h2 | h2
      · exact ⟨t1, ht1, by rw [h2]; exact hst⟩
      · exact ⟨t1, ht1, h2⟩
  · intro hst h
    rcases taskFailedCallback_entries h with h1 | h1 | ⟨t, ht, h1⟩
    · exact ⟨task, by rw [← hrec]; exact task_congr uuid (by rw [h1]), hst⟩
    · exact ⟨task, by
        rw [← hrec]
        exact task_congr uuid (by
          rw [h1, lookupKey_eraseKey_ne (taskStorageKey_ne_current uuid)]), hst⟩
    · rw [hrec] at ht
      cases ht
      obtain ⟨t1, ht1, hs1⟩ := task_status_after_rewrite (Entry.raw log) hrec
        (show ({ task with
            Status := taskStatusFailed
            Modified := now
            Reason := reasonAfterFailure taskErr task.Reason } : Task).UUID = uuid
          from hkey) hlog (Or.inr (Or.inr h1))
      rcases hs1 with h2 | h2
      · exact ⟨t1, ht1, by rw [h2]; exact hst⟩
      · exact ⟨t1, ht1, h2⟩
  · intro h
    obtain ⟨sw, task1, hM, hsw, he⟩ := taskStartedCallback_nil_entries h
    obtain ⟨t2, ht2, hk2⟩ := markStale_keeps_keyed hM hrec hkey
    rw [hsw] at ht2
    cases ht2
    refine ⟨{ task1 with Status := taskStatusRunning, Modified := now }, ?_, rfl⟩
    rw [task_eq_some_iff, he, lookupKey_putEntry_ne (taskStorageKey_ne_current _), hk2,
      lookupKey_putEntry_self]
  · intro h
    obtain ⟨t, ht, he⟩ := taskCompletedCallback_nil_entries h
    rw [hrec] at ht
    cases ht
    refine ⟨{ task with Status := taskStatusCompleted, Modified := now }, ?_, rfl⟩
    rw [task_eq_some_iff, he, lookupKey_putEntry_ne hlog, hkey, lookupKey_putEntry_self]
  · intro h
    obtain ⟨t, ht, he⟩ := taskFailedCallback_nil_entries h
    rw [hrec] at ht
    cases ht
    refine ⟨{ task with
      Status := taskStatusFailed
      Modified := now
      Reason := reasonAfterFailure taskErr task.Reason }, ?_, rfl⟩
    rw [task_eq_some_iff, he, lookupKey_putEntry_ne hlog, hkey, lookupKey_putEntry_self]
  · intro other hne hs h
    have hkk : taskStorageKey uuid ≠ taskStorageKey other :=
      fun h1 => hne (taskStorageKey_injective h1).symm
    have hkl : taskStorageKey uuid ≠ taskLogStorageKey other :=
      taskStorageKey_ne_taskLogStorageKey _ _
    have hnr : ∀ t, s.task uuid = some t → t.Status ≠ taskStatusRunning := by
      intro t ht
      rw [hrec] at ht
      cases ht
      rcases hterm with h1 | h1 <;> rw [h1] <;> decide
    rw [← hrec]
    rcases h with h | h | h
    · obtain ⟨r, sw, hM, hf⟩ := taskStartedCallback_entries h
      have hsw : sw.task uuid = s.task uuid := markStale_keeps_not_running hM hs hnr
      have hwk := markStale_wellKeyed hM hs
      rw [← hsw]
      rcases hf with h1 | h1 | ⟨t, ht, h1⟩
      · exact task_congr uuid (by rw [h1])
      · exact task_congr uuid (lookupKey_untouched (Entry.raw []) (Entry.raw [])
          (taskStorageKey_ne_current uuid) hkk hkl (Or.inr (Or.inl h1)))
      · have hk := hwk other t ht
        rw [hk] at h1
        exact task_congr uuid (lookupKey_untouched _ _
          (taskStorageKey_ne_current uuid) hkk (taskStorageKey_ne_current uuid)
          (Or.inr (Or.inr h1)))
    · rcases taskCompletedCallback_entries h with h1 | h1 | ⟨t, ht, h1⟩
      · exact task_congr uuid (by rw [h1])
      · exact task_congr uuid (lookupKey_untouched (Entry.raw []) (Entry.raw [])
          (taskStorageKey_ne_current uuid) hkk hkl (Or.inr (Or.inl h1)))
      · have hk := hs other t ht
        rw [hk] at h1
        exact task_congr uuid (lookupKey_untouched _ _
          (taskStorageKey_ne_current uuid) hkk hkl (Or.inr (Or.inr h1)))
    · rcases taskFailedCallback_entries h with h1 | h1 | ⟨t, ht, h1⟩
      · exact task_congr uuid (by rw [h1])
      · exact task_congr uuid (lookupKey_untouched (Entry.raw []) (Entry.raw [])
          (taskStorageKey_ne_current uuid) hkk hkl (Or.inr (Or.inl h1)))
      · have hk := hs other t ht
        rw [hk] at h1
        exact task_congr uuid (lookupKey_untouched _ _
          (taskStorageKey_ne_current uuid) hkk hkl (Or.inr (Or.inr h1)))

/-- Witness of the amended C6 on the sample storage with the completed "A":
completing "A" again leaves it COMPLETED. -/
theorem terminal_status_after_callbacks_witness :
    ∃ t1, (taskCompletedCallback 9 sampleContext "A" [] sampleDoneStorage).2.task "A" = some t1 ∧
      t1.Status = taskStatusCompleted :=
  (terminal_status_after_callbacks 9 sampleContext "A" [] none sampleDoneStorage _
    sampleCompletedA _ (by decide) (by decide) (Or.inl (by decide))).1 (by decide) rfl

end tasks_manager

end Trdl

namespace Trdl

namespace tasks_manager

theorem step_reliable {s : Storage} (h : s.reliable) :
    ∃ s1, s.step = (none, s1) ∧ s1.entries = s.entries ∧ s1.reliable := by
  unfold Storage.step
  cases hf : s.faults with
  | nil => exact ⟨s, rfl, rfl, h⟩
  | cons f fs =>
    have hnone : f = none := h f (by rw [hf]; exact List.mem_cons_self _ _)
    subst hnone
    refine ⟨{ s with faults := fs }, rfl, rfl, ?_⟩
    intro g hg
    exact h g (by rw [hf]; exact List.mem_cons_of_mem _ hg)

theorem Put_reliable {s : Storage} (h : s.reliable) (key : String) (value : Entry) :
    ∃ s1, s.Put key value = (none, s1) ∧ s1.entries = putEntry key value s.entries ∧
      s1.reliable := by
  obtain ⟨s0, h0, he, hr⟩ := step_reliable h
  refine ⟨{ s0 with entries := putEntry key value s0.entries }, ?_, ?_, hr⟩
  · simp only [Storage.Put, h0]
  · simp only [he]

theorem Get_reliable {s : Storage} (h : s.reliable) (key : String) :
    ∃ s1, s.Get key = (.ok (lookupKey key s.entries), s1) ∧ s1.entries = s.entries ∧
      s1.reliable := by
  obtain ⟨s0, h0, he, hr⟩ := step_reliable h
  refine ⟨s0, ?_, he, hr⟩
  simp only [Storage.Get, h0, he]

/-- The admission step on a storage that does not fail and a channel that is not
full: the record is written, the task is sent, the new uuid is returned. -/
theorem addTask_reliable {s : Storage} (h : s.reliable) (m : Manager) (fresh : String)
    (now : Nat) (ctx : GoContext) (taskFunc : TaskFunc)
    (hroom : m.taskChan.length < taskChanSize) :
    ∃ s1, m.addTask fresh now ctx s taskFunc =
        ((fresh, none),
          { taskChan := m.taskChan ++ [{ Context := ctx, UUID := fresh, Action := taskFunc }] },
          s1) ∧
      s1.entries = putEntry (taskStorageKey fresh) (Entry.record (queuedTask fresh now))
        s.entries ∧
      s1.reliable := by
  obtain ⟨s1, hP, he, hr⟩ :=
    Put_reliable h (taskStorageKey fresh) (Entry.record (queuedTask fresh now))
  refine ⟨s1, ?_, he, hr⟩
  have hP1 : putTaskIntoStorage s
      { UUID := fresh, Status := taskStatusQueued, Created := now, Modified := now,
        Reason := "" } = (none, s1) := hP
  simp only [Manager.addTask, hP1, if_pos hroom]

end tasks_manager

end Trdl

namespace Trdl

namespace tasks_manager

/-- C7: with storage operations succeeding, `RunTask` returns `BusyError` with an
empty uuid, writes nothing and enqueues nothing whenever `current_running_task` is
present or a task is queued; otherwise it returns the new (non-empty) uuid with a nil
error, stores a QUEUED record under it and enqueues a task with it. Hence of two
successive calls with nothing draining the channel the first succeeds and the second
returns `BusyError`. -/
theorem RunTask_busy_or_admits (m : Manager) (fresh fresh2 : String) (now now2 : Nat)
    (ctx ctx2 : GoContext) (s : Storage) (taskFunc taskFunc2 : TaskFunc)
    (hs : s.reliable) (hfresh : fresh ≠ "") :
    ((s.currentRunningTask.isSome = true ∨ m.taskChan ≠ []) →
      (m.RunTask fresh now ctx s taskFunc).1 = ("", some BusyError) ∧
        (m.RunTask fresh now ctx s taskFunc).2.1.taskChan = m.taskChan ∧
        (m.RunTask fresh now ctx s taskFunc).2.2.entries = s.entries) ∧
    ((s.currentRunningTask = none ∧ m.taskChan = []) →
      (m.RunTask fresh now ctx s taskFunc).1 = (fresh, none) ∧
        (m.RunTask fresh now ctx s taskFunc).1.1 ≠ "" ∧
        ((m.RunTask fresh now ctx s taskFunc).2.2.task fresh).map Task.Status
          = some taskStatusQueued ∧
        (m.RunTask fresh now ctx s taskFunc).2.1.taskChan.map worker.Task.UUID = [fresh] ∧
        (((m.RunTask fresh now ctx s taskFunc).2.1).RunTask fresh2 now2 ctx2
            (m.RunTask fresh now ctx s taskFunc).2.2 taskFunc2).1 = ("", some BusyError)) := by
  obtain ⟨s0, hG, he0, hr0⟩ := Get_reliable hs storageKeyCurrentRunningTask
  constructor
  · intro hbusy
    have hrun : m.RunTask fresh now ctx s taskFunc = (("", some BusyError), m, s0) := by
      unfold Manager.RunTask
      rw [hG]
      cases hp : lookupKey storageKeyCurrentRunningTask s.entries with
      | some e => rfl
      | none =>
        have hne : m.taskChan ≠ [] := by
          rcases hbusy with h1 | h1
          · rw [Storage.currentRunningTask, hp] at h1
            cases h1
          · exact h1
        have hlen : ¬ m.taskChan.length = 0 := fun h0 => hne (List.length_eq_zero.mp h0)
        simp only [if_neg hlen]
    rw [hrun]
    exact ⟨rfl, rfl, he0⟩
  · rintro ⟨hp, hempty⟩
    have hroom : m.taskChan.length < taskChanSize := by
      rw [hempty]
      decide
    obtain ⟨s1, hA, he1, hr1⟩ := addTask_reliable hr0 m fresh now ctx taskFunc hroom
    have hrun : m.RunTask fresh now ctx s taskFunc =
        ((fresh, none),
          { taskChan := m.taskChan ++ [{ Context := ctx, UUID := fresh, Action := taskFunc }] },
          s1) := by
      unfold Manager.RunTask
      rw [hG]
      rw [Storage.currentRunningTask] at hp
      rw [hp]
      have hlen : m.taskChan.length = 0 := by rw [hempty]; rfl
      simp only [if_pos hlen]
      exact hA
    rw [hrun]
    refine ⟨rfl, hfresh, ?_, ?_, ?_⟩
    · have : s1.task fresh = some (queuedTask fresh now) := by
        rw [task_eq_some_iff, he1, lookupKey_putEntry_self]
      simp only [this, Option.map_some', queuedTask]
    · simp [hempty]
    · obtain ⟨s2, hG2, _, _⟩ := Get_reliable hr1 storageKeyCurrentRunningTask
      unfold Manager.RunTask
      rw [hG2]
      cases lookupKey storageKeyCurrentRunningTask s1.entries with
      | some e => rfl
      | none =>
        have hlen : ¬ (m.taskChan ++
            [({ Context := ctx, UUID := fresh, Action := taskFunc } :
              worker.Task Storage)]).length = 0 := by
          simp
        simp only [if_neg hlen]

/-- Witness of C7 on the empty storage and a new manager: the first `RunTask` admits
"u1", the second is refused with `BusyError`. -/
theorem RunTask_busy_or_admits_witness :
    (NewManager.RunTask "u1" 1 sampleContext emptyStorage noneTask).1 = ("u1", none) ∧
      (NewManager.RunTask "u1" 1 sampleContext emptyStorage noneTask).1.1 ≠ "" ∧
      ((NewManager.RunTask "u1" 1 sampleContext emptyStorage noneTask).2.2.task "u1").map
        Task.Status = some taskStatusQueued ∧
      (NewManager.RunTask "u1" 1 sampleContext emptyStorage noneTask).2.1.taskChan.map
        worker.Task.UUID = ["u1"] ∧
      (((NewManager.RunTask "u1" 1 sampleContext emptyStorage noneTask).2.1).RunTask "u2" 2
        sampleContext (NewManager.RunTask "u1" 1 sampleContext emptyStorage noneTask).2.2
        noneTask).1 = ("", some BusyError) :=
  (RunTask_busy_or_admits NewManager "u1" "u2" 1 2 sampleContext sampleContext emptyStorage
    noneTask noneTask (by intro f hf; cases hf) (by decide)).2 ⟨rfl, rfl⟩

end tasks_manager

end Trdl

namespace Trdl

namespace tasks_manager

/-- Receiving as many tasks as the channel holds yields the channel content in order. -/
theorem receiveMany_all (tasks : List (worker.Task Storage)) :
    (Manager.receiveMany tasks.length { taskChan := tasks }).1 = tasks := by
  induction tasks with
  | nil => rfl
  | cons task rest ih =>
    simp only [List.length_cons, Manager.receiveMany, Manager.receive]
    rw [ih]

/-- Successive `AddTask` calls on a storage that does not fail, with room in the
channel for all of them. -/
theorem AddTasks_reliable (requests : List Admission) :
    ∀ (m : Manager) (s : Storage), s.reliable →
      m.taskChan.length + requests.length ≤ taskChanSize →
      ∃ s1, m.AddTasks s requests =
          (requests.map (fun a => (a.fresh, none)),
            { taskChan := m.taskChan ++ requests.map Admission.task }, s1) ∧
        (∀ v, (s.task v).map Task.Status = some taskStatusQueued →
          (s1.task v).map Task.Status = some taskStatusQueued) ∧
        ∀ a ∈ requests, (s1.task a.fresh).map Task.Status = some taskStatusQueued := by
  induction requests with
  | nil =>
    intro m s _ _
    exact ⟨s, by simp [Manager.AddTasks], fun _ h => h, fun a ha => by cases ha⟩
  | cons a rest ih =>
    intro m s hs hlen
    simp only [List.length_cons] at hlen
    have hroom : m.taskChan.length < taskChanSize := by omega
    obtain ⟨s1, hA, he1, hr1⟩ := addTask_reliable hs m a.fresh a.now a.ctx a.taskFunc hroom
    have hlen1 : (m.taskChan ++ [a.task]).length + rest.length ≤ taskChanSize := by
      simp only [List.length_append, List.length_singleton]
      omega
    obtain ⟨s2, hB, hkeep, hall⟩ := ih { taskChan := m.taskChan ++ [a.task] } s1 hr1 hlen1
    have hstep : ∀ v, (s.task v).map Task.Status = some taskStatusQueued →
        (s1.task v).map Task.Status = some taskStatusQueued := by
      intro v hv
      by_cases hk : taskStorageKey v = taskStorageKey a.fresh
      · have : s1.task v = some (queuedTask a.fresh a.now) := by
          rw [task_eq_some_iff, he1, hk, lookupKey_putEntry_self]
        rw [this]
        rfl
      · rw [task_congr v (show lookupKey (taskStorageKey v) s1.entries
          = lookupKey (taskStorageKey v) s.entries by rw [he1, lookupKey_putEntry_ne hk])]
        exact hv
    refine ⟨s2, ?_, fun v hv => hkeep v (hstep v hv), ?_⟩
    · simp only [Manager.AddTasks, Manager.AddTask, hA]
      have hB1 : Manager.AddTasks { taskChan := m.taskChan ++ [a.task] } s1 rest = _ := hB
      simp only [Admission.task] at hB1
      rw [hB1]
      simp [Admission.task]
    · intro b hb
      rcases List.mem_cons.mp hb with h1 | h1
      · subst h1
        apply hkeep
        have : s1.task b.fresh = some (queuedTask b.fresh b.now) := by
          rw [task_eq_some_iff, he1, lookupKey_putEntry_self]
        rw [this]
        rfl
      · exact hall b h1

/-- C9: for `n` requests, `n` not above the channel capacity 128, successive `AddTask`
calls on a new manager whose queue is not drained (storage operations succeeding) all
return their non-empty uuid with a nil error, each uuid has a QUEUED record, and
receiving `n` tasks from the channel yields the uuids in admission order. -/
theorem AddTask_fifo (requests : List Admission) (s : Storage) (hs : s.reliable)
    (hn : requests.length ≤ taskChanSize) (hfresh : ∀ a ∈ requests, a.fresh ≠ "") :
    (NewManager.AddTasks s requests).1 = requests.map (fun a => (a.fresh, none)) ∧
      (∀ r ∈ (NewManager.AddTasks s requests).1, r.1 ≠ "" ∧ r.2 = none) ∧
      (∀ a ∈ requests,
        ((NewManager.AddTasks s requests).2.2.task a.fresh).map Task.Status
          = some taskStatusQueued) ∧
      (Manager.receiveMany requests.length (NewManager.AddTasks s requests).2.1).1.map
          worker.Task.UUID
        = (NewManager.AddTasks s requests).1.map Prod.fst := by
  obtain ⟨s1, hA, _, hall⟩ := AddTasks_reliable requests NewManager s hs (by
    simp only [NewManager, List.length_nil]
    omega)
  rw [hA]
  refine ⟨rfl, ?_, hall, ?_⟩
  · intro r hr
    obtain ⟨a, ha, rfl⟩ := List.mem_map.mp hr
    exact ⟨hfresh a ha, rfl⟩
  · simp only [NewManager, List.nil_append]
    have := receiveMany_all (requests.map Admission.task)
    rw [List.length_map] at this
    rw [this]
    simp [Admission.task, Function.comp_def]

/-- Witness of C9: two `AddTask` calls on the empty storage, as in actions_test.go. -/
theorem AddTask_fifo_witness :
    (NewManager.AddTasks emptyStorage sampleAdmissions).1 = [("u1", none), ("u2", none)] ∧
      (Manager.receiveMany 2 (NewManager.AddTasks emptyStorage sampleAdmissions).2.1).1.map
          worker.Task.UUID
        = (NewManager.AddTasks emptyStorage sampleAdmissions).1.map Prod.fst :=
  have H := AddTask_fifo sampleAdmissions emptyStorage (by intro f hf; cases hf) (by decide)
    (by decide)
  ⟨H.1, H.2.2.2⟩

end tasks_manager

end Trdl

namespace Trdl

namespace worker

/-- C11: `CancelRunningJobByTaskUUID(uuid)` returns true exactly when a current job
exists with that uuid, and then triggers the cancel function of that job, once; when
it returns false, as for an unknown uuid or before any job has started, nothing is
cancelled. In both cases the worker, and so its current-job slot, is left as it was. -/
theorem CancelRunningJobByTaskUUID_iff {σ : Type} (q : Worker σ) (uuid : String)
    (cancelled : List GoContext) (chan : List (Task σ)) (cb : Callbacks σ) :
    ((q.CancelRunningJobByTaskUUID uuid cancelled).1 = true ↔
        ∃ job, q.currentJob = some job ∧ job.taskUUID = uuid) ∧
      (∀ job, q.currentJob = some job → job.taskUUID = uuid →
        (q.CancelRunningJobByTaskUUID uuid cancelled).2.2 = cancelled ++ [job.ctx]) ∧
      ((q.CancelRunningJobByTaskUUID uuid cancelled).1 = false →
        (q.CancelRunningJobByTaskUUID uuid cancelled).2.2 = cancelled) ∧
      (q.CancelRunningJobByTaskUUID uuid cancelled).2.1 = q ∧
      (q.CancelRunningJobByTaskUUID uuid cancelled).2.1.currentJob = q.currentJob ∧
      (NewWorker chan cb).CancelRunningJobByTaskUUID uuid cancelled
        = (false, NewWorker chan cb, cancelled) := by
  refine ⟨?_, ?_, ?_, ?_, ?_, rfl⟩
  · unfold Worker.CancelRunningJobByTaskUUID
    cases h : q.currentJob with
    | none => simp
    | some job =>
      by_cases hu : job.taskUUID = uuid
      · simp [hu]
      · simp [hu]
  · intro job hjob hu
    unfold Worker.CancelRunningJobByTaskUUID
    rw [hjob]
    simp only [if_pos hu, Job.ctxCancelFunc]
  · unfold Worker.CancelRunningJobByTaskUUID
    cases h : q.currentJob with
    | none => intro _; rfl
    | some job =>
      by_cases hu : job.taskUUID = uuid
      · simp [hu]
      · simp [hu]
  · unfold Worker.CancelRunningJobByTaskUUID
    cases h : q.currentJob with
    | none => rfl
    | some job => by_cases hu : job.taskUUID = uuid <;> simp [hu]
  · unfold Worker.CancelRunningJobByTaskUUID
    cases h : q.currentJob with
    | none => simp [h]
    | some job => by_cases hu : job.taskUUID = uuid <;> simp [hu, h]

/-- C12: `HoldRunningJobByTaskUUID(uuid, fn)` returns the boolean of
`HasRunningJobByTaskUUID(uuid)`; when it is true `fn` has been applied once, to the
current job; when it is false `fn` has not been applied. The worker is left as it
was. -/
theorem HoldRunningJobByTaskUUID_invokes_once {σ τ : Type} (q : Worker σ) (uuid : String)
    (fn : Job σ → τ → τ) (obs : τ) :
    (q.HoldRunningJobByTaskUUID uuid fn obs).1 = (q.HasRunningJobByTaskUUID uuid).1 ∧
      (∀ job, q.currentJob = some job → job.taskUUID = uuid →
        q.HoldRunningJobByTaskUUID uuid fn obs = (true, q, fn job obs)) ∧
      ((q.HoldRunningJobByTaskUUID uuid fn obs).1 = false →
        q.HoldRunningJobByTaskUUID uuid fn obs = (false, q, obs)) := by
  refine ⟨?_, ?_, ?_⟩
  · unfold Worker.HoldRunningJobByTaskUUID Worker.HasRunningJobByTaskUUID
    cases h : q.currentJob with
    | none => rfl
    | some job => by_cases hu : job.taskUUID = uuid <;> simp [hu]
  · intro job hjob hu
    unfold Worker.HoldRunningJobByTaskUUID
    rw [hjob]
    simp only [ne_eq, hu, not_true_eq_false, if_false]
  · unfold Worker.HoldRunningJobByTaskUUID
    cases h : q.currentJob with
    | none => intro _; rfl
    | some job => by_cases hu : job.taskUUID = uuid <;> simp [hu]

end worker

namespace tasks_manager

/-- Witness of C11 on the sample worker that runs "B": cancelling "B" answers true
and triggers the scope of the job once; cancelling "A" answers false and triggers
nothing. -/
theorem CancelRunningJobByTaskUUID_iff_witness :
    (sampleBusyWorker.CancelRunningJobByTaskUUID "B" []).2.2 = [] ++ [sampleJob.ctx] ∧
      (sampleBusyWorker.CancelRunningJobByTaskUUID "A" []).2.2 = [] :=
  ⟨(worker.CancelRunningJobByTaskUUID_iff sampleBusyWorker "B" [] [] (Manager.callbacks 9)).2.1
      sampleJob rfl rfl,
    (worker.CancelRunningJobByTaskUUID_iff sampleBusyWorker "A" [] [] (Manager.callbacks 9)).2.2.1
      (by decide)⟩

/-- Witness of C12 on the sample worker that runs "B", with a function that counts
its calls: holding "B" calls it once, holding "A" does not call it. -/
theorem HoldRunningJobByTaskUUID_invokes_once_witness :
    sampleBusyWorker.HoldRunningJobByTaskUUID "B" (fun _ n => n + 1) 0
        = (true, sampleBusyWorker, 1) ∧
      sampleBusyWorker.HoldRunningJobByTaskUUID "A" (fun _ n => n + 1) 0
        = (false, sampleBusyWorker, 0) :=
  ⟨(worker.HoldRunningJobByTaskUUID_invokes_once sampleBusyWorker "B" (fun _ n => n + 1) 0).2.1
      sampleJob rfl rfl,
    (worker.HoldRunningJobByTaskUUID_invokes_once sampleBusyWorker "A" (fun _ n => n + 1) 0).2.2
      (by decide)⟩

end tasks_manager

end Trdl

namespace Trdl

namespace tasks_manager

theorem Delete_reliable {s : Storage} (h : s.reliable) (key : String) :
    ∃ s1, s.Delete key = (none, s1) ∧ s1.entries = eraseKey key s.entries ∧ s1.reliable := by
  obtain ⟨s0, h0, he, hr⟩ := step_reliable h
  refine ⟨{ s0 with entries := eraseKey key s0.entries }, ?_, ?_, hr⟩
  · simp only [Storage.Delete, h0]
  · simp only [he]

theorem List_reliable {s : Storage} (h : s.reliable) (pfx : String) :
    ∃ s1, s.List pfx = (.ok (keysUnder pfx s.entries), s1) ∧ s1.entries = s.entries ∧
      s1.reliable := by
  obtain ⟨s0, h0, he, hr⟩ := step_reliable h
  refine ⟨s0, ?_, he, hr⟩
  simp only [Storage.List, h0, he]

/-- Reading a task from a storage that does not fail and holds no raw value under the
task key: the stored record, if any. -/
theorem getTaskFromStorage_reliable {s : Storage} (h : s.reliable) (uuid : String)
    (hd : ∀ value, lookupKey (taskStorageKey uuid) s.entries ≠ some (Entry.raw value)) :
    ∃ s1, getTaskFromStorage s uuid = (.ok (s.task uuid), s1) ∧ s1.entries = s.entries ∧
      s1.reliable := by
  obtain ⟨s1, hG, he, hr⟩ := Get_reliable h (taskStorageKey uuid)
  refine ⟨s1, ?_, he, hr⟩
  unfold getTaskFromStorage Storage.task
  rw [hG]
  cases hl : lookupKey (taskStorageKey uuid) s.entries with
  | none => rfl
  | some e =>
    cases e with
    | record t => rfl
    | raw value => exact absurd hl (hd value)

/-- Reading a task whose key is absent never yields a record. -/
theorem getTaskFromStorage_absent {s s1 : Storage} {uuid : String}
    {r : Except GoError (Option Task)}
    (hno : lookupKey (taskStorageKey uuid) s.entries = none)
    (h : getTaskFromStorage s uuid = (r, s1)) :
    (r = .ok none ∨ ∃ err, r = .error err) ∧ s1.entries = s.entries := by
  refine ⟨?_, getTaskFromStorage_entries h⟩
  cases r with
  | error err => exact Or.inr ⟨err, rfl⟩
  | ok x =>
    have := (getTaskFromStorage_ok h).1
    rw [Storage.task, hno] at this
    exact Or.inl (by rw [this])

/-- What `taskCompletedCallback` does when `task/<uuid>` is absent: it returns the
error of a failed storage operation or it panics, and it writes nothing. -/
theorem taskCompletedCallback_absent {now : Nat} {ctx : GoContext} {uuid : String}
    {log : Bytes} {s s1 : Storage} {out : Outcome}
    (hno : lookupKey (taskStorageKey uuid) s.entries = none)
    (h : taskCompletedCallback now ctx uuid log s = (out, s1)) :
    ((∃ err, out = .returned (some err)) ∨ out = .panicked (notFoundMessage uuid)) ∧
      (s1.entries = s.entries ∨
        s1.entries = eraseKey storageKeyCurrentRunningTask s.entries) := by
  unfold taskCompletedCallback at h
  split at h
  · next e sa hD =>
    simp only [Prod.mk.injEq] at h
    exact ⟨Or.inl ⟨e, h.1.symm⟩, Or.inl (by rw [← h.2]; exact Delete_err hD)⟩
  · next sa hD =>
    have e1 := Delete_ok hD
    have hno1 : lookupKey (taskStorageKey uuid) sa.entries = none := by
      rw [e1, lookupKey_eraseKey_ne (taskStorageKey_ne_current uuid), hno]
    split at h
    · next e sb hG =>
      simp only [Prod.mk.injEq] at h
      exact ⟨Or.inl ⟨e, h.1.symm⟩,
        Or.inr (by rw [← h.2, getTaskFromStorage_entries hG, e1])⟩
    · next sb hG =>
      simp only [Prod.mk.injEq] at h
      exact ⟨Or.inr h.1.symm, Or.inr (by rw [← h.2, getTaskFromStorage_entries hG, e1])⟩
    · next task sb hG =>
      rcases (getTaskFromStorage_absent hno1 hG).1 with h1 | ⟨err, h1⟩ <;> cases h1

/-- What `taskFailedCallback` does when `task/<uuid>` is absent. -/
theorem taskFailedCallback_absent {now : Nat} {ctx : GoContext} {uuid : String}
    {log : Bytes} {taskErr : Option GoError} {s s1 : Storage} {out : Outcome}
    (hno : lookupKey (taskStorageKey uuid) s.entries = none)
    (h : taskFailedCallback now ctx uuid log taskErr s = (out, s1)) :
    ((∃ err, out = .returned (some err)) ∨ out = .panicked (notFoundMessage uuid)) ∧
      (s1.entries = s.entries ∨
        s1.entries = eraseKey storageKeyCurrentRunningTask s.entries) := by
  unfold taskFailedCallback at h
  split at h
  · next e sa hD =>
    simp only [Prod.mk.injEq] at h
    exact ⟨Or.inl ⟨e, h.1.symm⟩, Or.inl (by rw [← h.2]; exact Delete_err hD)⟩
  · next sa hD =>
    have e1 := Delete_ok hD
    have hno1 : lookupKey (taskStorageKey uuid) sa.entries = none := by
      rw [e1, lookupKey_eraseKey_ne (taskStorageKey_ne_current uuid), hno]
    split at h
    · next e sb hG =>
      simp only [Prod.mk.injEq] at h
      exact ⟨Or.inl ⟨e, h.1.symm⟩,
        Or.inr (by rw [← h.2, getTaskFromStorage_entries hG, e1])⟩
    · next sb hG =>
      simp only [Prod.mk.injEq] at h
      exact ⟨Or.inr h.1.symm, Or.inr (by rw [← h.2, getTaskFromStorage_entries hG, e1])⟩
    · next task sb hG =>
      rcases (getTaskFromStorage_absent hno1 hG).1 with h1 | ⟨err, h1⟩ <;> cases h1

/-- What `taskStartedCallback` does when `task/<uuid>` is absent after the stale
sweep: it returns an error or it panics, and after the sweep it writes nothing. -/
theorem taskStartedCallback_absent {now : Nat} {ctx : GoContext} {uuid : String}
    {s s1 : Storage} {out : Outcome}
    (h : taskStartedCallback now ctx uuid s = (out, s1)) :
    ∃ r sw, markStaleTaskAsFailed now s = (r, sw) ∧
      (lookupKey (taskStorageKey uuid) sw.entries = none →
        ((∃ err, out = .returned (some err)) ∨ out = .panicked (notFoundMessage uuid)) ∧
        (s1.entries = sw.entries ∨
          s1.entries = eraseKey storageKeyCurrentRunningTask sw.entries)) := by
  unfold taskStartedCallback at h
  split at h
  · next e sw hM =>
    simp only [Prod.mk.injEq] at h
    exact ⟨_, sw, hM, fun _ => ⟨Or.inl ⟨e, h.1.symm⟩, Or.inl (by rw [← h.2])⟩⟩
  · next sw hM =>
    refine ⟨_, sw, hM, fun hno => ?_⟩
    split at h
    · next e sa hD =>
      simp only [Prod.mk.injEq] at h
      exact ⟨Or.inl ⟨e, h.1.symm⟩, Or.inl (by rw [← h.2]; exact Delete_err hD)⟩
    · next sa hD =>
      have e1 := Delete_ok hD
      have hno1 : lookupKey (taskStorageKey uuid) sa.entries = none := by
        rw [e1, lookupKey_eraseKey_ne (taskStorageKey_ne_current uuid), hno]
      split at h
      · next e sb hG =>
        simp only [Prod.mk.injEq] at h
        exact ⟨Or.inl ⟨e, h.1.symm⟩,
          Or.inr (by rw [← h.2, getTaskFromStorage_entries hG, e1])⟩
      · next sb hG =>
        simp only [Prod.mk.injEq] at h
        exact ⟨Or.inr h.1.symm, Or.inr (by rw [← h.2, getTaskFromStorage_entries hG, e1])⟩
      · next task sb hG =>
        rcases (getTaskFromStorage_absent hno1 hG).1 with h1 | ⟨err, h1⟩ <;> cases h1

end tasks_manager

end Trdl

namespace Trdl

namespace tasks_manager

theorem task_eq_none_of_lookupKey {s : Storage} {uuid : String}
    (h : lookupKey (taskStorageKey uuid) s.entries = none) : s.task uuid = none := by
  rw [Storage.task, h]

/-- On a storage that does not fail, `taskCompletedCallback` panics when `task/<uuid>`
is absent. -/
theorem taskCompletedCallback_reliable_absent {now : Nat} {ctx : GoContext} {uuid : String}
    {log : Bytes} {s : Storage} (hs : s.reliable)
    (hno : lookupKey (taskStorageKey uuid) s.entries = none) :
    (taskCompletedCallback now ctx uuid log s).1 = .panicked (notFoundMessage uuid) := by
  obtain ⟨sa, hD, e1, hra⟩ := Delete_reliable hs storageKeyCurrentRunningTask
  have hno1 : lookupKey (taskStorageKey uuid) sa.entries = none := by
    rw [e1, lookupKey_eraseKey_ne (taskStorageKey_ne_current uuid), hno]
  obtain ⟨sb, hG, _, _⟩ := getTaskFromStorage_reliable hra uuid (by
    intro value hv
    rw [hno1] at hv
    cases hv)
  rw [task_eq_none_of_lookupKey hno1] at hG
  simp only [taskCompletedCallback, hD, hG]

/-- On a storage that does not fail, `taskFailedCallback` panics when `task/<uuid>` is
absent. -/
theorem taskFailedCallback_reliable_absent {now : Nat} {ctx : GoContext} {uuid : String}
    {log : Bytes} {taskErr : Option GoError} {s : Storage} (hs : s.reliable)
    (hno : lookupKey (taskStorageKey uuid) s.entries = none) :
    (taskFailedCallback now ctx uuid log taskErr s).1 = .panicked (notFoundMessage uuid) := by
  obtain ⟨sa, hD, e1, hra⟩ := Delete_reliable hs storageKeyCurrentRunningTask
  have hno1 : lookupKey (taskStorageKey uuid) sa.entries = none := by
    rw [e1, lookupKey_eraseKey_ne (taskStorageKey_ne_current uuid), hno]
  obtain ⟨sb, hG, _, _⟩ := getTaskFromStorage_reliable hra uuid (by
    intro value hv
    rw [hno1] at hv
    cases hv)
  rw [task_eq_none_of_lookupKey hno1] at hG
  simp only [taskFailedCallback, hD, hG]

theorem decodable_congr {s s1 : Storage} (he : s1.entries = s.entries) (h : s.decodable) :
    s1.decodable := by
  intro uuid value
  rw [he]
  exact h uuid value

theorem decodable_putEntry {s s1 : Storage} (key : String) (rec : Task)
    (he : s1.entries = putEntry key (Entry.record rec) s.entries) (h : s.decodable) :
    s1.decodable := by
  intro uuid value
  rw [he]
  by_cases hk : taskStorageKey uuid = key
  · rw [hk, lookupKey_putEntry_self]
    intro h1
    cases h1
  · rw [lookupKey_putEntry_ne hk]
    exact h uuid value

/-- On a storage that does not fail and whose task values all decode, the stale sweep
returns nil. -/
theorem sweepStale_reliable {now : Nat} (uuids : List String) :
    ∀ s : Storage, s.reliable → s.decodable →
      ∃ s1, sweepStale now uuids s = (none, s1) ∧ s1.reliable := by
  induction uuids with
  | nil => intro s hs _; exact ⟨s, rfl, hs⟩
  | cons uuid rest ih =>
    intro s hs hd
    obtain ⟨sa, hG, e1, hra⟩ := getTaskFromStorage_reliable hs uuid (hd uuid)
    have hda := decodable_congr e1 hd
    cases ht : s.task uuid with
    | none =>
      rw [ht] at hG
      obtain ⟨s1, h1, hr1⟩ := ih sa hra hda
      exact ⟨s1, by simp only [sweepStale, hG, h1], hr1⟩
    | some task =>
      rw [ht] at hG
      by_cases hrun : task.Status = taskStatusRunning
      · obtain ⟨sb, hP, e2, hrb⟩ := Put_reliable hra (taskStorageKey task.UUID)
          (Entry.record
            { task with Status := taskStatusFailed, Modified := now, Reason := staleReason })
        have hdb := decodable_putEntry _ _ e2 hda
        obtain ⟨s1, h1, hr1⟩ := ih sb hrb hdb
        have hP1 : putTaskIntoStorage sa
            { task with Status := taskStatusFailed, Modified := now, Reason := staleReason }
            = (none, sb) := hP
        exact ⟨s1, by simp only [sweepStale, hG, if_pos hrun, hP1, h1], hr1⟩
      · obtain ⟨s1, h1, hr1⟩ := ih sa hra hda
        exact ⟨s1, by simp only [sweepStale, hG, if_neg hrun, h1], hr1⟩

/-- On a storage that does not fail and whose task values all decode, the stale sweep
of `taskStartedCallback` returns nil. -/
theorem markStale_reliable {now : Nat} {s : Storage} (hs : s.reliable) (hd : s.decodable) :
    ∃ s1, markStaleTaskAsFailed now s = (none, s1) ∧ s1.reliable := by
  obtain ⟨sa, hL, e1, hra⟩ := List_reliable hs storageKeyPrefixTask
  obtain ⟨s1, h1, hr1⟩ := @sweepStale_reliable now (keysUnder storageKeyPrefixTask s.entries) sa hra
    (decodable_congr e1 hd)
  exact ⟨s1, by simp only [markStaleTaskAsFailed, hL, h1], hr1⟩

/-- On a well-keyed storage the stale sweep leaves an absent task key absent. -/
theorem markStale_keeps_absent {now : Nat} {s s1 : Storage} {r : Option GoError} {uuid : String}
    (h : markStaleTaskAsFailed now s = (r, s1)) (hs : s.wellKeyed)
    (hno : lookupKey (taskStorageKey uuid) s.entries = none) :
    lookupKey (taskStorageKey uuid) s1.entries = none := by
  rcases markStale_cases h with ⟨_, he⟩ | ⟨sa, he, hsw⟩
  · rw [he, hno]
  · have hsa : sa.wellKeyed := fun u t ht =>
      hs u t (by rw [← ht]; exact (task_congr u (by rw [he])).symm)
    have hnr : ∀ t, sa.task uuid = some t → t.Status ≠ taskStatusRunning := by
      intro t ht
      rw [Storage.task, he, hno] at ht
      cases ht
    rw [sweepStale_keeps_not_running uuid _ sa s1 r hsw hsa hnr, he, hno]

/-- On a well-keyed storage that does not fail and whose task values all decode,
`taskStartedCallback` panics when `task/<uuid>` is absent. -/
theorem taskStartedCallback_reliable_absent {now : Nat} {ctx : GoContext} {uuid : String}
    {s : Storage} (hs : s.reliable) (hw : s.wellKeyed) (hd : s.decodable)
    (hno : lookupKey (taskStorageKey uuid) s.entries = none) :
    (taskStartedCallback now ctx uuid s).1 = .panicked (notFoundMessage uuid) := by
  obtain ⟨sw, hM, hrw⟩ := @markStale_reliable now s hs hd
  have hnow := markStale_keeps_absent hM hw hno
  obtain ⟨sa, hD, e1, hra⟩ := Delete_reliable hrw storageKeyCurrentRunningTask
  have hno1 : lookupKey (taskStorageKey uuid) sa.entries = none := by
    rw [e1, lookupKey_eraseKey_ne (taskStorageKey_ne_current uuid), hnow]
  obtain ⟨sb, hG, _, _⟩ := getTaskFromStorage_reliable hra uuid (by
    intro value hv
    rw [hno1] at hv
    cases hv)
  rw [task_eq_none_of_lookupKey hno1] at hG
  simp only [taskStartedCallback, hM, hD, hG]

end tasks_manager

end Trdl

namespace Trdl

namespace tasks_manager

theorem emptyStorage_wellKeyed : emptyStorage.wellKeyed :=
  wellKeyed_of_all (fun kv hkv => by cases hkv)

theorem emptyStorage_decodable : emptyStorage.decodable := by
  intro uuid value h
  cases h

/-- C13, as stated, fails: the storage holds no record for "Z" and no read fails, yet
each callback returns the error of the failing `Delete` of `current_running_task`
instead of panicking. `taskCompletedCallback` and `taskFailedCallback` start with that
`Delete`; `taskStartedCallback` reaches it after the listing of the stale sweep, a read
that succeeds. -/
theorem callbacks_return_error_without_record :
    lookupKey (taskStorageKey "Z") sampleFailingStorage.entries = none ∧
      lookupKey (taskStorageKey "Z") sampleFailingSecondStorage.entries = none ∧
      (sampleFailingSecondStorage.List storageKeyPrefixTask).1 = .ok [] ∧
      (taskCompletedCallback 9 sampleContext "Z" [] sampleFailingStorage).1
        = .returned (some sampleStorageError) ∧
      (taskFailedCallback 9 sampleContext "Z" [] (some sampleBoomError)
        sampleFailingStorage).1 = .returned (some sampleStorageError) ∧
      (taskStartedCallback 9 sampleContext "Z" sampleFailingSecondStorage).1
        = .returned (some sampleStorageError) :=
  ⟨by decide, by decide, rfl, by decide, by decide, by decide⟩

/-- C13, amended: when `task/<uuid>` holds nothing, none of `taskStartedCallback`,
`taskCompletedCallback`, `taskFailedCallback` returns nil and none writes a task record
or a task log for `uuid`, whatever the storage does; and when the storage operations
succeed, each of them panics with the not-found message, so it returns neither nil nor
an error. For `taskStartedCallback` the records are taken to be stored under their own
uuids and to decode, so that the stale sweep that runs first succeeds and leaves
`task/<uuid>` absent. Step by step: once the operations before the read have succeeded
and the read has succeeded with no record, the callback panics and the storage is the
one the read left. -/
theorem callbacks_panic_without_record (now : Nat) (ctx : GoContext) (uuid : String)
    (log : Bytes) (taskErr : Option GoError) (s : Storage)
    (hno : lookupKey (taskStorageKey uuid) s.entries = none) :
    ((taskCompletedCallback now ctx uuid log s).1 ≠ .returned none ∧
      (taskCompletedCallback now ctx uuid log s).2.task uuid = none ∧
      (taskCompletedCallback now ctx uuid log s).2.taskLog uuid = s.taskLog uuid) ∧
    ((taskFailedCallback now ctx uuid log taskErr s).1 ≠ .returned none ∧
      (taskFailedCallback now ctx uuid log taskErr s).2.task uuid = none ∧
      (taskFailedCallback now ctx uuid log taskErr s).2.taskLog uuid = s.taskLog uuid) ∧
    (s.wellKeyed →
      (taskStartedCallback now ctx uuid s).1 ≠ .returned none ∧
      (taskStartedCallback now ctx uuid s).2.task uuid = none ∧
      (taskStartedCallback now ctx uuid s).2.taskLog uuid = s.taskLog uuid) ∧
    (s.reliable →
      (taskCompletedCallback now ctx uuid log s).1 = .panicked (notFoundMessage uuid) ∧
      (taskFailedCallback now ctx uuid log taskErr s).1 = .panicked (notFoundMessage uuid) ∧
      (s.wellKeyed → s.decodable →
        (taskStartedCallback now ctx uuid s).1 = .panicked (notFoundMessage uuid))) ∧
    (∀ sa sb, s.Delete storageKeyCurrentRunningTask = (none, sa) →
      getTaskFromStorage sa uuid = (.ok none, sb) →
      taskCompletedCallback now ctx uuid log s = (.panicked (notFoundMessage uuid), sb) ∧
      taskFailedCallback now ctx uuid log taskErr s
        = (.panicked (notFoundMessage uuid), sb)) ∧
    (∀ sw sa sb, markStaleTaskAsFailed now s = (none, sw) →
      sw.Delete storageKeyCurrentRunningTask = (none, sa) →
      getTaskFromStorage sa uuid = (.ok none, sb) →
      taskStartedCallback now ctx uuid s = (.panicked (notFoundMessage uuid), sb)) := by
  have hlogp : taskLogStorageKey uuid ≠ storageKeyCurrentRunningTask :=
    taskLogStorageKey_ne_current uuid
  have hfinish : ∀ (s0 s1 : Storage) (out : Outcome),
      lookupKey (taskStorageKey uuid) s0.entries = none →
      ((∃ err, out = .returned (some err)) ∨ out = .panicked (notFoundMessage uuid)) →
      (s1.entries = s0.entries ∨
        s1.entries = eraseKey storageKeyCurrentRunningTask s0.entries) →
      out ≠ .returned none ∧ s1.task uuid = none ∧ s1.taskLog uuid = s0.taskLog uuid := by
    intro s0 s1 out h0 hout hent
    refine ⟨?_, ?_, ?_⟩
    · rcases hout with ⟨err, h1⟩ | h1 <;> rw [h1] <;> intro h2 <;> cases h2
    · apply task_eq_none_of_lookupKey
      rcases hent with h1 | h1
      · rw [h1, h0]
      · rw [h1, lookupKey_eraseKey_ne (taskStorageKey_ne_current uuid), h0]
    · unfold Storage.taskLog
      rcases hent with h1 | h1
      · rw [h1]
      · rw [h1, lookupKey_eraseKey_ne hlogp]
  refine ⟨?_, ?_, ?_, ?_, ?_, ?_⟩
  · obtain ⟨hout, hent⟩ := @taskCompletedCallback_absent now ctx uuid log s _ _
      hno (Prod.mk.eta).symm
    exact hfinish s _ _ hno hout hent
  · obtain ⟨hout, hent⟩ := @taskFailedCallback_absent now ctx uuid log taskErr s _ _
      hno (Prod.mk.eta).symm
    exact hfinish s _ _ hno hout hent
  · intro hw
    obtain ⟨r, sw, hM, hrest⟩ := @taskStartedCallback_absent now ctx uuid s _ _
      (Prod.mk.eta).symm
    have hnow := markStale_keeps_absent hM hw hno
    obtain ⟨hout, hent⟩ := hrest hnow
    obtain ⟨h1, h2, h3⟩ := hfinish sw _ _ hnow hout hent
    refine ⟨h1, h2, ?_⟩
    rw [h3]
    unfold Storage.taskLog
    exact markStale_other_key
      (fun u => taskStorageKey_ne_taskLogStorageKey u uuid) hM
  · intro hs
    exact ⟨taskCompletedCallback_reliable_absent hs hno,
      taskFailedCallback_reliable_absent hs hno,
      fun hw hd => taskStartedCallback_reliable_absent hs hw hd hno⟩
  · intro sa sb hD hG
    constructor
    · simp only [taskCompletedCallback, hD, hG]
    · simp only [taskFailedCallback, hD, hG]
  · intro sw sa sb hM hD hG
    simp only [taskStartedCallback, hM, hD, hG]

/-- Witness of the amended C13 on the empty storage: each callback invoked with "Z"
panics. -/
theorem callbacks_panic_without_record_witness :
    (taskCompletedCallback 9 sampleContext "Z" [] emptyStorage).1
        = .panicked (notFoundMessage "Z") ∧
      (taskFailedCallback 9 sampleContext "Z" [] (some sampleBoomError) emptyStorage).1
        = .panicked (notFoundMessage "Z") ∧
      (taskStartedCallback 9 sampleContext "Z" emptyStorage).1
        = .panicked (notFoundMessage "Z") :=
  have H := (callbacks_panic_without_record 9 sampleContext "Z" [] (some sampleBoomError)
    emptyStorage rfl).2.2.2.1 (by intro f hf; cases hf)
  ⟨H.1, H.2.1, H.2.2 emptyStorage_wellKeyed emptyStorage_decodable⟩

end tasks_manager

end Trdl

namespace Trdl

namespace tasks_manager

/-- The world one iteration of the worker of the manager leaves when the action
returns an error: that of `taskFailedCallback`, called with that error and the log of
the action on the world the action left. -/
theorem processTask_failed_world (now : Nat) (cur : Option (worker.Job Storage))
    (chan : List (worker.Task Storage)) (task : worker.Task Storage) (s : Storage)
    (r : worker.ActionResult Storage) (err : GoError)
    (hr : task.Action task.Context (taskStartedCallback now task.Context task.UUID s).2 = r)
    (hstart : ∃ e, (taskStartedCallback now task.Context task.UUID s).1 = .returned e)
    (herr : r.err = some err) :
    (worker.Worker.processTask
        { currentJob := cur, taskChan := chan, callbacks := Manager.callbacks now } task s).2
      = (taskFailedCallback now task.Context task.UUID r.logged (some err) r.world).2 := by
  have hc : ((Manager.callbacks now).TaskStartedCallback task.Context task.UUID s).panic
      = none := by
    obtain ⟨e, he⟩ := hstart
    show (taskStartedCallback now task.Context task.UUID s).1.panic = none
    rw [he]
    rfl
  have hrp : r.panic = none := by
    cases hp : r.panic with
    | none => rfl
    | some msg =>
      have h0 := r.ok (by rw [hp]; rfl)
      rw [h0] at herr
      cases herr
  subst hr
  exact (worker.runTask_of_failed
    ({ currentJob := cur, taskChan := chan, callbacks := Manager.callbacks now } :
      worker.Worker Storage) task s err hc hrp herr).1

/-- C14, as stated, fails: the task "B" whose action returns an error with an empty
message is processed by the worker of the manager on the sample storage; the resulting
`taskFailedCallback` returns nil and the record of "B" is FAILED with an empty reason. -/
theorem failed_reason_can_be_empty :
    (sampleEmptyMessageTask.Action sampleContext
        (taskStartedCallback 9 sampleContext "B" sampleStorage).2).err = some sampleEmptyError ∧
      (taskStartedCallback 9 sampleContext "B" sampleStorage).1 = Outcome.returned none ∧
      (taskFailedCallback 9 sampleContext "B" [] (some sampleEmptyError)
        (taskStartedCallback 9 sampleContext "B" sampleStorage).2).1 = Outcome.returned none ∧
      (worker.Worker.processTask (NewManager.startNewWorker 9) sampleEmptyMessageTask
        sampleStorage).2.task "B" = some
          { UUID := "B", Status := taskStatusFailed, Created := 2, Modified := 9,
            Reason := "" } ∧
      ¬ (((worker.Worker.processTask (NewManager.startNewWorker 9) sampleEmptyMessageTask
        sampleStorage).2.task "B").map Task.Reason ≠ some "") := by
  decide

/-- C14, amended: when the started callback has returned, the action of the task
returns a non-nil error and the resulting `taskFailedCallback` of the worker returns
nil, the world the worker leaves holds the record of the task with status FAILED and
with the message of that error as reason; the reason is non-empty exactly when the
message is. -/
theorem failed_action_record (now : Nat) (cur : Option (worker.Job Storage))
    (chan : List (worker.Task Storage)) (task : worker.Task Storage) (s : Storage)
    (r : worker.ActionResult Storage) (err : GoError)
    (hr : task.Action task.Context (taskStartedCallback now task.Context task.UUID s).2 = r)
    (_hstart : ∃ e, (taskStartedCallback now task.Context task.UUID s).1 = .returned e)
    (herr : r.err = some err) (hw : r.world.wellKeyed)
    (hnil : (taskFailedCallback now task.Context task.UUID r.logged (some err) r.world).1
      = .returned none) :
    ∃ t1,
      (worker.Worker.processTask
        { currentJob := cur, taskChan := chan, callbacks := Manager.callbacks now }
        task s).2.task task.UUID = some t1 ∧
      t1.Status = taskStatusFailed ∧ t1.Reason = err.Error ∧
      (t1.Reason ≠ "" ↔ err.Error ≠ "") := by
  rw [processTask_failed_world now cur chan task s r err hr _hstart herr]
  have h : taskFailedCallback now task.Context task.UUID r.logged (some err) r.world
      = (.returned none,
        (taskFailedCallback now task.Context task.UUID r.logged (some err) r.world).2) := by
    rw [← hnil]
  obtain ⟨rec, hrec, he⟩ := taskFailedCallback_nil_entries h
  have hk := hw task.UUID rec hrec
  refine ⟨{ rec with
    Status := taskStatusFailed
    Modified := now
    Reason := reasonAfterFailure (some err) rec.Reason }, ?_, rfl, rfl, ?_⟩
  · rw [task_eq_some_iff, he,
      lookupKey_putEntry_ne (taskStorageKey_ne_taskLogStorageKey _ _), hk,
      lookupKey_putEntry_self]
  · exact Iff.rfl

/-- Witness of the amended C14: the task "B" whose action returns the error "boom",
processed on the sample storage, is left FAILED with reason "boom". -/
theorem failed_action_record_witness :
    ∃ t1,
      (worker.Worker.processTask
        { currentJob := none, taskChan := [], callbacks := Manager.callbacks 9 }
        sampleBoomTask sampleStorage).2.task "B" = some t1 ∧
      t1.Status = taskStatusFailed ∧ t1.Reason = "boom" ∧
      (t1.Reason ≠ "" ↔ sampleBoomError.Error ≠ "") :=
  failed_action_record 9 none [] sampleBoomTask sampleStorage _ sampleBoomError rfl
    ⟨none, by decide⟩ rfl (wellKeyed_of_all (by decide)) (by decide)

end tasks_manager

end Trdl

namespace Trdl

namespace worker

/-- C15, amended. Let `c` be what the started callback does for a dequeued task and `r`
what the action does after it. When both return, the worker takes these steps in this
order, each once: publish the job, call the started callback with the uuid of the task,
run the action on the world the started callback left, call the terminal callback
(`TaskFailedCallback` with the error of the action, or `TaskCompletedCallback`), clear
the current job. When the started callback panics the action and the terminal callback
are skipped, when the action panics the terminal callback is skipped; the current job
is cleared all the same. The result of `processTask` is the last state.
`HasRunningJobByTaskUUID(task uuid)` is true in every state from the publication until
the slot is cleared, and false for every uuid once the task is processed. -/
theorem processTask_steps_in_order {σ : Type} (q : Worker σ) (task : Task σ) (world : σ)
    (c : CallResult σ) (hc : q.callbacks.TaskStartedCallback task.Context task.UUID world = c)
    (r : ActionResult σ) (hr : task.Action task.Context c.world = r) :
    (c.panic = none → r.panic = none →
      (q.processTaskSteps task world).map (fun st => st.1)
        = [Step.publish, Step.started, Step.action, Step.terminal, Step.clear]) ∧
    (c.panic = none → r.panic = none → r.err = none →
      (q.processTaskSteps task world).map (fun st => st.2.world)
        = [world, c.world, r.world,
            (q.callbacks.TaskCompletedCallback task.Context task.UUID r.logged r.world).world,
            (q.callbacks.TaskCompletedCallback task.Context task.UUID r.logged r.world).world]) ∧
    (c.panic = none → r.panic = none → ∀ e, r.err = some e →
      (q.processTaskSteps task world).map (fun st => st.2.world)
        = [world, c.world, r.world,
            (q.callbacks.TaskFailedCallback task.Context task.UUID r.logged (some e)
              r.world).world,
            (q.callbacks.TaskFailedCallback task.Context task.UUID r.logged (some e)
              r.world).world]) ∧
    (∀ msg, c.panic = some msg →
      (q.processTaskSteps task world).map (fun st => (st.1, st.2.world, st.2.panic))
        = [(Step.publish, world, none), (Step.started, c.world, some msg),
            (Step.clear, c.world, some msg)]) ∧
    (c.panic = none → ∀ msg, r.panic = some msg →
      (q.processTaskSteps task world).map (fun st => (st.1, st.2.world, st.2.panic))
        = [(Step.publish, world, none), (Step.started, c.world, none),
            (Step.action, r.world, some msg), (Step.clear, r.world, some msg)]) ∧
    ((q.processTaskSteps task world).getLast?).map (fun st => (st.2.q, st.2.world))
      = some (q.processTask task world) ∧
    (∀ st ∈ q.processTaskSteps task world, st.1 ≠ Step.clear →
      (st.2.q.HasRunningJobByTaskUUID task.UUID).1 = true) ∧
    (∀ uuid, ((q.processTask task world).1.HasRunningJobByTaskUUID uuid).1 = false) := by
  subst hc hr
  have hpq : ∀ h1 : (q.callbacks.TaskStartedCallback task.Context task.UUID world).panic = none,
      ¬ (q.publish task world).started.panic.isSome = true := fun h1 =>
    not_isSome_of_eq_none h1
  refine ⟨?_, ?_, ?_, ?_, ?_, ?_, ?_, ?_⟩
  · intro hcp hrp
    have h2 : ¬ (q.publish task world).started.action.panic.isSome = true :=
      not_isSome_of_eq_none hrp
    rw [processTaskSteps_eq, if_neg (hpq hcp), if_neg h2]
    rfl
  · intro hcp hrp he
    have h2 : ¬ (q.publish task world).started.action.panic.isSome = true :=
      not_isSome_of_eq_none hrp
    have h3 : (q.publish task world).started.action.err = none := he
    rw [processTaskSteps_eq, if_neg (hpq hcp), if_neg h2]
    simp only [List.map_cons, List.map_nil, Iteration.clear, Iteration.terminal,
      Iteration.terminalCall, h3]
    rfl
  · intro hcp hrp e he
    have h2 : ¬ (q.publish task world).started.action.panic.isSome = true :=
      not_isSome_of_eq_none hrp
    have h3 : (q.publish task world).started.action.err = some e := he
    rw [processTaskSteps_eq, if_neg (hpq hcp), if_neg h2]
    simp only [List.map_cons, List.map_nil, Iteration.clear, Iteration.terminal,
      Iteration.terminalCall, h3]
    rfl
  · intro msg hcp
    have h1 : (q.publish task world).started.panic.isSome = true := isSome_of_eq_some hcp
    have h4 : (q.publish task world).started.panic = some msg := hcp
    rw [processTaskSteps_eq, if_pos h1]
    simp only [List.map_cons, List.map_nil, Iteration.clear, h4]
    rfl
  · intro hcp msg hrp
    have h2 : (q.publish task world).started.action.panic.isSome = true :=
      isSome_of_eq_some hrp
    have h4 : (q.publish task world).started.panic = none := hcp
    have h5 : (q.publish task world).started.action.panic = some msg := hrp
    rw [processTaskSteps_eq, if_neg (hpq hcp), if_pos h2]
    simp only [List.map_cons, List.map_nil, Iteration.clear, h4, h5]
    rfl
  · rw [Worker.processTask, runTask_eq, processTaskSteps_eq]
    split_ifs <;> rfl
  · intro st hst hne
    rw [processTaskSteps_eq] at hst
    have hpub : ((q.publish task world).q.HasRunningJobByTaskUUID task.UUID).1 = true := by
      simp [Worker.HasRunningJobByTaskUUID, Worker.publish, Worker.setCurrentJob, newJob]
    have hact : ((q.publish task world).started.action.q.HasRunningJobByTaskUUID
        task.UUID).1 = true := by
      simp [Worker.HasRunningJobByTaskUUID, Worker.publish, Worker.setCurrentJob, newJob,
        Iteration.action, Iteration.started, Job.appendLog]
    split_ifs at hst <;>
      simp only [List.mem_cons, List.mem_singleton, List.not_mem_nil, or_false] at hst
    · rcases hst with rfl | rfl | rfl
      · exact hpub
      · exact hpub
      · exact absurd rfl hne
    · rcases hst with rfl | rfl | rfl | rfl
      · exact hpub
      · exact hpub
      · exact hact
      · exact absurd rfl hne
    · rcases hst with rfl | rfl | rfl | rfl | rfl
      · exact hpub
      · exact hpub
      · exact hact
      · exact hact
      · exact absurd rfl hne
  · intro uuid
    have := (runTask_worker q task world).2
    simp only [Worker.processTask, Worker.HasRunningJobByTaskUUID, this]

end worker

namespace tasks_manager

/-- C15, as stated, fails: the worker of the manager dequeues the task "B", for which
the storage holds no record; the started callback panics, so the action is not run and
no terminal callback is called: the steps taken are the publication, the started
callback and the clearing of the slot. -/
theorem action_skipped_after_panic :
    (taskStartedCallback 9 sampleContext "B" emptyStorage).1
        = Outcome.panicked (notFoundMessage "B") ∧
      (worker.Worker.processTaskSteps (NewManager.startNewWorker 9) sampleBoomTask
        emptyStorage).map (fun st => st.1)
        = [worker.Step.publish, worker.Step.started, worker.Step.clear] ∧
      ¬ (worker.Step.action ∈
        (worker.Worker.processTaskSteps (NewManager.startNewWorker 9) sampleBoomTask
          emptyStorage).map (fun st => st.1)) := by
  decide

/-- Witness of the amended C15 on the sample storage: the worker of the manager takes
the five steps for the task "B", and `HasRunningJobByTaskUUID` answers false for "B"
afterwards. -/
theorem processTask_steps_in_order_witness :
    (worker.Worker.processTaskSteps (NewManager.startNewWorker 9) sampleBoomTask
        sampleStorage).map (fun st => st.1)
        = [worker.Step.publish, worker.Step.started, worker.Step.action,
            worker.Step.terminal, worker.Step.clear] ∧
      ((worker.Worker.processTask (NewManager.startNewWorker 9) sampleBoomTask
        sampleStorage).1.HasRunningJobByTaskUUID "B").1 = false :=
  have H := worker.processTask_steps_in_order (NewManager.startNewWorker 9) sampleBoomTask
    sampleStorage _ rfl _ rfl
  ⟨H.1 (by decide) (by decide), H.2.2.2.2.2.2.2 "B"⟩

end tasks_manager

end Trdl

namespace Trdl

namespace tasks_manager

/-- C1, as stated, fails: the worker of the manager dequeues the task "B", for which
the storage holds no record; the started callback panics, the panic leaves `Start`, and
no terminal callback is invoked for the task. -/
theorem no_terminal_callback_after_panic :
    (worker.Worker.Start
        { currentJob := none, taskChan := [sampleBoomTask.traced],
          callbacks := (Manager.callbacks 9).traced }
        (emptyStorage, [])).world.2 = [worker.Event.started "B"] ∧
      worker.terminals (worker.Worker.Start
        { currentJob := none, taskChan := [sampleBoomTask.traced],
          callbacks := (Manager.callbacks 9).traced }
        (emptyStorage, [])).world.2 = [] ∧
      (worker.Worker.Start
        { currentJob := none, taskChan := [sampleBoomTask.traced],
          callbacks := (Manager.callbacks 9).traced }
        (emptyStorage, [])).panic = some (notFoundMessage "B") := by
  decide

/-- Witness of the amended C1: the worker of the manager dequeues the task "B" on the
sample storage; the action logs "hi" and returns the error "boom", and the trace is the
started callback, the action and `TaskFailedCallback` with that log and that error. -/
theorem Start_one_terminal_callback_per_task_witness :
    (worker.Worker.Start
        { currentJob := none, taskChan := ([] ++ [sampleBoomTask]).map worker.Task.traced,
          callbacks := (Manager.callbacks 9).traced }
        (sampleStorage, [])).world.2
      = [] ++ [worker.Event.started "B", worker.Event.ran "B",
          worker.Event.failed "B" [104, 105] (some sampleBoomError)] :=
  congrArg Prod.snd
    ((worker.Start_one_terminal_callback_per_task (Manager.callbacks 9) none []
      sampleBoomTask sampleStorage [] _ _ rfl rfl rfl _ rfl _ rfl).2.1
      (by decide) (by decide) sampleBoomError (by decide)).1

end tasks_manager

end Trdl

namespace Trdl

namespace tasks_manager

/-- The scan for QUEUED records on a storage that does not fail and holds only
records under the task keys: it answers, leaves the entries alone, and the answer is
true exactly when one of the scanned uuids has a QUEUED record. -/
theorem anyQueued_reliable (uuids : List String) :
    ∀ {s : Storage}, s.reliable → s.decodable →
      ∃ b s1, anyQueued uuids s = (.ok b, s1) ∧ s1.entries = s.entries ∧ s1.reliable ∧
        (b = true ↔ ∃ u ∈ uuids, ∃ t, s.task u = some t ∧ t.Status = taskStatusQueued) := by
  induction uuids with
  | nil =>
    intro s hs _
    exact ⟨false, s, rfl, rfl, hs, by simp⟩
  | cons u rest ih =>
    intro s hs hd
    obtain ⟨s1, hG, he, hr⟩ := getTaskFromStorage_reliable hs u (hd u)
    obtain ⟨b, s2, hA, he2, hr2, hb⟩ := @ih s1 hr (decodable_congr he hd)
    have htask : ∀ v, s1.task v = s.task v := fun v => task_congr v (by rw [he])
    cases ht : s.task u with
    | none =>
      rw [ht] at hG
      refine ⟨b, s2, ?_, he2.trans he, hr2, ?_⟩
      · simp only [anyQueued, hG]
        exact hA
      · rw [hb]
        constructor
        · rintro ⟨v, hv, t, hvt, hq⟩
          exact ⟨v, List.mem_cons_of_mem _ hv, t, by rw [← htask v]; exact hvt, hq⟩
        · rintro ⟨v, hv, t, hvt, hq⟩
          rcases List.mem_cons.mp hv with hvu | hv
          · rw [hvu, ht] at hvt
            cases hvt
          · exact ⟨v, hv, t, by rw [htask v]; exact hvt, hq⟩
    | some task =>
      rw [ht] at hG
      by_cases hq : task.Status = taskStatusQueued
      · refine ⟨true, s1, ?_, he, hr, ?_⟩
        · simp only [anyQueued, hG, if_pos hq]
        · exact ⟨fun _ => ⟨u, List.mem_cons_self _ _, task, ht, hq⟩, fun _ => rfl⟩
      · refine ⟨b, s2, ?_, he2.trans he, hr2, ?_⟩
        · simp only [anyQueued, hG, if_neg hq]
          exact hA
        · rw [hb]
          constructor
          · rintro ⟨v, hv, t, hvt, hqv⟩
            exact ⟨v, List.mem_cons_of_mem _ hv, t, by rw [← htask v]; exact hvt, hqv⟩
          · rintro ⟨v, hv, t, hvt, hqv⟩
            rcases List.mem_cons.mp hv with hvu | hv
            · rw [hvu, ht] at hvt
              cases hvt
              exact absurd hqv hq
            · exact ⟨v, hv, t, by rw [htask v]; exact hvt, hqv⟩

/-- The listing and the scan of `AddOptionalTask` on a storage that does not fail and
holds only records under the task keys: the scan answers true exactly when some record
is QUEUED. -/
theorem anyQueued_listed {s : Storage} (hs : s.reliable) (hd : s.decodable) :
    ∃ s1 b s2, s.List storageKeyPrefixTask = (.ok (keysUnder storageKeyPrefixTask s.entries), s1) ∧
      anyQueued (keysUnder storageKeyPrefixTask s.entries) s1 = (.ok b, s2) ∧
      s2.entries = s.entries ∧ s2.reliable ∧
      (b = true ↔ ∃ u t, s.task u = some t ∧ t.Status = taskStatusQueued) := by
  obtain ⟨s1, hL, he, hr⟩ := List_reliable hs storageKeyPrefixTask
  obtain ⟨b, s2, hA, he2, hr2, hb⟩ :=
    @anyQueued_reliable (keysUnder storageKeyPrefixTask s.entries) s1 hr (decodable_congr he hd)
  have htask : ∀ v, s1.task v = s.task v := fun v => task_congr v (by rw [he])
  refine ⟨s1, b, s2, hL, hA, he2.trans he, hr2, ?_⟩
  rw [hb]
  constructor
  · rintro ⟨v, _, t, hvt, hq⟩
    exact ⟨v, t, by rw [← htask v]; exact hvt, hq⟩
  · rintro ⟨v, t, hvt, hq⟩
    exact ⟨v, mem_keysUnder_of_lookupKey s.entries (task_eq_some_iff.mp hvt), t,
      by rw [htask v]; exact hvt, hq⟩

/-- C8: on a storage that does not fail, holds only records under the task keys and
has no QUEUED record, with room in the channel, `AddOptionalTask` returns the new
non-empty uuid with `added = true` and a nil error, stores the QUEUED record under that
uuid and no other record, and appends exactly one task, with that uuid, to the channel;
the storage it leaves has that QUEUED record. In every later state of such a storage in
which any record is QUEUED, a further `AddOptionalTask` returns `("", false, nil)`,
leaves the channel as it is and leaves the entries of the storage as they are. -/
theorem AddOptionalTask_coalesces (m : Manager) (fresh : String) (now : Nat) (ctx : GoContext)
    (s : Storage) (taskFunc : TaskFunc)
    (hs : s.reliable) (hd : s.decodable) (hfresh : fresh ≠ "")
    (hnone : ∀ uuid task, s.task uuid = some task → task.Status ≠ taskStatusQueued)
    (hroom : m.taskChan.length < taskChanSize) :
    (m.AddOptionalTask fresh now ctx s taskFunc).1 = (fresh, true, none) ∧
      (m.AddOptionalTask fresh now ctx s taskFunc).1.1 ≠ "" ∧
      (m.AddOptionalTask fresh now ctx s taskFunc).2.2.task fresh
        = some (queuedTask fresh now) ∧
      (queuedTask fresh now).Status = taskStatusQueued ∧
      (∀ uuid, uuid ≠ fresh →
        (m.AddOptionalTask fresh now ctx s taskFunc).2.2.task uuid = s.task uuid) ∧
      (m.AddOptionalTask fresh now ctx s taskFunc).2.1.taskChan
        = m.taskChan ++ [{ Context := ctx, UUID := fresh, Action := taskFunc }] ∧
      (m.AddOptionalTask fresh now ctx s taskFunc).2.2.reliable ∧
      (m.AddOptionalTask fresh now ctx s taskFunc).2.2.decodable ∧
      ∀ (m1 : Manager) (s1 : Storage) (fresh2 : String) (now2 : Nat) (ctx2 : GoContext)
        (taskFunc2 : TaskFunc), s1.reliable → s1.decodable →
        (∃ uuid task, s1.task uuid = some task ∧ task.Status = taskStatusQueued) →
        (m1.AddOptionalTask fresh2 now2 ctx2 s1 taskFunc2).1 = ("", false, none) ∧
          (m1.AddOptionalTask fresh2 now2 ctx2 s1 taskFunc2).2.1 = m1 ∧
          (m1.AddOptionalTask fresh2 now2 ctx2 s1 taskFunc2).2.2.entries = s1.entries := by
  obtain ⟨s1, b, s2, hL, hA, he2, hr2, hb⟩ := anyQueued_listed hs hd
  have hbf : b = false := by
    cases b with
    | false => rfl
    | true =>
      obtain ⟨u, t, hut, hq⟩ := hb.mp rfl
      exact absurd hq (hnone u t hut)
  rw [hbf] at hA
  obtain ⟨s3, hT, he3, hr3⟩ := addTask_reliable hr2 m fresh now ctx taskFunc hroom
  have hrun : m.AddOptionalTask fresh now ctx s taskFunc =
      ((fresh, true, none),
        { taskChan := m.taskChan ++ [{ Context := ctx, UUID := fresh, Action := taskFunc }] },
        s3) := by
    simp only [Manager.AddOptionalTask, hL, hA, hT]
  rw [hrun]
  rw [he2] at he3
  refine ⟨rfl, hfresh, ?_, rfl, ?_, rfl, hr3, decodable_putEntry _ _ he3 hd, ?_⟩
  · rw [task_eq_some_iff, he3, lookupKey_putEntry_self]
  · intro uuid hne
    apply task_congr
    rw [he3]
    exact lookupKey_putEntry_ne (fun h => hne (taskStorageKey_injective h)) _ _
  · intro m1 t1 fresh2 now2 ctx2 taskFunc2 ht1 hd1 hq
    obtain ⟨t2, b1, t3, hL1, hA1, hee, _, hb1⟩ := anyQueued_listed ht1 hd1
    have hbt : b1 = true := hb1.mpr hq
    rw [hbt] at hA1
    have hrun1 : m1.AddOptionalTask fresh2 now2 ctx2 t1 taskFunc2 =
        (("", false, none), m1, t3) := by
      simp only [Manager.AddOptionalTask, hL1, hA1]
    rw [hrun1]
    exact ⟨rfl, rfl, hee⟩

/-- Witness of C8 on the empty storage and a new manager: the first `AddOptionalTask`
admits "u1"; the second, on the state the first one left, is not added and changes
neither the channel nor the entries. -/
theorem AddOptionalTask_coalesces_witness :
    (NewManager.AddOptionalTask "u1" 1 sampleContext emptyStorage noneTask).1
        = ("u1", true, none) ∧
      (((NewManager.AddOptionalTask "u1" 1 sampleContext emptyStorage noneTask).2.1).AddOptionalTask
        "u2" 2 sampleContext
        (NewManager.AddOptionalTask "u1" 1 sampleContext emptyStorage noneTask).2.2 noneTask).1
        = ("", false, none) ∧
      (((NewManager.AddOptionalTask "u1" 1 sampleContext emptyStorage noneTask).2.1).AddOptionalTask
        "u2" 2 sampleContext
        (NewManager.AddOptionalTask "u1" 1 sampleContext emptyStorage noneTask).2.2 noneTask).2.1
        = (NewManager.AddOptionalTask "u1" 1 sampleContext emptyStorage noneTask).2.1 ∧
      (((NewManager.AddOptionalTask "u1" 1 sampleContext emptyStorage noneTask).2.1).AddOptionalTask
        "u2" 2 sampleContext
        (NewManager.AddOptionalTask "u1" 1 sampleContext emptyStorage noneTask).2.2
        noneTask).2.2.entries
        = (NewManager.AddOptionalTask "u1" 1 sampleContext emptyStorage noneTask).2.2.entries :=
  have H := AddOptionalTask_coalesces NewManager "u1" 1 sampleContext emptyStorage noneTask
    (by intro f hf; cases hf) emptyStorage_decodable (by decide)
    (by intro uuid task h; cases h) (by decide)
  ⟨H.1, H.2.2.2.2.2.2.2.2 _ _ "u2" 2 sampleContext noneTask H.2.2.2.2.2.2.1 H.2.2.2.2.2.2.2.1
    ⟨"u1", queuedTask "u1" 1, H.2.2.1, rfl⟩⟩

end tasks_manager

end Trdl
